import Mathlib

/-!
# ION system heap (`drivers/staging/android/ion/ion_system_heap.c`)

A shallow embedding of the pooled page allocator of the ION system heap and a
verification of its specification.

Conventions of the embedding.

* `unsigned int` values are natural numbers reduced `% 2 ^ 32`, `unsigned long`
  values natural numbers reduced `% 2 ^ 64`, at the places where the C code
  truncates or can wrap.
* A `struct page *` is a natural number (a page handle); `nth_page(page, j)`
  and `page + j` are `page + j`.
* Heap state, the counters of `vmstat` and the traffic with the system
  allocator are fields of `World`, passed explicitly.
* A call of code outside this file that can fail (the buddy allocator, `kmalloc`,
  `sg_alloc_table`, the hypervisor calls) is answered by a function of `Env`
  applied to `World.tick`, the number of such calls made so far, so every
  pattern of failures is some `Env`.
* `BUG()` and a dereference of a null pointer end a run with `Fault.bug`.
  Loops whose number of rounds is not bounded by the syntax of the C code
  take a step budget and end with `Fault.fuel` when it runs out.
* The boost-pool tier (`CONFIG_OPLUS_ION_BOOSTPOOL`) is compiled out.
-/

namespace IonSystemHeap

/-- Abnormal end of a run. -/
inductive Fault where
  | bug
  | fuel
  deriving DecidableEq, Repr

deriving instance DecidableEq for Except

/-- The fields of `struct ion_page_pool` the heap relies on: the order of the
pool and its free list (`count` is the length of `items`). -/
structure ion_page_pool where
  order : Nat
  items : List Nat
  deriving DecidableEq, Repr

/-- The type `struct page_info` (without its list linkage). -/
structure page_info where
  page : Nat
  from_pool : Bool
  order : Nat
  deriving DecidableEq, Repr

/-- One entry of a scatter table: `sg_page(sg)` and `sg->length`
(`sg_dma_address` is `page_to_phys` of the same page). -/
structure scatterlist where
  page : Nat
  length : Nat
  deriving DecidableEq, Repr

/-- The fields of `struct ion_buffer` read or written by the heap.  The flag
tests of the C code are recorded as their results:
`force_alloc` is `flags & ION_FLAG_POOL_FORCE_ALLOC`, `cached` is
`ion_buffer_cached(buffer)`, `vmid` is `get_secure_vmid(buffer->flags)`,
`shrinker_free` is `private_flags & ION_PRIV_FLAG_SHRINKER_FREE`,
`heap_type` is `buffer->heap->type`. -/
structure ion_buffer where
  heap_type : Nat
  force_alloc : Bool
  cached : Bool
  vmid : Int
  shrinker_free : Bool
  size : Nat
  sg_table : Option (List scatterlist)
  deriving DecidableEq, Repr

/-- The pools of `struct ion_system_heap`, the two `vmstat` counters the heap
touches, and the record of the traffic with the system allocator. -/
structure World where
  uncached_pools : List ion_page_pool
  cached_pools : List ion_page_pool
  secure_pools : List (List ion_page_pool)
  NR_UNRECLAIMABLE_PAGES : Int
  NR_IONCACHE_PAGES : Int
  tick : Nat
  sys_allocated : List (Nat × Nat)
  sys_released : List (Nat × Nat)
  synced : List (Nat × Nat)
  deriving DecidableEq, Repr

/-- Which array of pools a pool pointer points into. -/
inductive pool_sel where
  | secure (vmid : Nat)
  | uncached
  | cached
  deriving DecidableEq, Repr

/-- What the heap takes from headers and files that are not part of the
sources: the Order Table `orders[]` (`ion_system_heap.h`), `PAGE_SHIFT`,
`totalram_pages`, `ARRAY_SIZE(info_onstack)`, `VMID_LAST`,
`is_secure_vmid_valid`, `ION_HEAP_TYPE_SYSTEM`, `MAKE_ION_ALLOC_DMA_READY`,
the helpers of `ion_system_secure_heap.c`, and the answers of the kernel
services that can fail (first argument: `World.tick`). -/
structure Env where
  orders : List Nat
  PAGE_SHIFT : Nat
  totalram_pages : Nat
  ONSTACK_LEN : Nat
  VMID_LAST : Nat
  is_secure_vmid_valid : Int → Bool
  ION_HEAP_TYPE_SYSTEM : Nat
  MAKE_ION_ALLOC_DMA_READY : Bool
  alloc_pages : Nat → Nat → Option Nat
  kmem_cache_alloc : Nat → Bool
  kmalloc : Nat → Nat → Bool
  vmalloc : Nat → Nat → Bool
  sg_alloc_table : Nat → Nat → Int
  ion_hyp_assign_sg : Nat → List scatterlist → Int → Int
  ion_hyp_unassign_sg : Nat → List scatterlist → Int → Int
  alloc_from_secure_pool_order : World → ion_buffer → Nat → Except Fault (Option Nat × World)
  split_page_from_secure_pool : World → ion_buffer → Except Fault (Option Nat × World)
  ion_secure_page_pool_shrink : World → Nat → Nat → Int → Except Fault (Int × World)

/-- The constant `MIN_ION_POOL_PAGES` (200 MB of 4 KiB pages). -/
def MIN_ION_POOL_PAGES : Int := 51200

/-- The constant `MIN_ION_POOL_PAGES_BOOTUP`. -/
def MIN_ION_POOL_PAGES_BOOTUP : Int := 102400

/-- The errno `ENOMEM`. -/
def ENOMEM : Int := 12

/-- The errno `EINVAL`. -/
def EINVAL : Int := 22

/-- The constant `SZ_8K`. -/
def SZ_8K : Nat := 8192

/-- Width of `unsigned int`. -/
def U32 : Nat := 2 ^ 32

/-- Width of `unsigned long`. -/
def U64 : Nat := 2 ^ 64

/-- The macro `PAGE_SIZE`, `1UL << PAGE_SHIFT`. -/
def PAGE_SIZE (env : Env) : Nat := 2 ^ env.PAGE_SHIFT

/-- The macro `NUM_ORDERS`, `ARRAY_SIZE(orders)`. -/
def NUM_ORDERS (env : Env) : Nat := env.orders.length

/-- The macro `PAGE_ALIGN` on an `unsigned long`. -/
def PAGE_ALIGN (env : Env) (size : Nat) : Nat :=
  (size + PAGE_SIZE env - 1) % U64 / PAGE_SIZE env * PAGE_SIZE env

/-- The scan of `order_to_index` from position `i`. -/
def order_to_index_from (order : Nat) : List Nat → Nat → Except Fault Nat
  | [], _ => .error .bug
  | o :: rest, i => if order = o then .ok i else order_to_index_from order rest (i + 1)

/-- The function `order_to_index`: the first position of `order` in the Order
Table; `BUG()` when there is none. -/
def order_to_index (env : Env) (order : Nat) : Except Fault Nat :=
  order_to_index_from order env.orders 0

/-- The function `order_to_size`: `PAGE_SIZE << order`, returned as
`unsigned int`. -/
def order_to_size (env : Env) (order : Nat) : Nat :=
  (PAGE_SIZE env * 2 ^ order) % U32

/-- The function `ion_heap_is_system_heap_type`. -/
def ion_heap_is_system_heap_type (env : Env) (type : Nat) : Bool :=
  type == env.ION_HEAP_TYPE_SYSTEM

/-- The search of `get_order`: the first `order` from the given one with
`pages ≤ 2 ^ order`. -/
def get_order_from (pages : Nat) : Nat → Nat → Nat
  | 0, order => order
  | fuel + 1, order => if pages ≤ 2 ^ order then order else get_order_from pages fuel (order + 1)

/-- Modelled from the spec: `get_order` (`asm-generic/getorder.h` is not among
the sources), the smallest order whose span of `2 ^ order` pages covers `size`
bytes (§4.6 "the smallest power-of-two span covering the request"). -/
def get_order (env : Env) (size : Nat) : Nat :=
  get_order_from ((size + PAGE_SIZE env - 1) / PAGE_SIZE env) 64 0

namespace World

/-- The array of pools a selector names (`none`: the array was never created). -/
def pools (w : World) : pool_sel → Option (List ion_page_pool)
  | .secure v => w.secure_pools[v]?
  | .uncached => some w.uncached_pools
  | .cached => some w.cached_pools

/-- Dereference of `pools[idx]`. -/
def get_pool (w : World) (sel : pool_sel) (idx : Nat) : Except Fault ion_page_pool :=
  match w.pools sel with
  | none => .error .bug
  | some ps =>
    match ps[idx]? with
    | none => .error .bug
    | some p => .ok p

/-- Store through the pool pointer `pools[idx]`. -/
def set_pool (w : World) (sel : pool_sel) (idx : Nat) (p : ion_page_pool) : World :=
  match sel with
  | .secure v => { w with secure_pools := w.secure_pools.set v ((w.secure_pools.getD v []).set idx p) }
  | .uncached => { w with uncached_pools := w.uncached_pools.set idx p }
  | .cached => { w with cached_pools := w.cached_pools.set idx p }

/-- The free count of a pool; `0` for a pool that does not exist. -/
def count (w : World) (sel : pool_sel) (idx : Nat) : Nat :=
  match w.pools sel with
  | none => 0
  | some ps => ((ps[idx]?).map (fun p => p.items.length)).getD 0

end World

/-- The buddy allocator, `alloc_pages(gfp, order)`: answered by the
environment; a block handed out is recorded in `sys_allocated`. -/
def alloc_pages (env : Env) (w : World) (order : Nat) : Option Nat × World :=
  match env.alloc_pages w.tick order with
  | none => (none, { w with tick := w.tick + 1 })
  | some page =>
    (some page, { w with tick := w.tick + 1, sys_allocated := w.sys_allocated ++ [(page, order)] })

/-- The buddy allocator, `__free_pages(page, order)`: the block is recorded in
`sys_released`. -/
def __free_pages (w : World) (page order : Nat) : World :=
  { w with sys_released := w.sys_released ++ [(page, order)] }

/-- Modelled from the spec: `ion_page_pool_alloc` (`ion_page_pool.c` is not
among the sources), §4.1 `withdraw`: "removes and returns one Block if the free
list is non-empty; otherwise performs a fresh system allocation at that pool's
order ..., and reports whether the result came from cache".  The caller's
`*from_pool` is false for a force-fresh buffer, which by §3 "bypass[es] pools
entirely".  A block that leaves the free list takes its `2 ^ order` pages off
`NR_IONCACHE_PAGES`. -/
def ion_page_pool_alloc (env : Env) (w : World) (sel : pool_sel) (idx : Nat) (from_pool : Bool) :
    Except Fault (Option Nat × Bool × World) :=
  match w.get_pool sel idx with
  | .error e => .error e
  | .ok pool =>
    match from_pool, pool.items with
    | true, page :: rest =>
      let w1 := w.set_pool sel idx { pool with items := rest }
      .ok (some page, true, { w1 with NR_IONCACHE_PAGES := w1.NR_IONCACHE_PAGES - 2 ^ pool.order })
    | _, _ =>
      let r := alloc_pages env w pool.order
      .ok (r.1, false, r.2)

/-- Modelled from the spec: `ion_page_pool_free` (`ion_page_pool.c` is not
among the sources), §4.1 `deposit`: "appends Block to the free list, increments
free count"; the block's `2 ^ order` pages are added to `NR_IONCACHE_PAGES`. -/
def ion_page_pool_free (w : World) (sel : pool_sel) (idx : Nat) (page : Nat) :
    Except Fault World :=
  match w.get_pool sel idx with
  | .error e => .error e
  | .ok pool =>
    let w1 := w.set_pool sel idx { pool with items := pool.items ++ [page] }
    .ok { w1 with NR_IONCACHE_PAGES := w1.NR_IONCACHE_PAGES + 2 ^ pool.order }

/-- Modelled from the spec: `ion_page_pool_free_immediate` (`ion_page_pool.c`
is not among the sources), §4.1 `deposit` for a buffer marked "must not
re-enter cache": "the Block is released to the system allocator instead". -/
def ion_page_pool_free_immediate (w : World) (sel : pool_sel) (idx : Nat) (page : Nat) :
    Except Fault World :=
  match w.get_pool sel idx with
  | .error e => .error e
  | .ok pool => .ok (__free_pages w page pool.order)

/-- Modelled from the spec: `ion_page_pool_shrink` (`ion_page_pool.c` is not
among the sources), §4.1 `shrink_scan`: "removes up to `target_count` free
Blocks ... and releases them to the system allocator; returns how many were
actually released"; with a budget of `0` it is the probe of §4.4, "compute how
much could be freed without actually releasing anything".  Each released block
takes its `2 ^ order` pages off `NR_IONCACHE_PAGES`. -/
def ion_page_pool_shrink (w : World) (sel : pool_sel) (idx : Nat) (nr_to_scan : Int) :
    Except Fault (Int × World) :=
  match w.get_pool sel idx with
  | .error e => .error e
  | .ok pool =>
    if nr_to_scan = 0 then .ok ((pool.items.length : Int), w)
    else
      let n := min nr_to_scan.toNat pool.items.length
      let gone := pool.items.take n
      let w1 := w.set_pool sel idx { pool with items := pool.items.drop n }
      .ok ((n : Int),
        { w1 with
          NR_IONCACHE_PAGES := w1.NR_IONCACHE_PAGES - (n : Int) * 2 ^ pool.order,
          sys_released := w1.sys_released ++ gone.map (fun p => (p, pool.order)) })

/-- The call `ion_pages_sync_for_device(dev, page, size, dir)`. -/
def ion_pages_sync_for_device (w : World) (page size : Nat) : World :=
  { w with synced := w.synced ++ [(page, size)] }

/-- The function `alloc_buffer_page`; the result is the page (`none` for
`IS_ERR`), the value left in `*from_pool`, and the new state. -/
def alloc_buffer_page (env : Env) (w : World) (buffer : ion_buffer) (order : Nat)
    (from_pool : Bool) : Except Fault (Option Nat × Bool × World) :=
  let cached := buffer.cached
  let vmid := buffer.vmid
  match order_to_index env order with
  | .error e => .error e
  | .ok idx =>
    let sel : pool_sel :=
      if vmid > 0 then .secure vmid.toNat
      else if !cached then .uncached
      else .cached
    match ion_page_pool_alloc env w sel idx from_pool with
    | .error e => .error e
    | .ok (none, fp, w1) => .ok (none, fp, w1)
    | .ok (some page, fp, w1) =>
      if (env.MAKE_ION_ALLOC_DMA_READY && decide (vmid ≤ 0)) || !fp then
        .ok (some page, fp, ion_pages_sync_for_device w1 page (PAGE_SIZE env * 2 ^ order % U64))
      else .ok (some page, fp, w1)

/-- The function `free_buffer_page` (boost-pool tier compiled out). -/
def free_buffer_page (env : Env) (w : World) (buffer : ion_buffer) (page order : Nat) :
    Except Fault World :=
  let cached := buffer.cached
  let vmid := buffer.vmid
  if !buffer.force_alloc then
    match order_to_index env order with
    | .error e => .error e
    | .ok idx =>
      let sel : pool_sel :=
        if vmid > 0 then .secure vmid.toNat
        else if cached then .cached
        else .uncached
      match w.get_pool sel idx with
      | .error e => .error e
      | .ok pool =>
        match (if buffer.shrinker_free then ion_page_pool_free_immediate w sel idx page
               else ion_page_pool_free w sel idx page) with
        | .error e => .error e
        | .ok w1 =>
          .ok { w1 with NR_UNRECLAIMABLE_PAGES := w1.NR_UNRECLAIMABLE_PAGES - 2 ^ pool.order }
  else
    let w1 := __free_pages w page order
    .ok { w1 with NR_UNRECLAIMABLE_PAGES := w1.NR_UNRECLAIMABLE_PAGES - 2 ^ order }

/-- The loop of `alloc_largest_available` over the rest of the Order Table;
`none` is `-ENOMEM`. -/
def alloc_largest_available_from (env : Env) (buffer : ion_buffer) (size max_order : Nat) :
    List Nat → World → Except Fault (Option page_info × World)
  | [], w => .ok (none, w)
  | o :: rest, w =>
    if size < order_to_size env o then
      alloc_largest_available_from env buffer size max_order rest w
    else if max_order < o then
      alloc_largest_available_from env buffer size max_order rest w
    else
      match alloc_buffer_page env w buffer o (!buffer.force_alloc) with
      | .error e => .error e
      | .ok (none, _, w1) => alloc_largest_available_from env buffer size max_order rest w1
      | .ok (some page, fp, w1) => .ok (some { page := page, from_pool := fp, order := o }, w1)

/-- The function `alloc_largest_available`. -/
def alloc_largest_available (env : Env) (w : World) (buffer : ion_buffer)
    (size max_order : Nat) : Except Fault (Option page_info × World) :=
  alloc_largest_available_from env buffer size max_order env.orders w

/-- The first loop of `alloc_from_pool_preferred` over the rest of the Order
Table. -/
def alloc_from_pool_preferred_from (env : Env) (buffer : ion_buffer) (size max_order : Nat) :
    List Nat → World → Except Fault (Option page_info × World)
  | [], w => .ok (none, w)
  | o :: rest, w =>
    if size < order_to_size env o then
      alloc_from_pool_preferred_from env buffer size max_order rest w
    else if max_order < o then
      alloc_from_pool_preferred_from env buffer size max_order rest w
    else
      match env.alloc_from_secure_pool_order w buffer o with
      | .error e => .error e
      | .ok (none, w1) => alloc_from_pool_preferred_from env buffer size max_order rest w1
      | .ok (some page, w1) => .ok (some { page := page, from_pool := true, order := o }, w1)

/-- The function `alloc_from_pool_preferred`. -/
def alloc_from_pool_preferred (env : Env) (w : World) (buffer : ion_buffer)
    (size max_order : Nat) : Except Fault (Option page_info × World) :=
  if buffer.force_alloc then
    alloc_largest_available env w buffer size max_order
  else
    match alloc_from_pool_preferred_from env buffer size max_order env.orders w with
    | .error e => .error e
    | .ok (some info, w1) => .ok (some info, w1)
    | .ok (none, w1) =>
      match env.split_page_from_secure_pool w1 buffer with
      | .error e => .error e
      | .ok (some page, w2) => .ok (some { page := page, from_pool := true, order := 0 }, w2)
      | .ok (none, w2) => alloc_largest_available env w2 buffer size max_order

/-- The local variables of `ion_system_heap_allocate` that live across its
first loop: the two lists, the block count `i`, `nents_sync`,
`size_remaining`, `max_order`, `data.size` and `ret`. -/
structure alloc_locals where
  pages : List page_info
  pages_from_pool : List page_info
  i : Nat
  nents_sync : Nat
  size_remaining : Nat
  max_order : Nat
  data_size : Nat
  ret : Int
  deriving DecidableEq, Repr

/-- How the first loop of `ion_system_heap_allocate` is left: its condition
became false, or `goto err`. -/
inductive loop_exit where
  | done
  | goto_err
  deriving DecidableEq, Repr

/-- The bookkeeping of one round of the first loop of
`ion_system_heap_allocate` on its local variables, from
`sz = (1 << info->order) * PAGE_SIZE` to `i++`, after a block was obtained
(`ret` is `0` then). -/
def alloc_account (env : Env) (s : alloc_locals) (info : page_info) : alloc_locals :=
  let sz := (2 ^ info.order * PAGE_SIZE env) % U32
  let s1 : alloc_locals :=
    if info.from_pool then
      { s with pages_from_pool := s.pages_from_pool ++ [info], ret := 0 }
    else
      { s with pages := s.pages ++ [info], data_size := (s.data_size + sz) % U32,
               nents_sync := s.nents_sync + 1, ret := 0 }
  { s1 with size_remaining := (s1.size_remaining + U64 - sz) % U64,
            max_order := info.order, i := s1.i + 1 }

/-- The tracking node of one round of the first loop: a slot of `info_onstack`,
or `kmem_cache_alloc` once the array is used up (`false`: it returned null). -/
def alloc_node (env : Env) (w : World) (s : alloc_locals) : Bool × World :=
  if s.i ≥ env.ONSTACK_LEN then
    (env.kmem_cache_alloc w.tick, { w with tick := w.tick + 1 })
  else (true, w)

/-- The block of one round of the first loop: `alloc_from_pool_preferred` for a
valid secure vmid, `alloc_largest_available` otherwise. -/
def alloc_block (env : Env) (w : World) (buffer : ion_buffer) (s : alloc_locals) :
    Except Fault (Option page_info × World) :=
  if env.is_secure_vmid_valid buffer.vmid then
    alloc_from_pool_preferred env w buffer s.size_remaining s.max_order
  else
    alloc_largest_available env w buffer s.size_remaining s.max_order

/-- The first loop of `ion_system_heap_allocate`,
`while (size_remaining > 0) { ... }`.  `free_info` only returns a tracking node
to its cache and changes nothing that is modelled. -/
def alloc_loop (env : Env) (buffer : ion_buffer) :
    Nat → World → alloc_locals → Except Fault (loop_exit × World × alloc_locals)
  | fuel, w, s =>
    if s.size_remaining = 0 then .ok (.done, w, s)
    else
      match fuel with
      | 0 => .error .fuel
      | fuel + 1 =>
        let node := alloc_node env w s
        if !node.1 then .ok (.goto_err, node.2, s)
        else
          match alloc_block env node.2 buffer s with
          | .error e => .error e
          | .ok (none, w1) => .ok (.goto_err, w1, { s with ret := -ENOMEM })
          | .ok (some info, w1) =>
            alloc_loop env buffer fuel
              { w1 with NR_UNRECLAIMABLE_PAGES := w1.NR_UNRECLAIMABLE_PAGES + 2 ^ info.order }
              (alloc_account env s info)

/-- The function `ion_heap_alloc_pages_mem`: `true` when the page table of
`data` could be allocated. -/
def ion_heap_alloc_pages_mem (env : Env) (w : World) (data_size : Nat) : Bool × World :=
  let page_tbl_size := (8 * (data_size / PAGE_SIZE env)) % U32
  if page_tbl_size > SZ_8K then
    if env.kmalloc w.tick page_tbl_size then (true, { w with tick := w.tick + 1 })
    else (env.vmalloc (w.tick + 1) page_tbl_size, { w with tick := w.tick + 2 })
  else
    (env.kmalloc w.tick page_tbl_size, { w with tick := w.tick + 1 })

/-- The state of the merge loop of `ion_system_heap_allocate`: the two lists,
the entries written through the cursors `sg` and `sg_sync`, the number of
entries of `table_sync` from `sg_sync` to its end (`0`: `sg_sync` is null), the
stores `data->pages[index] = page` made so far, and the index `i`. -/
structure merge_state where
  pages : List page_info
  pages_from_pool : List page_info
  table : List scatterlist
  table_sync : List scatterlist
  sync_left : Nat
  data_pages : List (Nat × Nat)
  i : Nat
  deriving DecidableEq, Repr

/-- The function `process_info`, called on the head `info` of the list named by
`fresh` (`true`: `pages`, with the cursor `sg_sync` and `&data`; `false`:
`pages_from_pool`, with null for both).  `list_del` unlinks that head. -/
def process_info (env : Env) (m : merge_state) (info : page_info) (fresh : Bool) : merge_state :=
  let len := (2 ^ info.order * PAGE_SIZE env) % U32
  let m1 : merge_state :=
    if fresh && decide (0 < m.sync_left) then
      { m with table_sync := m.table_sync ++ [{ page := info.page, length := len }] }
    else m
  let m2 : merge_state := { m1 with table := m1.table ++ [{ page := info.page, length := len }] }
  let m3 : merge_state :=
    if fresh then
      { m2 with
        data_pages := m2.data_pages ++
          (List.range (2 ^ info.order)).map (fun j => ((m2.i + j) % U32, info.page + j)),
        i := (m2.i + 2 ^ info.order) % U32 }
    else m2
  if fresh then { m3 with pages := m3.pages.tail }
  else { m3 with pages_from_pool := m3.pages_from_pool.tail }

/-- The statement `sg_sync = sg_next(sg_sync)`; `sg_next` dereferences its
argument. -/
def sg_sync_next (m : merge_state) : Except Fault merge_state :=
  if m.sync_left = 0 then .error .bug
  else .ok { m with sync_left := m.sync_left - 1 }

/-- One round of the merge loop, up to `sg = sg_next(sg)`. -/
def merge_step (env : Env) (m : merge_state) : Except Fault merge_state :=
  match m.pages.head?, m.pages_from_pool.head? with
  | some info, some tmp_info =>
    if info.order ≥ tmp_info.order then sg_sync_next (process_info env m info true)
    else .ok (process_info env m tmp_info false)
  | some info, none => sg_sync_next (process_info env m info true)
  | none, some tmp_info => .ok (process_info env m tmp_info false)
  | none, none => .ok m

/-- The merge loop `do { ... sg = sg_next(sg); } while (sg);` with `left`
entries of `table` from the cursor `sg` to its end. -/
def merge_loop (env : Env) : Nat → merge_state → Except Fault merge_state
  | 0, m => .ok m
  | left + 1, m =>
    match merge_step env m with
    | .error e => .error e
    | .ok m1 => merge_loop env left m1

/-- The merge of `ion_system_heap_allocate` on a table of `nents` entries and a
sync table of `nents_sync` entries.  With `nents = 0` the cursor `sg` starts
null and the first `sg_next(sg)` dereferences it. -/
def merge_lists (env : Env) (nents nents_sync : Nat) (pages pages_from_pool : List page_info) :
    Except Fault merge_state :=
  if nents = 0 then .error .bug
  else
    merge_loop env nents
      { pages := pages, pages_from_pool := pages_from_pool, table := [], table_sync := [],
        sync_left := nents_sync, data_pages := [], i := 0 }

/-- A `list_for_each_entry_safe` loop of the label `err`: every block of the
list goes through `free_buffer_page`. -/
def free_info_list (env : Env) (buffer : ion_buffer) : List page_info → World → Except Fault World
  | [], w => .ok w
  | info :: rest, w =>
    match free_buffer_page env w buffer info.page info.order with
    | .error e => .error e
    | .ok w1 => free_info_list env buffer rest w1

/-- The label `err` of `ion_system_heap_allocate`. -/
def allocate_err (env : Env) (w : World) (buffer : ion_buffer)
    (pages pages_from_pool : List page_info) : Except Fault World :=
  match free_info_list env buffer pages w with
  | .error e => .error e
  | .ok w1 => free_info_list env buffer pages_from_pool w1

/-- The loop `for_each_sg(table->sgl, sg, table->nents, i) free_buffer_page(...,
sg_page(sg), get_order(sg->length))`. -/
def free_table_pages (env : Env) (buffer : ion_buffer) : List scatterlist → World → Except Fault World
  | [], w => .ok w
  | sg :: rest, w =>
    match free_buffer_page env w buffer sg.page (get_order env sg.length) with
    | .error e => .error e
    | .ok w1 => free_table_pages env buffer rest w1

/-- The label `err_free_sg2` of `ion_system_heap_allocate` down to the `return
ret` of the label `err`, entered with the merged `table` and the two lists as
the merge left them. -/
def allocate_err_free_sg2 (env : Env) (w : World) (buffer : ion_buffer) (ret : Int)
    (table : List scatterlist) (pages pages_from_pool : List page_info) :
    Except Fault (Int × ion_buffer × World) :=
  let buffer1 := { buffer with shrinker_free := true }
  let vmid := buffer.vmid
  let unassign_failed : Bool × World :=
    if vmid > 0 then
      (decide (env.ion_hyp_unassign_sg w.tick table vmid ≠ 0), { w with tick := w.tick + 1 })
    else (false, w)
  match (if unassign_failed.1 then Except.ok unassign_failed.2
         else free_table_pages env buffer1 table unassign_failed.2) with
  | .error e => .error e
  | .ok w1 =>
    match allocate_err env w1 buffer1 pages pages_from_pool with
    | .error e => .error e
    | .ok w2 => .ok (ret, buffer1, w2)

/-- The label `err` of `ion_system_heap_allocate` with its `return ret`. -/
def allocate_fail (env : Env) (w : World) (buffer : ion_buffer) (s : alloc_locals) (ret : Int) :
    Except Fault (Int × ion_buffer × World) :=
  match allocate_err env w buffer s.pages s.pages_from_pool with
  | .error e => .error e
  | .ok w1 => .ok (ret, buffer, w1)

/-- The allocations of `ion_system_heap_allocate` between its two loops:
`ion_heap_alloc_pages_mem(&data)`, `kmalloc` of the table, `sg_alloc_table` of
the table and, with a fresh block, of the sync table.  The result is `ret`:
`0`, or the error with which the function goes to one of the labels
`err_free_sg`, `err1`, `err_free_data_pages`, `err`, which differ only in
memory that is not modelled. -/
def allocate_tables (env : Env) (w : World) (s : alloc_locals) : Int × World :=
  let data := ion_heap_alloc_pages_mem env w s.data_size
  if !data.1 then (-ENOMEM, data.2)
  else
    let w1 := data.2
    let w2 := { w1 with tick := w1.tick + 1 }
    if !env.kmalloc w1.tick 16 then (-ENOMEM, w2)
    else
      let ret := env.sg_alloc_table w2.tick s.i
      let w3 := { w2 with tick := w2.tick + 1 }
      if ret ≠ 0 then (ret, w3)
      else if s.nents_sync ≠ 0 then
        (env.sg_alloc_table w3.tick s.nents_sync, { w3 with tick := w3.tick + 1 })
      else (0, w3)

/-- The ownership assignment after the merge,
`if (nents_sync) { if (vmid > 0) ret = ion_hyp_assign_sg(&table_sync, ...) }`;
the result is `ret` (`0` when nothing was to be assigned). -/
def allocate_assign (env : Env) (w : World) (buffer : ion_buffer) (s : alloc_locals)
    (m : merge_state) : Int × World :=
  if s.nents_sync ≠ 0 ∧ buffer.vmid > 0 then
    (env.ion_hyp_assign_sg w.tick m.table_sync buffer.vmid, { w with tick := w.tick + 1 })
  else (0, w)

/-- The part of `ion_system_heap_allocate` after its first loop, from
`ion_heap_alloc_pages_mem(&data)` to the end. -/
def allocate_finish (env : Env) (w : World) (buffer : ion_buffer) (s : alloc_locals) :
    Except Fault (Int × ion_buffer × World) :=
  let tables := allocate_tables env w s
  if tables.1 ≠ 0 then allocate_fail env tables.2 buffer s tables.1
  else
    match merge_lists env s.i s.nents_sync s.pages s.pages_from_pool with
    | .error e => .error e
    | .ok m =>
      let assign := allocate_assign env tables.2 buffer s m
      if assign.1 ≠ 0 then
        allocate_err_free_sg2 env assign.2 buffer assign.1 m.table m.pages m.pages_from_pool
      else
        .ok (0, { buffer with sg_table := some m.table }, assign.2)

/-- The values of the local variables of `ion_system_heap_allocate` at the
entry of its first loop. -/
def alloc_locals_init (env : Env) (size : Nat) : alloc_locals :=
  { pages := [], pages_from_pool := [], i := 0, nents_sync := 0,
    size_remaining := PAGE_ALIGN env size, max_order := env.orders.headD 0,
    data_size := 0, ret := -ENOMEM }

/-- The function `ion_system_heap_allocate` (boost-pool tier compiled out): the
returned `int`, the buffer and the state it leaves. -/
def ion_system_heap_allocate (env : Env) (fuel : Nat) (w : World) (buffer : ion_buffer)
    (size : Nat) : Except Fault (Int × ion_buffer × World) :=
  let vmid := buffer.vmid
  if size / PAGE_SIZE env > env.totalram_pages / 2 then .ok (-ENOMEM, buffer, w)
  else if ion_heap_is_system_heap_type env buffer.heap_type && env.is_secure_vmid_valid vmid then
    .ok (-EINVAL, buffer, w)
  else
    match alloc_loop env buffer fuel w (alloc_locals_init env size) with
    | .error e => .error e
    | .ok (.goto_err, w1, s) => allocate_fail env w1 buffer s s.ret
    | .ok (.done, w1, s) => allocate_finish env w1 buffer s

/-- The function `ion_system_heap_free`.  `ion_heap_buffer_zero` and the
release of the table itself change nothing that is modelled. -/
def ion_system_heap_free (env : Env) (w : World) (buffer : ion_buffer) : Except Fault World :=
  match buffer.sg_table with
  | none => .error .bug
  | some table =>
    let vmid := buffer.vmid
    let gate : Bool × World :=
      if !buffer.shrinker_free && !buffer.force_alloc then (false, w)
      else if vmid > 0 then
        (decide (env.ion_hyp_unassign_sg w.tick table vmid ≠ 0), { w with tick := w.tick + 1 })
      else (false, w)
    if gate.1 then .ok gate.2
    else free_table_pages env buffer table gate.2

/-- The secure pass of one round of `ion_system_heap_shrink`:
`for (j = 0; j < VMID_LAST; j++) if (is_secure_vmid_valid(j)) nr_freed += ...`,
run over the vmids `j, j + 1, ...` for `n` rounds. -/
def shrink_secure (env : Env) (i : Nat) (nr_to_scan : Int) :
    Nat → Nat → Int → World → Except Fault (Int × World)
  | 0, _, nr_freed, w => .ok (nr_freed, w)
  | n + 1, j, nr_freed, w =>
    if env.is_secure_vmid_valid (j : Int) then
      match env.ion_secure_page_pool_shrink w j i nr_to_scan with
      | .error e => .error e
      | .ok (freed, w1) => shrink_secure env i nr_to_scan n (j + 1) (nr_freed + freed) w1
    else shrink_secure env i nr_to_scan n (j + 1) nr_freed w

/-- The loop of `ion_system_heap_shrink` over the orders `i, i + 1, ...` for
`n` rounds (boost-pool tier compiled out). -/
def shrink_loop (env : Env) (only_scan : Bool) :
    Nat → Nat → Int → Int → World → Except Fault (Int × World)
  | 0, _, _, nr_total, w => .ok (nr_total, w)
  | n + 1, i, nr_to_scan, nr_total, w =>
    if w.NR_IONCACHE_PAGES < MIN_ION_POOL_PAGES then .ok (nr_total, w)
    else
      match shrink_secure env i nr_to_scan env.VMID_LAST 0 0 w with
      | .error e => .error e
      | .ok (freed_s, w1) =>
        match ion_page_pool_shrink w1 .uncached i nr_to_scan with
        | .error e => .error e
        | .ok (freed_u, w2) =>
          match ion_page_pool_shrink w2 .cached i nr_to_scan with
          | .error e => .error e
          | .ok (freed_c, w3) =>
            let nr_freed := freed_s + freed_u + freed_c
            let nr_total1 := nr_total + nr_freed
            if !only_scan then
              let nr_to_scan1 := nr_to_scan - nr_freed
              if nr_to_scan1 ≤ 0 then .ok (nr_total1, w3)
              else shrink_loop env only_scan n (i + 1) nr_to_scan1 nr_total1 w3
            else shrink_loop env only_scan n (i + 1) nr_to_scan nr_total1 w3

/-- The function `ion_system_heap_shrink` (boost-pool tier compiled out). -/
def ion_system_heap_shrink (env : Env) (w : World) (nr_to_scan : Int) : Except Fault (Int × World) :=
  let only_scan : Bool := decide (nr_to_scan = 0)
  shrink_loop env only_scan (NUM_ORDERS env) 0 nr_to_scan 0 w

/-! ## The contiguous heap -/

/-- The `int` expression `1 << order`, converted to `unsigned long` for the
comparison with an `unsigned long`: `2 ^ order` for `order < 31`; from
`order = 31` on the shift leaves the range of `int`, and the value is wrapped
to 32 bits and sign-extended. -/
def int_shl_one (order : Nat) : Nat :=
  if 2 ^ order % U32 < 2 ^ 31 then 2 ^ order % U32 else 2 ^ order % U32 + (U64 - U32)

/-- The loop `for (i = first; i < last; i++) __free_page(page + i);`
(`__free_page(p)` is `__free_pages(p, 0)`). -/
def free_page_range (w : World) (page first last : Nat) : World :=
  (List.range' first (last - first)).foldl (fun w1 i => __free_pages w1 (page + i) 0) w

/-- The function `ion_system_contig_heap_allocate`: the returned `int`, the
buffer and the state it leaves.  `split_page` changes nothing that is
modelled. -/
def ion_system_contig_heap_allocate (env : Env) (w : World) (buffer : ion_buffer) (len : Nat) :
    Int × ion_buffer × World :=
  let order := get_order env len
  match alloc_pages env w order with
  | (none, w1) => (-ENOMEM, buffer, w1)
  | (some page, w1) =>
    let len1 := PAGE_ALIGN env len
    let w2 := free_page_range w1 page (len1 / PAGE_SIZE env) (int_shl_one order)
    let w3 := { w2 with tick := w2.tick + 1 }
    if !env.kmalloc w2.tick 16 then
      (-ENOMEM, buffer, free_page_range w3 page 0 (len1 / PAGE_SIZE env))
    else
      let ret := env.sg_alloc_table w3.tick 1
      let w4 := { w3 with tick := w3.tick + 1 }
      if ret ≠ 0 then (ret, buffer, free_page_range w4 page 0 (len1 / PAGE_SIZE env))
      else
        (0, { buffer with sg_table := some [{ page := page, length := len1 % U32 }] },
          ion_pages_sync_for_device w4 page len1)

/-- The function `ion_system_contig_heap_free`.  `sg_page(table->sgl)`
dereferences the table and its first entry; the release of the table itself
changes nothing that is modelled. -/
def ion_system_contig_heap_free (env : Env) (w : World) (buffer : ion_buffer) :
    Except Fault World :=
  match buffer.sg_table with
  | none => .error .bug
  | some [] => .error .bug
  | some (sg :: _) =>
    .ok (free_page_range w sg.page 0 (PAGE_ALIGN env buffer.size / PAGE_SIZE env))


/-! ## Reference definitions after the words of the specification -/

/-- The merge of §4.3 in the words of the specification: "repeatedly comparing
the head of each list and emitting the one with the larger-or-equal order
first; ties favor the fresh list". -/
def spec_stable_merge : List page_info → List page_info → List page_info
  | [], pooled => pooled
  | fresh, [] => fresh
  | f :: fresh, p :: pooled =>
    if f.order ≥ p.order then f :: spec_stable_merge fresh (p :: pooled)
    else p :: spec_stable_merge (f :: fresh) pooled

/-- The choice of step 4 of §4.2 in the words of the specification, without the
ceiling: "the largest order `o` in the Order Table such that
`order_to_size(o) ≤ remaining`". -/
def spec_largest_fit (env : Env) (remaining : Nat) : Option Nat :=
  ((env.orders.filter (fun o => decide (PAGE_SIZE env * 2 ^ o ≤ remaining))).max?)

/-- The greedy decomposition of §4.2 in the words of the specification: pick
the largest fitting order, subtract its byte size, "continue until
`remaining == 0` or no order satisfies the size ... constraint". -/
def spec_greedy (env : Env) : Nat → Nat → List Nat
  | 0, _ => []
  | fuel + 1, remaining =>
    if remaining = 0 then []
    else
      match spec_largest_fit env remaining with
      | none => []
      | some o => o :: spec_greedy env fuel (remaining - PAGE_SIZE env * 2 ^ o)

/-- The scatter entry `process_info` writes for a block. -/
def sg_of (env : Env) (info : page_info) : scatterlist :=
  { page := info.page, length := (2 ^ info.order * PAGE_SIZE env) % U32 }

/-! ## Concrete configurations -/

/-- Modelled from the spec: `alloc_from_secure_pool_order`
(`ion_system_secure_heap.c` is not among the sources), §4.2 step 4 "try the
domain's pool at order `o`": a withdrawal from the secure pool of the buffer's
vmid that never falls back to the system allocator. -/
def spec_alloc_from_secure_pool_order (orders : List Nat) (w : World) (buffer : ion_buffer)
    (order : Nat) : Except Fault (Option Nat × World) :=
  match order_to_index_from order orders 0 with
  | .error e => .error e
  | .ok idx =>
    match w.get_pool (.secure buffer.vmid.toNat) idx with
    | .error e => .error e
    | .ok pool =>
      match pool.items with
      | [] => .ok (none, w)
      | page :: rest =>
        let w1 := w.set_pool (.secure buffer.vmid.toNat) idx { pool with items := rest }
        .ok (some page, { w1 with NR_IONCACHE_PAGES := w1.NR_IONCACHE_PAGES - 2 ^ pool.order })

/-- Modelled from the spec: `ion_secure_page_pool_shrink`
(`ion_system_secure_heap.c` is not among the sources), §4.4 "give ... any
secure-domain pools a chance to contribute": the `shrink_scan` of §4.1 on the
secure pool `secure_pools[vmid][idx]`. -/
def spec_ion_secure_page_pool_shrink (w : World) (vmid idx : Nat) (nr_to_scan : Int) :
    Except Fault (Int × World) :=
  ion_page_pool_shrink w (.secure vmid) idx nr_to_scan

/-- A configuration with the given Order Table, `ARRAY_SIZE(info_onstack)` and
answers of the buddy allocator and of `kmem_cache_alloc`: 4 KiB pages, 8 GiB of
RAM, no valid secure vmid, every other kernel service succeeding.  It is used
with heaps whose secure pools are empty, where `split_page_from_secure_pool`
finds no block to split. -/
def mk_env (orders : List Nat) (onstack_len : Nat) (alloc_pages : Nat → Nat → Option Nat)
    (kmem_cache_alloc : Nat → Bool) : Env :=
  { orders := orders
    PAGE_SHIFT := 12
    totalram_pages := 2097152
    ONSTACK_LEN := onstack_len
    VMID_LAST := 0
    is_secure_vmid_valid := fun _ => false
    ION_HEAP_TYPE_SYSTEM := 0
    MAKE_ION_ALLOC_DMA_READY := false
    alloc_pages := alloc_pages
    kmem_cache_alloc := kmem_cache_alloc
    kmalloc := fun _ _ => true
    vmalloc := fun _ _ => true
    sg_alloc_table := fun _ _ => 0
    ion_hyp_assign_sg := fun _ _ _ => 0
    ion_hyp_unassign_sg := fun _ _ _ => 0
    alloc_from_secure_pool_order := spec_alloc_from_secure_pool_order orders
    split_page_from_secure_pool := fun w _ => .ok (none, w)
    ion_secure_page_pool_shrink := spec_ion_secure_page_pool_shrink }

/-- A heap with one empty pool per order of the table and per cacheability, and
no secure pools. -/
def empty_world (orders : List Nat) : World :=
  { uncached_pools := orders.map (fun o => { order := o, items := [] })
    cached_pools := orders.map (fun o => { order := o, items := [] })
    secure_pools := []
    NR_UNRECLAIMABLE_PAGES := 0
    NR_IONCACHE_PAGES := 0
    tick := 0
    sys_allocated := []
    sys_released := []
    synced := [] }

/-- A cached, non-secure buffer of the system heap with no flag set. -/
def plain_buffer : ion_buffer :=
  { heap_type := 0, force_alloc := false, cached := true, vmid := -22,
    shrinker_free := false, size := 0, sg_table := none }


/-- A configuration like `mk_env` with one valid secure vmid, `10`, and the
given answers of the two hypervisor calls. -/
def mk_secure_env (orders : List Nat) (alloc_pages : Nat → Nat → Option Nat)
    (assign unassign : Int) : Env :=
  { mk_env orders 128 alloc_pages (fun _ => true) with
    VMID_LAST := 11
    is_secure_vmid_valid := fun v => decide (v = 10)
    ion_hyp_assign_sg := fun _ _ _ => assign
    ion_hyp_unassign_sg := fun _ _ _ => unassign }

/-- A heap like `empty_world` with empty secure pools for the vmids `0 .. 10`. -/
def empty_secure_world (orders : List Nat) : World :=
  { empty_world orders with
    secure_pools := List.replicate 11 (orders.map (fun o => { order := o, items := [] })) }

/-- A buffer of the secure domain with vmid `10`, on a heap of type `heap_type`. -/
def secure_buffer (heap_type : Nat) : ion_buffer :=
  { plain_buffer with heap_type := heap_type, cached := false, vmid := 10 }

/-- A heap whose cached pool of order 9 holds `n` blocks (handles `0 .. n - 1`)
and whose cached pool of order 0 holds the pages `singles`, every other pool
empty, with `NR_IONCACHE_PAGES` the `512 * n + singles.length` pooled pages. -/
def pooled_world (n : Nat) (singles : List Nat) : World :=
  { empty_world [9, 4, 0] with
    cached_pools := [{ order := 9, items := List.range n }, { order := 4, items := [] },
                     { order := 0, items := singles }]
    NR_IONCACHE_PAGES := 512 * (n : Int) + (singles.length : Int) }

/-- A heap like `empty_world [8, 4, 0]` whose cached pool of order 4 holds one
block, the handle `77`. -/
def one_block_world : World :=
  { empty_world [8, 4, 0] with
    cached_pools := [{ order := 8, items := [] }, { order := 4, items := [77] },
                     { order := 0, items := [] }]
    NR_IONCACHE_PAGES := 16 }

/-! ## Predicates used in the statements -/

/-- What the first loop keeps true of its local variables: each list is
non-increasing in order, no block is below the ceiling `max_order`, `i` counts
the blocks and `nents_sync` the fresh ones, every fresh block is marked fresh
and every pooled one pooled. -/
structure lists_ok (s : alloc_locals) : Prop where
  sorted_pages : (s.pages.map (fun b => b.order)).Pairwise (fun a b => a ≥ b)
  sorted_pool : (s.pages_from_pool.map (fun b => b.order)).Pairwise (fun a b => a ≥ b)
  above : ∀ b ∈ s.pages ++ s.pages_from_pool, s.max_order ≤ b.order
  count : s.i = s.pages.length + s.pages_from_pool.length
  sync : s.nents_sync = s.pages.length
  fresh : ∀ b ∈ s.pages, b.from_pool = false
  pooled : ∀ b ∈ s.pages_from_pool, b.from_pool = true

/-- The pool array `free_buffer_page` and `alloc_buffer_page` pick for a buffer
that is not secure (`vmid ≤ 0`). -/
def buffer_sel (buffer : ion_buffer) : pool_sel :=
  if buffer.cached then .cached else .uncached

/-- An array of pools as `ion_system_heap_create_pools` builds it: pool `i` has
order `orders[i]`. -/
def pools_created (env : Env) (ps : List ion_page_pool) : Prop :=
  ps.map (fun p => p.order) = env.orders

/-- The two non-secure pool arrays are as `ion_system_heap_create` builds them. -/
def heap_created (env : Env) (w : World) : Prop :=
  pools_created env w.uncached_pools ∧ pools_created env w.cached_pools

/-- The number of blocks of a list whose pool, the one `free_buffer_page` picks
with `order_to_index(order)`, is the pool at position `idx`. -/
def blocks_at (env : Env) (blocks : List page_info) (idx : Nat) : Nat :=
  blocks.countP (fun b => decide (order_to_index env b.order = .ok idx))

/-- The number of blocks of a list that belong to the pool `idx` of the array
`sel`, for blocks of the given non-secure buffer. -/
def pool_share (env : Env) (buffer : ion_buffer) (blocks : List page_info) (sel : pool_sel)
    (idx : Nat) : Nat :=
  if sel = buffer_sel buffer then blocks_at env blocks idx else 0

/-- The block of a round, as a list, when it came out of a pool. -/
def withdrawn (res : Option page_info) : List page_info :=
  match res with
  | some info => if info.from_pool then [info] else []
  | none => []

/-- The pages `page + first`, ..., `page + last - 1` as single pages. -/
def page_run (page first last : Nat) : List (Nat × Nat) :=
  (List.range' first (last - first)).map (fun i => (page + i, 0))

/-- The pages of a list of blocks, `2 ^ order` for each. -/
def fresh_pages (blocks : List page_info) : Nat :=
  (blocks.map (fun b => 2 ^ b.order)).sum

/-- The bytes of a list of blocks, `(1 << order) * PAGE_SIZE` for each. -/
def fresh_bytes (env : Env) (blocks : List page_info) : Nat :=
  (blocks.map (fun b => 2 ^ b.order * PAGE_SIZE env)).sum

/-- The stores `data->pages[i++] = nth_page(page, j)` that `process_info` makes
for the blocks of the fresh list, in the order of the list, from the index `i`. -/
def page_stores : Nat → List page_info → List (Nat × Nat)
  | _, [] => []
  | i, b :: rest =>
    (List.range (2 ^ b.order)).map (fun j => ((i + j) % U32, b.page + j)) ++
      page_stores ((i + 2 ^ b.order) % U32) rest

/-! ## The merge loop -/

theorem spec_stable_merge_nil_left (pooled : List page_info) :
    spec_stable_merge [] pooled = pooled := by
  cases pooled <;> simp [spec_stable_merge]

theorem spec_stable_merge_nil_right (fresh : List page_info) :
    spec_stable_merge fresh [] = fresh := by
  cases fresh <;> simp [spec_stable_merge]

theorem spec_stable_merge_perm (fresh pooled : List page_info) :
    (spec_stable_merge fresh pooled).Perm (fresh ++ pooled) := by
  induction fresh generalizing pooled with
  | nil => simp [spec_stable_merge_nil_left]
  | cons f fresh ihf =>
    induction pooled with
    | nil => simp [spec_stable_merge_nil_right]
    | cons p pooled ihp =>
      by_cases h : f.order ≥ p.order
      · simp only [spec_stable_merge, h, if_true, List.cons_append]
        exact (ihf (p :: pooled)).cons f
      · simp only [spec_stable_merge, h, if_false]
        refine (ihp.cons p).trans ?_
        simpa using (@List.perm_middle _ p (f :: fresh) pooled).symm

theorem spec_stable_merge_sublist_left (fresh pooled : List page_info) :
    fresh.Sublist (spec_stable_merge fresh pooled) := by
  induction fresh generalizing pooled with
  | nil => simp
  | cons f fresh ihf =>
    induction pooled with
    | nil => simp [spec_stable_merge_nil_right]
    | cons p pooled ihp =>
      by_cases h : f.order ≥ p.order
      · simp only [spec_stable_merge, h, if_true]
        exact (ihf (p :: pooled)).cons₂ f
      · simp only [spec_stable_merge, h, if_false]
        exact ihp.cons p

theorem spec_stable_merge_sublist_right (fresh pooled : List page_info) :
    pooled.Sublist (spec_stable_merge fresh pooled) := by
  induction fresh generalizing pooled with
  | nil => simp [spec_stable_merge_nil_left]
  | cons f fresh ihf =>
    induction pooled with
    | nil => simp
    | cons p pooled ihp =>
      by_cases h : f.order ≥ p.order
      · simp only [spec_stable_merge, h, if_true]
        exact (ihf (p :: pooled)).cons f
      · simp only [spec_stable_merge, h, if_false]
        exact ihp.cons₂ p

/-- The merge loop, run for as many rounds as the two lists hold blocks and with
a sync cursor that has one entry per fresh block, empties both lists and appends
the stable merge of the two lists to the table, and the fresh list to the sync
table. -/
theorem merge_loop_spec (env : Env) (n : Nat) (m : merge_state)
    (hn : n = m.pages.length + m.pages_from_pool.length)
    (hs : m.sync_left = m.pages.length) :
    ∃ m1, merge_loop env n m = .ok m1 ∧
      m1.table = m.table ++ (spec_stable_merge m.pages m.pages_from_pool).map (sg_of env) ∧
      m1.table_sync = m.table_sync ++ m.pages.map (sg_of env) ∧
      m1.pages = [] ∧ m1.pages_from_pool = [] ∧ m1.sync_left = 0 := by
  induction n generalizing m with
  | zero =>
    have h1 : m.pages = [] := List.length_eq_zero.mp (by omega)
    have h2 : m.pages_from_pool = [] := List.length_eq_zero.mp (by omega)
    refine ⟨m, rfl, ?_, ?_, h1, h2, ?_⟩
    · simp [h1, h2, spec_stable_merge]
    · simp [h1]
    · simp [hs, h1]
  | succ n ih =>
    obtain ⟨pages, pool, table, table_sync, sync_left, data_pages, i⟩ := m
    simp only at hn hs
    cases pages with
    | nil =>
      cases pool with
      | nil => simp at hn
      | cons p pool =>
        simp only [List.length_nil, List.length_cons, zero_add, add_left_inj] at hn
        have hstep : merge_step env ⟨[], p :: pool, table, table_sync, sync_left, data_pages, i⟩
            = .ok ⟨[], pool, table ++ [sg_of env p], table_sync, sync_left, data_pages, i⟩ := by
          simp [merge_step, process_info, sg_of]
        obtain ⟨m1, h1, h2, h3, h4, h5, h6⟩ := ih
          ⟨[], pool, table ++ [sg_of env p], table_sync, sync_left, data_pages, i⟩
          (by simpa using hn) (by simpa using hs)
        refine ⟨m1, ?_, ?_, ?_, h4, h5, h6⟩
        · simp only [merge_loop, hstep]; exact h1
        · simpa [spec_stable_merge_nil_left] using h2
        · simpa using h3
    | cons f pages =>
      simp only [List.length_cons] at hs
      cases pool with
      | nil =>
        have hstep : merge_step env ⟨f :: pages, [], table, table_sync, sync_left, data_pages, i⟩
            = .ok ⟨pages, [], table ++ [sg_of env f], table_sync ++ [sg_of env f],
                sync_left - 1, data_pages ++ (List.range (2 ^ f.order)).map
                  (fun j => ((i + j) % U32, f.page + j)), (i + 2 ^ f.order) % U32⟩ := by
          simp [merge_step, process_info, sg_of, sg_sync_next, hs]
        obtain ⟨m1, h1, h2, h3, h4, h5, h6⟩ := ih
          ⟨pages, [], table ++ [sg_of env f], table_sync ++ [sg_of env f],
                sync_left - 1, data_pages ++ (List.range (2 ^ f.order)).map
                  (fun j => ((i + j) % U32, f.page + j)), (i + 2 ^ f.order) % U32⟩
          (by simp at hn ⊢; omega) (by simp; omega)
        refine ⟨m1, ?_, ?_, ?_, h4, h5, h6⟩
        · simp only [merge_loop, hstep]; exact h1
        · simpa [spec_stable_merge_nil_right] using h2
        · simpa using h3
      | cons p pool =>
        by_cases h : f.order ≥ p.order
        · have hstep : merge_step env
              ⟨f :: pages, p :: pool, table, table_sync, sync_left, data_pages, i⟩
              = .ok ⟨pages, p :: pool, table ++ [sg_of env f], table_sync ++ [sg_of env f],
                  sync_left - 1, data_pages ++ (List.range (2 ^ f.order)).map
                    (fun j => ((i + j) % U32, f.page + j)), (i + 2 ^ f.order) % U32⟩ := by
            simp [merge_step, process_info, sg_of, sg_sync_next, hs, h]
          obtain ⟨m1, h1, h2, h3, h4, h5, h6⟩ := ih
            ⟨pages, p :: pool, table ++ [sg_of env f], table_sync ++ [sg_of env f],
                  sync_left - 1, data_pages ++ (List.range (2 ^ f.order)).map
                    (fun j => ((i + j) % U32, f.page + j)), (i + 2 ^ f.order) % U32⟩
            (by simp at hn ⊢; omega) (by simp; omega)
          refine ⟨m1, ?_, ?_, ?_, h4, h5, h6⟩
          · simp only [merge_loop, hstep]; exact h1
          · simpa [spec_stable_merge, h] using h2
          · simpa using h3
        · have hstep : merge_step env
              ⟨f :: pages, p :: pool, table, table_sync, sync_left, data_pages, i⟩
              = .ok ⟨f :: pages, pool, table ++ [sg_of env p], table_sync,
                  sync_left, data_pages, i⟩ := by
            simp [merge_step, process_info, sg_of, h]
          obtain ⟨m1, h1, h2, h3, h4, h5, h6⟩ := ih
            ⟨f :: pages, pool, table ++ [sg_of env p], table_sync,
                  sync_left, data_pages, i⟩
            (by simp at hn ⊢; omega) (by simpa using hs)
          refine ⟨m1, ?_, ?_, ?_, h4, h5, h6⟩
          · simp only [merge_loop, hstep]; exact h1
          · simpa [spec_stable_merge, h] using h2
          · simpa using h3

/-- The merge loop on two lists that are not both empty, with a table of one
entry per block and a sync table of one entry per fresh block, returns with both
lists empty and the scatter entries of their stable merge in the table. -/
theorem merge_lists_run (env : Env) (fresh pooled : List page_info)
    (hne : fresh ++ pooled ≠ []) :
    ∃ m, merge_lists env (fresh.length + pooled.length) fresh.length fresh pooled = .ok m ∧
      m.table = (spec_stable_merge fresh pooled).map (sg_of env) ∧
      m.pages = [] ∧ m.pages_from_pool = [] := by
  have hlen : fresh.length + pooled.length ≠ 0 := by
    intro h
    apply hne
    have h1 : fresh = [] := List.length_eq_zero.mp (by omega)
    have h2 : pooled = [] := List.length_eq_zero.mp (by omega)
    simp [h1, h2]
  obtain ⟨m1, h1, h2, _, h4, h5, _⟩ := merge_loop_spec env (fresh.length + pooled.length)
    { pages := fresh, pages_from_pool := pooled, table := [], table_sync := [],
      sync_left := fresh.length, data_pages := [], i := 0 } rfl rfl
  refine ⟨m1, ?_, ?_, h4, h5⟩
  · simp only [merge_lists, hlen, if_false]; exact h1
  · simpa using h2

/-- C8: on the two lists a decomposition leaves (at least one block, a table with
one entry per block, a sync table with one entry per fresh block) the merge loop
of `ion_system_heap_allocate` returns, empties both lists, and writes exactly
the scatter entries of the stable two-way merge of §4.3: the head of larger
order first, the fresh head on a tie.  That merge emits every block of both
lists exactly once and keeps the relative order inside each list. -/
theorem merge_lists_is_stable_merge (env : Env) (fresh pooled : List page_info)
    (hne : fresh ++ pooled ≠ []) :
    ∃ m, merge_lists env (fresh.length + pooled.length) fresh.length fresh pooled = .ok m ∧
      m.table = (spec_stable_merge fresh pooled).map (sg_of env) ∧
      m.pages = [] ∧ m.pages_from_pool = [] ∧
      (spec_stable_merge fresh pooled).Perm (fresh ++ pooled) ∧
      fresh.Sublist (spec_stable_merge fresh pooled) ∧
      pooled.Sublist (spec_stable_merge fresh pooled) := by
  obtain ⟨m, h1, h2, h3, h4⟩ := merge_lists_run env fresh pooled hne
  exact ⟨m, h1, h2, h3, h4, spec_stable_merge_perm fresh pooled,
    spec_stable_merge_sublist_left fresh pooled, spec_stable_merge_sublist_right fresh pooled⟩

/-- Witness of C8: a fresh list of orders 8, 4 and a pooled list of orders 4, 0
merge to the orders 8, 4 (fresh), 4 (pooled), 0. -/
theorem merge_lists_is_stable_merge_witness :
    ∃ m, merge_lists (mk_env [8, 4, 0] 128 (fun _ _ => none) (fun _ => true)) (2 + 2) 2
        [⟨1, false, 8⟩, ⟨2, false, 4⟩] [⟨3, true, 4⟩, ⟨4, true, 0⟩] = .ok m ∧
      m.table = [⟨1, 1048576⟩, ⟨2, 65536⟩, ⟨3, 65536⟩, ⟨4, 4096⟩] := by
  obtain ⟨m, h1, h2, _⟩ := merge_lists_is_stable_merge
    (mk_env [8, 4, 0] 128 (fun _ _ => none) (fun _ => true))
    [⟨1, false, 8⟩, ⟨2, false, 4⟩] [⟨3, true, 4⟩, ⟨4, true, 0⟩] (by decide)
  refine ⟨m, h1, ?_⟩
  rw [h2]
  simp [spec_stable_merge, sg_of, PAGE_SIZE, mk_env, U32]


/-! ## Orders of the blocks of a decomposition -/

theorem alloc_largest_available_from_order (env : Env) (buffer : ion_buffer)
    (size max_order : Nat) (rest : List Nat) (w : World) (info : page_info) (w1 : World)
    (h : alloc_largest_available_from env buffer size max_order rest w = .ok (some info, w1)) :
    info.order ∈ rest ∧ info.order ≤ max_order ∧ order_to_size env info.order ≤ size := by
  induction rest generalizing w with
  | nil => simp [alloc_largest_available_from] at h
  | cons o rest ih =>
    unfold alloc_largest_available_from at h
    split at h
    · obtain ⟨a, b, c⟩ := ih w h
      exact ⟨List.mem_cons_of_mem _ a, b, c⟩
    · split at h
      · obtain ⟨a, b, c⟩ := ih w h
        exact ⟨List.mem_cons_of_mem _ a, b, c⟩
      · split at h
        · simp at h
        · obtain ⟨a, b, c⟩ := ih _ h
          exact ⟨List.mem_cons_of_mem _ a, b, c⟩
        · simp only [Except.ok.injEq, Prod.mk.injEq, Option.some.injEq] at h
          obtain ⟨h1, _⟩ := h
          subst h1
          exact ⟨List.mem_cons_self _ _, by simp only; omega, by simp only; omega⟩

theorem alloc_from_pool_preferred_from_order (env : Env) (buffer : ion_buffer)
    (size max_order : Nat) (rest : List Nat) (w : World) (info : page_info) (w1 : World)
    (h : alloc_from_pool_preferred_from env buffer size max_order rest w = .ok (some info, w1)) :
    info.order ∈ rest ∧ info.order ≤ max_order ∧ order_to_size env info.order ≤ size := by
  induction rest generalizing w with
  | nil => simp [alloc_from_pool_preferred_from] at h
  | cons o rest ih =>
    unfold alloc_from_pool_preferred_from at h
    split at h
    · obtain ⟨a, b, c⟩ := ih w h
      exact ⟨List.mem_cons_of_mem _ a, b, c⟩
    · split at h
      · obtain ⟨a, b, c⟩ := ih w h
        exact ⟨List.mem_cons_of_mem _ a, b, c⟩
      · split at h
        · simp at h
        · obtain ⟨a, b, c⟩ := ih _ h
          exact ⟨List.mem_cons_of_mem _ a, b, c⟩
        · simp only [Except.ok.injEq, Prod.mk.injEq, Option.some.injEq] at h
          obtain ⟨h1, _⟩ := h
          subst h1
          exact ⟨List.mem_cons_self _ _, by simp only; omega, by simp only; omega⟩

/-- A block obtained in one round of the first loop has an order of the Order
Table, or order 0 (a split page), and not above the ceiling `max_order`. -/
theorem alloc_block_order (env : Env) (w : World) (buffer : ion_buffer) (s : alloc_locals)
    (info : page_info) (w1 : World)
    (h : alloc_block env w buffer s = .ok (some info, w1)) :
    info.order ≤ s.max_order ∧ (info.order ∈ env.orders ∨ info.order = 0) := by
  unfold alloc_block at h
  split at h
  · unfold alloc_from_pool_preferred at h
    split at h
    · obtain ⟨a, b, _⟩ := alloc_largest_available_from_order _ _ _ _ _ _ _ _ h
      exact ⟨b, Or.inl a⟩
    · split at h
      · simp at h
      · simp only [Except.ok.injEq, Prod.mk.injEq, Option.some.injEq] at h
        obtain ⟨h1, h2⟩ := h
        subst h1
        rename_i heq
        obtain ⟨a, b, _⟩ := alloc_from_pool_preferred_from_order _ _ _ _ _ _ _ _ heq
        exact ⟨b, Or.inl a⟩
      · split at h
        · simp at h
        · simp only [Except.ok.injEq, Prod.mk.injEq, Option.some.injEq] at h
          obtain ⟨h1, _⟩ := h
          subst h1
          exact ⟨Nat.zero_le _, Or.inr rfl⟩
        · obtain ⟨a, b, _⟩ := alloc_largest_available_from_order _ _ _ _ _ _ _ _ h
          exact ⟨b, Or.inl a⟩
  · obtain ⟨a, b, _⟩ := alloc_largest_available_from_order _ _ _ _ _ _ _ _ h
    exact ⟨b, Or.inl a⟩

theorem lists_ok_init (env : Env) (size : Nat) : lists_ok (alloc_locals_init env size) := by
  constructor <;> simp [alloc_locals_init]

theorem lists_ok_account (env : Env) (s : alloc_locals) (info : page_info)
    (hs : lists_ok s) (hle : info.order ≤ s.max_order) :
    lists_ok (alloc_account env s info) := by
  obtain ⟨h1, h2, h3, h4, h5, h6, h7⟩ := hs
  cases hfp : info.from_pool
  · constructor
    · simp only [alloc_account, hfp, Bool.false_eq_true, if_false, List.map_append,
        List.map_cons, List.map_nil]
      rw [List.pairwise_append]
      refine ⟨h1, List.pairwise_singleton _ _, ?_⟩
      intro a ha b hb
      simp only [List.mem_singleton] at hb
      subst hb
      obtain ⟨x, hx, rfl⟩ := List.mem_map.mp ha
      have := h3 x (List.mem_append_left _ hx)
      omega
    · simpa [alloc_account, hfp] using h2
    · intro b hb
      simp only [alloc_account, hfp, Bool.false_eq_true, if_false, List.mem_append,
        List.mem_singleton] at hb
      simp only [alloc_account, hfp]
      rcases hb with (hb | hb) | hb
      · have := h3 b (List.mem_append_left _ hb); simp only at *; omega
      · subst hb; exact le_refl _
      · have := h3 b (List.mem_append_right _ hb); simp only at *; omega
    · simp [alloc_account, hfp, h4]; omega
    · simp [alloc_account, hfp, h5]
    · intro b hb
      simp only [alloc_account, hfp, Bool.false_eq_true, if_false, List.mem_append,
        List.mem_singleton] at hb
      rcases hb with hb | hb
      · exact h6 b hb
      · subst hb; exact hfp
    · simpa [alloc_account, hfp] using h7
  · constructor
    · simpa [alloc_account, hfp] using h1
    · simp only [alloc_account, hfp, if_true, List.map_append, List.map_cons, List.map_nil]
      rw [List.pairwise_append]
      refine ⟨h2, List.pairwise_singleton _ _, ?_⟩
      intro a ha b hb
      simp only [List.mem_singleton] at hb
      subst hb
      obtain ⟨x, hx, rfl⟩ := List.mem_map.mp ha
      have := h3 x (List.mem_append_right _ hx)
      omega
    · intro b hb
      simp only [alloc_account, hfp, if_true, List.mem_append, List.mem_singleton] at hb
      simp only [alloc_account, hfp]
      rcases hb with hb | hb | hb
      · have := h3 b (List.mem_append_left _ hb); simp only at *; omega
      · have := h3 b (List.mem_append_right _ hb); simp only at *; omega
      · subst hb; exact le_refl _
    · simp [alloc_account, hfp, h4]; omega
    · simp [alloc_account, hfp, h5]
    · simpa [alloc_account, hfp] using h6
    · intro b hb
      simp only [alloc_account, hfp, if_true, List.mem_append, List.mem_singleton] at hb
      rcases hb with hb | hb
      · exact h7 b hb
      · subst hb; exact hfp

/-- The first loop keeps `lists_ok`, however it is left. -/
theorem alloc_loop_lists_ok (env : Env) (buffer : ion_buffer) (fuel : Nat) (w : World)
    (s : alloc_locals) (exit : loop_exit) (w1 : World) (s1 : alloc_locals)
    (hs : lists_ok s)
    (h : alloc_loop env buffer fuel w s = .ok (exit, w1, s1)) : lists_ok s1 := by
  induction fuel generalizing w s with
  | zero =>
    unfold alloc_loop at h
    split at h
    · simp only [Except.ok.injEq, Prod.mk.injEq] at h
      obtain ⟨_, _, h3⟩ := h
      subst h3
      exact hs
    · simp at h
  | succ fuel ih =>
    unfold alloc_loop at h
    split at h
    · simp only [Except.ok.injEq, Prod.mk.injEq] at h
      obtain ⟨_, _, h3⟩ := h
      subst h3
      exact hs
    · simp only at h
      split at h
      · simp only [Except.ok.injEq, Prod.mk.injEq] at h
        obtain ⟨_, _, h3⟩ := h
        subst h3
        exact hs
      · split at h
        · simp at h
        · simp only [Except.ok.injEq, Prod.mk.injEq] at h
          obtain ⟨_, _, h3⟩ := h
          subst h3
          obtain ⟨h1, h2, h3, h4, h5, h6, h7⟩ := hs
          exact ⟨h1, h2, h3, h4, h5, h6, h7⟩
        · rename_i heq
          exact ih _ _ (lists_ok_account env s _ hs (alloc_block_order _ _ _ _ _ _ heq).1) h

theorem spec_stable_merge_sorted (fresh pooled : List page_info)
    (hf : (fresh.map (fun b => b.order)).Pairwise (fun a b => a ≥ b))
    (hp : (pooled.map (fun b => b.order)).Pairwise (fun a b => a ≥ b)) :
    ((spec_stable_merge fresh pooled).map (fun b => b.order)).Pairwise (fun a b => a ≥ b) := by
  induction fresh generalizing pooled with
  | nil => simpa [spec_stable_merge_nil_left] using hp
  | cons f fresh ihf =>
    induction pooled with
    | nil => simpa [spec_stable_merge_nil_right] using hf
    | cons p pooled ihp =>
      simp only [List.map_cons, List.pairwise_cons, List.mem_map, forall_exists_index,
        and_imp, forall_apply_eq_imp_iff₂] at hf hp
      by_cases h : f.order ≥ p.order
      · simp only [spec_stable_merge, h, if_true, List.map_cons, List.pairwise_cons,
          List.mem_map, forall_exists_index, and_imp, forall_apply_eq_imp_iff₂]
        refine ⟨?_, ihf (p :: pooled) hf.2 (by simpa using hp)⟩
        intro x hx
        have hx1 := (spec_stable_merge_perm fresh (p :: pooled)).mem_iff.mp hx
        simp only [List.mem_append, List.mem_cons] at hx1
        rcases hx1 with hx1 | hx1 | hx1
        · exact hf.1 x hx1
        · subst hx1; exact h
        · have := hp.1 x hx1; omega
      · simp only [spec_stable_merge, h, if_false, List.map_cons, List.pairwise_cons,
          List.mem_map, forall_exists_index, and_imp, forall_apply_eq_imp_iff₂]
        refine ⟨?_, ihp hp.2⟩
        intro x hx
        have hx1 := (spec_stable_merge_perm (f :: fresh) pooled).mem_iff.mp hx
        simp only [List.mem_append, List.mem_cons] at hx1
        rcases hx1 with (hx1 | hx1) | hx1
        · subst hx1; omega
        · have := hf.1 x hx1; omega
        · exact hp.1 x hx1

theorem get_order_from_pow (o fuel k : Nat) (h1 : k ≤ o) (h2 : o ≤ k + fuel) :
    get_order_from (2 ^ o) fuel k = o := by
  induction fuel generalizing k with
  | zero => simp only [get_order_from]; omega
  | succ fuel ih =>
    unfold get_order_from
    by_cases h : o ≤ k
    · have hk : k = o := by omega
      subst hk
      simp
    · have hlt : ¬ (2 ^ o ≤ 2 ^ k) := by
        intro hle
        exact h ((Nat.pow_le_pow_iff_right (by norm_num)).mp hle)
      simp only [hlt, if_false]
      exact ih (k + 1) (by omega) (by omega)

theorem order_to_size_fit (env : Env) (o : Nat) (h : env.PAGE_SHIFT + o < 32) :
    order_to_size env o = PAGE_SIZE env * 2 ^ o := by
  unfold order_to_size PAGE_SIZE U32
  rw [← pow_add]
  exact Nat.mod_eq_of_lt (Nat.pow_lt_pow_right (by norm_num) h)

theorem sg_of_length_fit (env : Env) (b : page_info) (h : env.PAGE_SHIFT + b.order < 32) :
    (sg_of env b).length = PAGE_SIZE env * 2 ^ b.order := by
  have := order_to_size_fit env b.order h
  unfold order_to_size at this
  simp only [sg_of]
  rw [Nat.mul_comm]
  exact this

/-- The order `ion_system_heap_free` reads off a scatter entry,
`get_order(sg->length)`, is the order of the block, when the byte size of the
block fits the 32-bit length. -/
theorem get_order_sg_of (env : Env) (b : page_info) (h : env.PAGE_SHIFT + b.order < 32) :
    get_order env (sg_of env b).length = b.order := by
  rw [sg_of_length_fit env b h]
  unfold get_order
  have hpos : 0 < PAGE_SIZE env := by unfold PAGE_SIZE; positivity
  have hdiv : (PAGE_SIZE env * 2 ^ b.order + PAGE_SIZE env - 1) / PAGE_SIZE env = 2 ^ b.order := by
    have h1 : PAGE_SIZE env * 2 ^ b.order + PAGE_SIZE env - 1
        = (PAGE_SIZE env - 1) + PAGE_SIZE env * 2 ^ b.order := by omega
    rw [h1, Nat.add_mul_div_left _ _ hpos, Nat.div_eq_of_lt (by omega)]
    simp
  rw [hdiv]
  exact get_order_from_pow _ _ _ (Nat.zero_le _) (by omega)

theorem allocate_fail_buffer (env : Env) (w : World) (buffer : ion_buffer) (s : alloc_locals)
    (ret r : Int) (b1 : ion_buffer) (w1 : World)
    (h : allocate_fail env w buffer s ret = .ok (r, b1, w1)) : r = ret ∧ b1 = buffer := by
  unfold allocate_fail at h
  split at h
  · simp at h
  · simp only [Except.ok.injEq, Prod.mk.injEq] at h
    exact ⟨h.1.symm, h.2.1.symm⟩

theorem allocate_err_free_sg2_buffer (env : Env) (w : World) (buffer : ion_buffer) (ret : Int)
    (table : List scatterlist) (pages pool : List page_info) (r : Int) (b1 : ion_buffer)
    (w1 : World)
    (h : allocate_err_free_sg2 env w buffer ret table pages pool = .ok (r, b1, w1)) :
    r = ret ∧ b1 = { buffer with shrinker_free := true } := by
  unfold allocate_err_free_sg2 at h
  simp only at h
  split at h
  · simp at h
  · split at h
    · simp at h
    · simp only [Except.ok.injEq, Prod.mk.injEq] at h
      exact ⟨h.1.symm, h.2.1.symm⟩

/-- How `allocate_finish` can return: through `err` with a nonzero `ret` and the
buffer untouched, through `err_free_sg2` with a nonzero `ret` and the buffer
marked, or with `0` and the merged table stored. -/
theorem allocate_finish_cases (env : Env) (w : World) (buffer : ion_buffer) (s : alloc_locals)
    (r : Int) (b1 : ion_buffer) (w1 : World)
    (h : allocate_finish env w buffer s = .ok (r, b1, w1)) :
    (r ≠ 0 ∧ b1 = buffer) ∨
    (r ≠ 0 ∧ b1 = { buffer with shrinker_free := true }) ∨
    (r = 0 ∧ ∃ m, merge_lists env s.i s.nents_sync s.pages s.pages_from_pool = .ok m ∧
      b1 = { buffer with sg_table := some m.table }) := by
  unfold allocate_finish at h
  simp only at h
  split at h
  · rename_i hne
    obtain ⟨h1, h2⟩ := allocate_fail_buffer _ _ _ _ _ _ _ _ h
    exact Or.inl ⟨by rw [h1]; exact hne, h2⟩
  · split at h
    · simp at h
    · rename_i m hm
      split at h
      · rename_i hne
        obtain ⟨h1, h2⟩ := allocate_err_free_sg2_buffer _ _ _ _ _ _ _ _ _ _ h
        exact Or.inr (Or.inl ⟨by rw [h1]; exact hne, h2⟩)
      · simp only [Except.ok.injEq, Prod.mk.injEq] at h
        exact Or.inr (Or.inr ⟨h.1.symm, m, hm, h.2.1.symm⟩)

/-- The table `merge_lists` builds from the lists of a first loop. -/
theorem merge_lists_table (env : Env) (s : alloc_locals) (hok : lists_ok s) (m : merge_state)
    (hm : merge_lists env s.i s.nents_sync s.pages s.pages_from_pool = .ok m) :
    m.table = (spec_stable_merge s.pages s.pages_from_pool).map (sg_of env) ∧
    m.table_sync = s.pages.map (sg_of env) ∧ m.pages = [] ∧ m.pages_from_pool = [] := by
  unfold merge_lists at hm
  split at hm
  · simp at hm
  · obtain ⟨m1, hm1, hm2, hm3, hm4, hm5, _⟩ := merge_loop_spec env s.i
      { pages := s.pages, pages_from_pool := s.pages_from_pool, table := [],
        table_sync := [], sync_left := s.nents_sync, data_pages := [], i := 0 }
      hok.count hok.sync
    rw [hm1] at hm
    simp only [Except.ok.injEq] at hm
    subst hm
    exact ⟨by simpa using hm2, by simpa using hm3, hm4, hm5⟩

/-- A run of `ion_system_heap_allocate` that stores a table in a buffer that had
none left its first loop by the loop condition, and the table holds the scatter
entries of the stable merge of the two lists of that loop. -/
theorem allocate_stores_merge (env : Env) (fuel : Nat) (w : World) (buffer : ion_buffer)
    (size : Nat) (ret : Int) (b1 : ion_buffer) (w1 : World) (t : List scatterlist)
    (hnew : buffer.sg_table = none)
    (h : ion_system_heap_allocate env fuel w buffer size = .ok (ret, b1, w1))
    (ht : b1.sg_table = some t) :
    ∃ w2 s, alloc_loop env buffer fuel w (alloc_locals_init env size) = .ok (.done, w2, s) ∧
      t = (spec_stable_merge s.pages s.pages_from_pool).map (sg_of env) := by
  unfold ion_system_heap_allocate at h
  simp only at h
  split at h
  · simp only [Except.ok.injEq, Prod.mk.injEq] at h
    obtain ⟨_, h2, _⟩ := h
    subst h2
    simp [hnew] at ht
  · split at h
    · simp only [Except.ok.injEq, Prod.mk.injEq] at h
      obtain ⟨_, h2, _⟩ := h
      subst h2
      simp [hnew] at ht
    · split at h
      · simp at h
      · obtain ⟨_, h2⟩ := allocate_fail_buffer _ _ _ _ _ _ _ _ h
        subst h2
        simp [hnew] at ht
      · rename_i w2 s hloop
        refine ⟨w2, s, hloop, ?_⟩
        have hok := alloc_loop_lists_ok env buffer fuel w _ _ _ _ (lists_ok_init env size) hloop
        rcases allocate_finish_cases _ _ _ _ _ _ _ h with ⟨_, h2⟩ | ⟨_, h2⟩ | ⟨_, m, hm, h2⟩
        · subst h2
          simp [hnew] at ht
        · subst h2
          simp [hnew] at ht
        · subst h2
          simp only [Option.some.injEq] at ht
          subst ht
          exact (merge_lists_table env s hok m hm).1

/-- C2: when `ion_system_heap_allocate` returns `0` and stores a scatter table
(in a buffer that had none), its first loop ended by the loop condition, the
table holds the scatter entries of the stable merge of the fresh and the pooled
list of that loop, and the block orders of that sequence are non-increasing from
the first entry to the last.  This holds for every Order Table, every state of
the pools, every answer of the system allocator and of the secure helpers
(split path included).  When every block size fits the 32-bit length of an
entry, the order read off each entry with `get_order(sg->length)` is the order
of the block. -/
theorem allocate_orders_non_increasing (env : Env) (fuel : Nat) (w : World)
    (buffer : ion_buffer) (size : Nat) (b1 : ion_buffer) (w1 : World) (t : List scatterlist)
    (hnew : buffer.sg_table = none)
    (h : ion_system_heap_allocate env fuel w buffer size = .ok (0, b1, w1))
    (ht : b1.sg_table = some t) :
    ∃ w2 s, alloc_loop env buffer fuel w (alloc_locals_init env size) = .ok (.done, w2, s) ∧
      t = (spec_stable_merge s.pages s.pages_from_pool).map (sg_of env) ∧
      ((spec_stable_merge s.pages s.pages_from_pool).map (fun b => b.order)).Pairwise
        (fun a b => a ≥ b) ∧
      ((∀ b ∈ spec_stable_merge s.pages s.pages_from_pool, env.PAGE_SHIFT + b.order < 32) →
        t.map (fun e => get_order env e.length)
          = (spec_stable_merge s.pages s.pages_from_pool).map (fun b => b.order)) := by
  obtain ⟨w2, s, hloop, htab⟩ := allocate_stores_merge env fuel w buffer size 0 b1 w1 t hnew h ht
  have hok := alloc_loop_lists_ok env buffer fuel w _ _ _ _ (lists_ok_init env size) hloop
  refine ⟨w2, s, hloop, htab, spec_stable_merge_sorted _ _ hok.sorted_pages hok.sorted_pool, ?_⟩
  intro hfit
  rw [htab, List.map_map]
  apply List.map_congr_left
  intro b hb
  exact get_order_sg_of env b (hfit b hb)

/-- Witness of C2: the request of 272 pages on the Order Table `{8, 4, 0}` with
empty pools returns `0` with a table of an order-8 and an order-4 block. -/
theorem allocate_orders_non_increasing_witness :
    ∃ w2 s, alloc_loop (mk_env [8, 4, 0] 128 (fun t _ => some (1000 + t)) (fun _ => true))
        plain_buffer 3 (empty_world [8, 4, 0])
        (alloc_locals_init (mk_env [8, 4, 0] 128 (fun t _ => some (1000 + t)) (fun _ => true))
          (272 * 4096)) = .ok (.done, w2, s) ∧
      [(⟨1000, 1048576⟩ : scatterlist), ⟨1001, 65536⟩]
        = (spec_stable_merge s.pages s.pages_from_pool).map
            (sg_of (mk_env [8, 4, 0] 128 (fun t _ => some (1000 + t)) (fun _ => true))) ∧
      ((spec_stable_merge s.pages s.pages_from_pool).map (fun b => b.order)).Pairwise
        (fun a b => a ≥ b) := by
  obtain ⟨w2, s, h1, h2, h3, _⟩ := allocate_orders_non_increasing
    (mk_env [8, 4, 0] 128 (fun t _ => some (1000 + t)) (fun _ => true)) 3
    (empty_world [8, 4, 0]) plain_buffer (272 * 4096)
    { plain_buffer with sg_table := some [⟨1000, 1048576⟩, ⟨1001, 65536⟩] }
    { empty_world [8, 4, 0] with
      tick := 6, NR_UNRECLAIMABLE_PAGES := 272, sys_allocated := [(1000, 8), (1001, 4)],
      synced := [(1000, 1048576), (1001, 65536)] }
    [⟨1000, 1048576⟩, ⟨1001, 65536⟩] rfl (by decide!) rfl
  exact ⟨w2, s, h1, h2, h3⟩

/-! ## The Order Table and the pools -/

theorem order_to_index_from_get (o : Nat) (l : List Nat) (i j : Nat)
    (h : order_to_index_from o l i = .ok j) : i ≤ j ∧ l[j - i]? = some o := by
  induction l generalizing i with
  | nil => simp [order_to_index_from] at h
  | cons a l ih =>
    unfold order_to_index_from at h
    split at h
    · simp only [Except.ok.injEq] at h
      subst h
      rename_i heq
      simp [heq]
    · obtain ⟨h1, h2⟩ := ih (i + 1) h
      refine ⟨by omega, ?_⟩
      have : j - i = (j - (i + 1)) + 1 := by omega
      rw [this]
      simpa using h2

theorem order_to_index_from_mem (o : Nat) (l : List Nat) (i : Nat) (h : o ∈ l) :
    ∃ j, order_to_index_from o l i = .ok j := by
  induction l generalizing i with
  | nil => simp at h
  | cons a l ih =>
    unfold order_to_index_from
    by_cases heq : o = a
    · exact ⟨i, by simp [heq]⟩
    · simp only [heq, if_false]
      exact ih (i + 1) (by simpa [heq] using h)

theorem order_to_index_get (env : Env) (o idx : Nat) (h : order_to_index env o = .ok idx) :
    env.orders[idx]? = some o := by
  have := (order_to_index_from_get o env.orders 0 idx h).2
  simpa using this

theorem order_to_index_lt (env : Env) (o idx : Nat) (h : order_to_index env o = .ok idx) :
    idx < env.orders.length := by
  have h1 := order_to_index_get env o idx h
  exact (List.getElem?_eq_some.mp h1).1

theorem order_to_index_mem (env : Env) (o : Nat) (h : o ∈ env.orders) :
    ∃ idx, order_to_index env o = .ok idx :=
  order_to_index_from_mem o env.orders 0 h

/-- In a table without repetition the position of an order is
`order_to_index` of it. -/
theorem order_to_index_unique (env : Env) (hnd : env.orders.Nodup) (o idx j : Nat)
    (h : order_to_index env o = .ok idx) (hj : env.orders[j]? = some o) : j = idx := by
  have h1 := order_to_index_get env o idx h
  obtain ⟨hj1, hj2⟩ := List.getElem?_eq_some.mp hj
  obtain ⟨hi1, hi2⟩ := List.getElem?_eq_some.mp h1
  exact (List.Nodup.getElem_inj_iff hnd).mp (hj2.trans hi2.symm)

theorem pools_created_get (env : Env) (ps : List ion_page_pool) (hc : pools_created env ps)
    (idx : Nat) (hidx : idx < env.orders.length) :
    ∃ pool, ps[idx]? = some pool := by
  have hlen : ps.length = env.orders.length := by
    have := congrArg List.length hc
    simpa using this
  exact ⟨ps[idx], List.getElem?_eq_getElem (by omega)⟩

theorem pools_created_order (env : Env) (ps : List ion_page_pool) (hc : pools_created env ps)
    (idx : Nat) (pool : ion_page_pool) (h : ps[idx]? = some pool) :
    env.orders[idx]? = some pool.order := by
  unfold pools_created at hc
  rw [← hc, List.getElem?_map, h]
  rfl

theorem pools_created_set (env : Env) (ps : List ion_page_pool) (hc : pools_created env ps)
    (idx : Nat) (pool : ion_page_pool) (h : ps[idx]? = some pool) (items : List Nat) :
    pools_created env (ps.set idx { pool with items := items }) := by
  unfold pools_created at hc ⊢
  rw [List.map_set, ← hc]
  apply List.ext_getElem?
  intro n
  rw [List.getElem?_set]
  split
  · rename_i heq
    subst heq
    split
    · rw [List.getElem?_map, h]; rfl
    · rename_i hlt
      simp only [List.length_map] at hlt
      rw [List.getElem?_map, h]
      exact absurd (List.getElem?_eq_some.mp h).1 hlt
  · rfl

theorem list_count_set (ps : List ion_page_pool) (idx idx1 : Nat) (pool p1 : ion_page_pool)
    (h : ps[idx]? = some pool) :
    (((ps.set idx p1)[idx1]?).map (fun p => p.items.length)).getD 0
      = if idx1 = idx then p1.items.length
        else ((ps[idx1]?).map (fun p => p.items.length)).getD 0 := by
  have hlt := (List.getElem?_eq_some.mp h).1
  rw [List.getElem?_set]
  by_cases heq : idx = idx1
  · subst heq
    simp [hlt]
  · have : ¬ idx1 = idx := fun hh => heq hh.symm
    simp [heq, this]

/-- The pool of a non-secure buffer for an order of the table exists in a heap
as `ion_system_heap_create` builds it. -/
theorem get_pool_created (env : Env) (w : World) (buffer : ion_buffer) (hc : heap_created env w)
    (idx : Nat) (hidx : idx < env.orders.length) :
    ∃ pool, w.get_pool (buffer_sel buffer) idx = .ok pool ∧
      (w.pools (buffer_sel buffer)).bind (fun ps => ps[idx]?) = some pool := by
  unfold buffer_sel
  cases buffer.cached
  · obtain ⟨pool, hp⟩ := pools_created_get env _ hc.1 idx hidx
    exact ⟨pool, by simp [World.get_pool, World.pools, hp], by simp [World.pools, hp]⟩
  · obtain ⟨pool, hp⟩ := pools_created_get env _ hc.2 idx hidx
    exact ⟨pool, by simp [World.get_pool, World.pools, hp], by simp [World.pools, hp]⟩

/-- The effect of `free_buffer_page` for a buffer that is not secure, not
force-fresh and not marked shrinker-free: the block is deposited; the free count
of the pool of its order grows by one and nothing is released. -/
theorem free_buffer_page_deposit (env : Env) (w : World) (buffer : ion_buffer)
    (page order : Nat) (hv : buffer.vmid ≤ 0) (hf : buffer.force_alloc = false)
    (hs : buffer.shrinker_free = false) (hc : heap_created env w) (ho : order ∈ env.orders) :
    ∃ idx w1, order_to_index env order = .ok idx ∧
      free_buffer_page env w buffer page order = .ok w1 ∧
      heap_created env w1 ∧ w1.secure_pools = w.secure_pools ∧
      w1.sys_released = w.sys_released ∧ w1.sys_allocated = w.sys_allocated ∧
      ∀ sel idx1, w1.count sel idx1
        = w.count sel idx1 + if sel = buffer_sel buffer ∧ idx1 = idx then 1 else 0 := by
  obtain ⟨idx, hidx⟩ := order_to_index_mem env order ho
  have hlt := order_to_index_lt env order idx hidx
  have hnv : ¬ (buffer.vmid > 0) := by omega
  refine ⟨idx, ?_⟩
  unfold free_buffer_page
  simp only [hf, hs, hidx, hnv, if_false, Bool.not_false, if_true, Bool.false_eq_true]
  cases hcached : buffer.cached
  · obtain ⟨pool, hp⟩ := pools_created_get env _ hc.1 idx hlt
    have hget : w.get_pool .uncached idx = .ok pool := by
      simp [World.get_pool, World.pools, hp]
    simp only [Bool.false_eq_true, if_false, hget, ion_page_pool_free]
    refine ⟨_, trivial, rfl, ⟨pools_created_set env _ hc.1 idx pool hp _, hc.2⟩, rfl, rfl, rfl, ?_⟩
    intro sel idx1
    cases sel with
    | secure v => simp [World.count, World.pools, World.set_pool, buffer_sel, hcached]
    | cached => simp [World.count, World.pools, World.set_pool, buffer_sel, hcached]
    | uncached =>
      simp only [World.count, World.pools, World.set_pool, buffer_sel, hcached,
        Bool.false_eq_true, if_false, true_and]
      rw [list_count_set _ _ _ pool _ hp]
      by_cases heq : idx1 = idx
      · subst heq; simp [hp]
      · simp [heq]
  · obtain ⟨pool, hp⟩ := pools_created_get env _ hc.2 idx hlt
    have hget : w.get_pool .cached idx = .ok pool := by
      simp [World.get_pool, World.pools, hp]
    simp only [if_true, hget, ion_page_pool_free]
    refine ⟨_, trivial, rfl, ⟨hc.1, pools_created_set env _ hc.2 idx pool hp _⟩, rfl, rfl, rfl, ?_⟩
    intro sel idx1
    cases sel with
    | secure v => simp [World.count, World.pools, World.set_pool, buffer_sel, hcached]
    | uncached => simp [World.count, World.pools, World.set_pool, buffer_sel, hcached]
    | cached =>
      simp only [World.count, World.pools, World.set_pool, buffer_sel, hcached,
        if_true, true_and]
      rw [list_count_set _ _ _ pool _ hp]
      by_cases heq : idx1 = idx
      · subst heq; simp [hp]
      · simp [heq]

theorem count_eq_of_get (w : World) (buffer : ion_buffer) (idx : Nat) (pool : ion_page_pool)
    (h : (w.pools (buffer_sel buffer)).bind (fun ps => ps[idx]?) = some pool) :
    w.count (buffer_sel buffer) idx = pool.items.length := by
  unfold World.count
  cases hp : w.pools (buffer_sel buffer) with
  | none => simp [hp] at h
  | some ps =>
    simp only [hp, Option.some_bind] at h
    simp [h]

/-- The effect of `alloc_buffer_page` for a buffer that is not secure, at an
order of the table: either a block leaves the pool of that order (`*from_pool`
stays true; the free count drops by one) or the buddy allocator is asked
(`*from_pool` becomes false; no pool changes).  Nothing is released. -/
theorem alloc_buffer_page_effect (env : Env) (w : World) (buffer : ion_buffer) (o : Nat)
    (fpin : Bool) (hv : buffer.vmid ≤ 0) (hc : heap_created env w) (ho : o ∈ env.orders) :
    ∃ idx pool res fp w1, order_to_index env o = .ok idx ∧
      (w.pools (buffer_sel buffer)).bind (fun ps => ps[idx]?) = some pool ∧
      alloc_buffer_page env w buffer o fpin = .ok (res, fp, w1) ∧
      heap_created env w1 ∧ w1.secure_pools = w.secure_pools ∧
      w1.sys_released = w.sys_released ∧
      (∀ sel idx1, w.count sel idx1
        = w1.count sel idx1 + if fp = true ∧ sel = buffer_sel buffer ∧ idx1 = idx then 1 else 0) ∧
      (fp = true → res ≠ none ∧ w1.sys_allocated = w.sys_allocated) ∧
      (fp = false → res = env.alloc_pages w.tick pool.order ∧
        w1.uncached_pools = w.uncached_pools ∧ w1.cached_pools = w.cached_pools ∧
        w1.sys_allocated = w.sys_allocated ++ (res.map (fun p => (p, pool.order))).toList) ∧
      (fp = true ↔ fpin = true ∧ pool.items ≠ []) := by
  obtain ⟨idx, hidx⟩ := order_to_index_mem env o ho
  have hlt := order_to_index_lt env o idx hidx
  have hnv : ¬ (buffer.vmid > 0) := by omega
  obtain ⟨pool, hget, hbind⟩ := get_pool_created env w buffer hc idx hlt
  refine ⟨idx, pool, ?_⟩
  have hsel : (if buffer.vmid > 0 then pool_sel.secure buffer.vmid.toNat
      else if (!buffer.cached) = true then pool_sel.uncached else pool_sel.cached)
      = buffer_sel buffer := by
    unfold buffer_sel
    cases buffer.cached <;> simp [hnv]
  unfold alloc_buffer_page
  simp only [hidx, hsel, ion_page_pool_alloc, hget]
  have hcount := count_eq_of_get w buffer idx pool hbind
  by_cases hhit : fpin = true ∧ pool.items ≠ []
  · obtain ⟨hfp, hne⟩ := hhit
    obtain ⟨page, rest, hitems⟩ := List.exists_cons_of_ne_nil hne
    subst hfp
    simp only [hitems]
    have hcreated : heap_created env (w.set_pool (buffer_sel buffer) idx
        { order := pool.order, items := rest }) := by
      unfold buffer_sel at hbind ⊢
      cases hcached : buffer.cached
      · simp only [hcached, Bool.false_eq_true, if_false, World.pools, Option.some_bind] at hbind
        exact ⟨pools_created_set env _ hc.1 idx pool hbind rest, hc.2⟩
      · simp only [hcached, if_true, World.pools, Option.some_bind] at hbind
        exact ⟨hc.1, pools_created_set env _ hc.2 idx pool hbind rest⟩
    have hsec : (w.set_pool (buffer_sel buffer) idx
        { order := pool.order, items := rest }).secure_pools = w.secure_pools := by
      unfold buffer_sel
      cases buffer.cached <;> simp [World.set_pool]
    have hrel : (w.set_pool (buffer_sel buffer) idx
        { order := pool.order, items := rest }).sys_released = w.sys_released := by
      unfold buffer_sel
      cases buffer.cached <;> simp [World.set_pool]
    have hall : (w.set_pool (buffer_sel buffer) idx
        { order := pool.order, items := rest }).sys_allocated = w.sys_allocated := by
      unfold buffer_sel
      cases buffer.cached <;> simp [World.set_pool]
    have hcnt : ∀ sel idx1, w.count sel idx1
        = (w.set_pool (buffer_sel buffer) idx { order := pool.order, items := rest }).count sel idx1
          + if sel = buffer_sel buffer ∧ idx1 = idx then 1 else 0 := by
      intro sel idx1
      unfold buffer_sel at hbind hcount ⊢
      cases hcached : buffer.cached
      · simp only [hcached, Bool.false_eq_true, if_false, World.pools, Option.some_bind]
          at hbind hcount
        cases sel with
        | secure v => simp [World.count, World.pools, World.set_pool]
        | cached => simp [World.count, World.pools, World.set_pool]
        | uncached =>
          simp only [World.count, World.pools, World.set_pool, true_and, Bool.false_eq_true,
            if_false, if_true]
          rw [list_count_set _ _ _ pool _ hbind]
          by_cases heq : idx1 = idx
          · subst heq; simp [hbind, hitems]
          · simp [heq]
      · simp only [hcached, if_true, World.pools, Option.some_bind] at hbind hcount
        cases sel with
        | secure v => simp [World.count, World.pools, World.set_pool]
        | uncached => simp [World.count, World.pools, World.set_pool]
        | cached =>
          simp only [World.count, World.pools, World.set_pool, true_and, Bool.false_eq_true,
            if_false, if_true]
          rw [list_count_set _ _ _ pool _ hbind]
          by_cases heq : idx1 = idx
          · subst heq; simp [hbind, hitems]
          · simp [heq]
    by_cases hdma : (env.MAKE_ION_ALLOC_DMA_READY && decide (buffer.vmid ≤ 0)) = true
    · simp only [hdma, Bool.not_true, Bool.or_false, if_true]
      refine ⟨some page, true, _, trivial, hbind, rfl, ?_, ?_, ?_, ?_, ?_, ?_, ?_⟩
      · exact hcreated
      · exact hsec
      · exact hrel
      · intro sel idx1
        simpa [World.count, World.pools, ion_pages_sync_for_device] using hcnt sel idx1
      · intro _
        exact ⟨by simp, hall⟩
      · intro hh; simp at hh
      · simp
    · simp only [hdma, Bool.not_true, Bool.or_false, Bool.false_eq_true, if_false]
      refine ⟨some page, true, _, trivial, hbind, rfl, ?_, ?_, ?_, ?_, ?_, ?_, ?_⟩
      · exact hcreated
      · exact hsec
      · exact hrel
      · intro sel idx1
        simpa [World.count, World.pools] using hcnt sel idx1
      · intro _
        exact ⟨by simp, hall⟩
      · intro hh; simp at hh
      · simp
  · have hmiss : (match fpin, pool.items with
        | true, page :: rest =>
          (Except.ok (some page, true,
            { (w.set_pool (buffer_sel buffer) idx { pool with items := rest }) with
              NR_IONCACHE_PAGES :=
                (w.set_pool (buffer_sel buffer) idx { pool with items := rest }).NR_IONCACHE_PAGES
                  - 2 ^ pool.order }) : Except Fault (Option Nat × Bool × World))
        | _, _ => .ok ((alloc_pages env w pool.order).1, false, (alloc_pages env w pool.order).2))
        = .ok ((alloc_pages env w pool.order).1, false, (alloc_pages env w pool.order).2) := by
      cases fpin
      · rfl
      · cases hitems : pool.items with
        | nil => rfl
        | cons a l => simp [hitems] at hhit
    simp only [hmiss]
    unfold alloc_pages
    cases hres : env.alloc_pages w.tick pool.order with
    | none =>
      simp only
      refine ⟨none, false, _, trivial, hbind, rfl, hc, rfl, rfl, ?_, ?_, ?_, ?_⟩
      · intro sel idx1; simp [World.count, World.pools]
      · intro hh; simp at hh
      · intro _; simp
      · simpa using hhit
    | some page =>
      simp only [Bool.not_false, Bool.or_true, if_true]
      refine ⟨some page, false, _, trivial, hbind, rfl, hc, rfl, rfl, ?_, ?_, ?_, ?_⟩
      · intro sel idx1; simp [World.count, World.pools, ion_pages_sync_for_device]
      · intro hh; simp at hh
      · intro _; simp [ion_pages_sync_for_device]
      · simpa using hhit

theorem pool_share_nil (env : Env) (buffer : ion_buffer) (sel : pool_sel) (idx : Nat) :
    pool_share env buffer [] sel idx = 0 := by
  simp [pool_share, blocks_at]

theorem pool_share_append (env : Env) (buffer : ion_buffer) (l1 l2 : List page_info)
    (sel : pool_sel) (idx : Nat) :
    pool_share env buffer (l1 ++ l2) sel idx
      = pool_share env buffer l1 sel idx + pool_share env buffer l2 sel idx := by
  unfold pool_share blocks_at
  split
  · exact List.countP_append _ _ _
  · rfl

theorem pool_share_cons (env : Env) (buffer : ion_buffer) (b : page_info) (l : List page_info)
    (sel : pool_sel) (idx : Nat) :
    pool_share env buffer (b :: l) sel idx
      = pool_share env buffer [b] sel idx + pool_share env buffer l sel idx := by
  rw [← pool_share_append]
  rfl

theorem pool_share_single (env : Env) (buffer : ion_buffer) (b : page_info) (sel : pool_sel)
    (idx idx1 : Nat) (h : order_to_index env b.order = .ok idx) :
    pool_share env buffer [b] sel idx1
      = if sel = buffer_sel buffer ∧ idx1 = idx then 1 else 0 := by
  unfold pool_share blocks_at
  by_cases hsel : sel = buffer_sel buffer
  · by_cases hidx : idx1 = idx
    · subst hidx
      simp [hsel, h]
    · have : ¬ idx = idx1 := fun hh => hidx hh.symm
      simp [hsel, h, hidx, this]
  · simp [hsel]

/-- The effect of the loop of `alloc_largest_available` for a buffer that is not
secure: it returns; a block that came out of a pool lowers the free count of its
pool by one, nothing else changes the pools, and nothing is released. -/
theorem alloc_largest_available_from_effect (env : Env) (buffer : ion_buffer)
    (size max_order : Nat) (rest : List Nat) (w : World)
    (hv : buffer.vmid ≤ 0) (hc : heap_created env w) (hsub : ∀ o ∈ rest, o ∈ env.orders) :
    ∃ res w1, alloc_largest_available_from env buffer size max_order rest w = .ok (res, w1) ∧
      heap_created env w1 ∧ w1.secure_pools = w.secure_pools ∧
      w1.sys_released = w.sys_released ∧
      (buffer.force_alloc = true → withdrawn res = []) ∧
      ∀ sel idx, w.count sel idx = w1.count sel idx + pool_share env buffer (withdrawn res) sel idx := by
  induction rest generalizing w with
  | nil =>
    exact ⟨none, w, rfl, hc, rfl, rfl, fun _ => rfl, fun sel idx => by simp [withdrawn, pool_share_nil]⟩
  | cons o rest ih =>
    have hsub1 : ∀ o1 ∈ rest, o1 ∈ env.orders := fun o1 h => hsub o1 (List.mem_cons_of_mem _ h)
    unfold alloc_largest_available_from
    split
    · exact ih w hc hsub1
    · split
      · exact ih w hc hsub1
      · obtain ⟨idx, pool, res, fp, w1, hidx, _, halloc, hc1, hsec, hrel, hcnt, hhit, _, hiff⟩ :=
          alloc_buffer_page_effect env w buffer o (!buffer.force_alloc) hv hc
            (hsub o (List.mem_cons_self _ _))
        rw [halloc]
        cases res with
        | none =>
          have hfp : fp = false := by
            cases fp
            · rfl
            · exact absurd rfl (hhit rfl).1
          subst hfp
          simp only
          obtain ⟨res2, w2, h2, hc2, hsec2, hrel2, hforce2, hcnt2⟩ := ih w1 hc1 hsub1
          refine ⟨res2, w2, h2, hc2, hsec2.trans hsec, hrel2.trans hrel, hforce2, ?_⟩
          intro sel idx1
          rw [← hcnt2 sel idx1, hcnt sel idx1]
          simp
        | some page =>
          simp only
          refine ⟨_, w1, rfl, hc1, hsec, hrel, ?_, ?_⟩
          · intro hforce
            cases fp
            · simp [withdrawn]
            · have := hiff.mp rfl
              simp [hforce] at this
          · intro sel idx1
            rw [hcnt sel idx1]
            cases fp
            · simp [withdrawn, pool_share_nil]
            · simp only [withdrawn, if_true, true_and]
              rw [pool_share_single env buffer _ sel idx idx1 hidx]

/-- The effect of one `list_for_each_entry_safe` loop of the label `err` for a
buffer that is not secure, not force-fresh and not marked shrinker-free: every
block of the list is deposited into the pool of its order; nothing is
released. -/
theorem free_info_list_deposit (env : Env) (buffer : ion_buffer) (blocks : List page_info)
    (w : World) (hv : buffer.vmid ≤ 0) (hf : buffer.force_alloc = false)
    (hs : buffer.shrinker_free = false) (hc : heap_created env w)
    (ho : ∀ b ∈ blocks, b.order ∈ env.orders) :
    ∃ w1, free_info_list env buffer blocks w = .ok w1 ∧
      heap_created env w1 ∧ w1.secure_pools = w.secure_pools ∧
      w1.sys_released = w.sys_released ∧ w1.sys_allocated = w.sys_allocated ∧
      ∀ sel idx, w1.count sel idx = w.count sel idx + pool_share env buffer blocks sel idx := by
  induction blocks generalizing w with
  | nil => exact ⟨w, rfl, hc, rfl, rfl, rfl, fun sel idx => by simp [pool_share_nil]⟩
  | cons b blocks ih =>
    obtain ⟨idx, w1, hidx, hfree, hc1, hsec, hrel, hall, hcnt⟩ :=
      free_buffer_page_deposit env w buffer b.page b.order hv hf hs hc
        (ho b (List.mem_cons_self _ _))
    obtain ⟨w2, h2, hc2, hsec2, hrel2, hall2, hcnt2⟩ :=
      ih w1 hc1 (fun b1 h => ho b1 (List.mem_cons_of_mem _ h))
    refine ⟨w2, ?_, hc2, hsec2.trans hsec, hrel2.trans hrel, hall2.trans hall, ?_⟩
    · simp only [free_info_list, hfree]
      exact h2
    · intro sel idx1
      rw [hcnt2 sel idx1, hcnt sel idx1, pool_share_cons env buffer b blocks,
        pool_share_single env buffer b sel idx idx1 hidx]
      omega

/-- The effect of one `list_for_each_entry_safe` loop of the label `err` for a
force-fresh buffer: every block of the list is released to the system allocator
and no pool changes. -/
theorem free_info_list_force (env : Env) (buffer : ion_buffer) (blocks : List page_info)
    (w : World) (hf : buffer.force_alloc = true) :
    ∃ w1, free_info_list env buffer blocks w = .ok w1 ∧
      w1.uncached_pools = w.uncached_pools ∧ w1.cached_pools = w.cached_pools ∧
      w1.secure_pools = w.secure_pools ∧
      w1.sys_released = w.sys_released ++ blocks.map (fun b => (b.page, b.order)) := by
  induction blocks generalizing w with
  | nil => exact ⟨w, rfl, rfl, rfl, rfl, by simp⟩
  | cons b blocks ih =>
    obtain ⟨w2, h2, h3, h4, h5, h6⟩ := ih
      { (__free_pages w b.page b.order) with
        NR_UNRECLAIMABLE_PAGES := (__free_pages w b.page b.order).NR_UNRECLAIMABLE_PAGES
          - 2 ^ b.order }
    refine ⟨w2, ?_, h3, h4, h5, ?_⟩
    · simp only [free_info_list, free_buffer_page, hf, Bool.not_true, Bool.false_eq_true,
        if_false]
      exact h2
    · rw [h6]
      simp [__free_pages]

theorem alloc_account_pool (env : Env) (s : alloc_locals) (info : page_info) :
    (alloc_account env s info).pages_from_pool = s.pages_from_pool ++ withdrawn (some info) := by
  cases h : info.from_pool <;> simp [alloc_account, withdrawn, h]

theorem alloc_account_mem (env : Env) (s : alloc_locals) (info : page_info) (b : page_info)
    (h : b ∈ (alloc_account env s info).pages ++ (alloc_account env s info).pages_from_pool) :
    b ∈ s.pages ++ s.pages_from_pool ∨ b = info := by
  unfold alloc_account at h
  cases hfp : info.from_pool <;> simp [hfp] at h ⊢ <;> tauto

theorem alloc_node_effect (env : Env) (w : World) (s : alloc_locals) :
    (alloc_node env w s).2.uncached_pools = w.uncached_pools ∧
    (alloc_node env w s).2.cached_pools = w.cached_pools ∧
    (alloc_node env w s).2.secure_pools = w.secure_pools ∧
    (alloc_node env w s).2.sys_released = w.sys_released ∧
    (alloc_node env w s).2.sys_allocated = w.sys_allocated := by
  unfold alloc_node
  split <;> simp

theorem heap_created_congr (env : Env) (w w1 : World) (h1 : w1.uncached_pools = w.uncached_pools)
    (h2 : w1.cached_pools = w.cached_pools) (hc : heap_created env w) : heap_created env w1 := by
  unfold heap_created at hc ⊢
  rw [h1, h2]
  exact hc

theorem count_congr (w w1 : World) (h1 : w1.uncached_pools = w.uncached_pools)
    (h2 : w1.cached_pools = w.cached_pools) (h3 : w1.secure_pools = w.secure_pools)
    (sel : pool_sel) (idx : Nat) : w1.count sel idx = w.count sel idx := by
  unfold World.count World.pools
  cases sel <;> simp [h1, h2, h3]

/-- What the first loop does to the pools for a buffer that is not secure: the
free count of a pool plus the blocks of the pooled list that belong to it stays
what it was, and nothing is released. -/
theorem alloc_loop_pools (env : Env) (buffer : ion_buffer) (fuel : Nat) (w : World)
    (s : alloc_locals) (exit : loop_exit) (w1 : World) (s1 : alloc_locals)
    (hvalid : env.is_secure_vmid_valid buffer.vmid = false) (hv : buffer.vmid ≤ 0)
    (hc : heap_created env w)
    (ho : ∀ b ∈ s.pages ++ s.pages_from_pool, b.order ∈ env.orders)
    (h : alloc_loop env buffer fuel w s = .ok (exit, w1, s1)) :
    heap_created env w1 ∧ w1.secure_pools = w.secure_pools ∧
    w1.sys_released = w.sys_released ∧
    (∀ b ∈ s1.pages ++ s1.pages_from_pool, b.order ∈ env.orders) ∧
    (buffer.force_alloc = true → s.pages_from_pool = [] → s1.pages_from_pool = []) ∧
    ∀ sel idx, w.count sel idx + pool_share env buffer s.pages_from_pool sel idx
      = w1.count sel idx + pool_share env buffer s1.pages_from_pool sel idx := by
  induction fuel generalizing w s with
  | zero =>
    unfold alloc_loop at h
    split at h
    · simp only [Except.ok.injEq, Prod.mk.injEq] at h
      obtain ⟨_, h2, h3⟩ := h
      subst h2 h3
      exact ⟨hc, rfl, rfl, ho, fun _ hh => hh, fun _ _ => rfl⟩
    · simp at h
  | succ fuel ih =>
    unfold alloc_loop at h
    split at h
    · simp only [Except.ok.injEq, Prod.mk.injEq] at h
      obtain ⟨_, h2, h3⟩ := h
      subst h2 h3
      exact ⟨hc, rfl, rfl, ho, fun _ hh => hh, fun _ _ => rfl⟩
    · simp only at h
      obtain ⟨n1, n2, n3, n4, _⟩ := alloc_node_effect env w s
      have hcn : heap_created env (alloc_node env w s).2 := heap_created_congr env w _ n1 n2 hc
      split at h
      · simp only [Except.ok.injEq, Prod.mk.injEq] at h
        obtain ⟨_, h2, h3⟩ := h
        subst h2 h3
        exact ⟨hcn, n3, n4, ho, fun _ hh => hh,
          fun sel idx => by rw [count_congr w _ n1 n2 n3]⟩
      · have hblock : alloc_block env (alloc_node env w s).2 buffer s
            = alloc_largest_available_from env buffer s.size_remaining s.max_order env.orders
                (alloc_node env w s).2 := by
          simp [alloc_block, hvalid, alloc_largest_available]
        obtain ⟨res, w2, hres, hc2, hsec2, hrel2, hforce2, hcnt2⟩ :=
          alloc_largest_available_from_effect env buffer s.size_remaining s.max_order env.orders
            (alloc_node env w s).2 hv hcn (fun o ho1 => ho1)
        rw [hblock, hres] at h
        cases res with
        | none =>
          simp only [Except.ok.injEq, Prod.mk.injEq] at h
          obtain ⟨_, h2, h3⟩ := h
          subst h2 h3
          refine ⟨hc2, hsec2.trans n3, hrel2.trans n4, ho, fun _ hh => hh, ?_⟩
          intro sel idx
          have := hcnt2 sel idx
          rw [count_congr w _ n1 n2 n3] at this
          simp only [withdrawn, pool_share_nil, add_zero] at this
          simp only
          rw [this]
        | some info =>
          simp only at h
          have hord := (alloc_largest_available_from_order env buffer _ _ _ _ _ _ hres).1
          obtain ⟨i1, i2, i3, i4, i5, i6⟩ := ih
            { w2 with NR_UNRECLAIMABLE_PAGES := w2.NR_UNRECLAIMABLE_PAGES + 2 ^ info.order }
            (alloc_account env s info)
            (heap_created_congr env w2 _ rfl rfl hc2)
            (by
              intro b hb
              rcases alloc_account_mem env s info b hb with hb1 | hb1
              · exact ho b hb1
              · subst hb1; exact hord)
            h
          refine ⟨i1, i2.trans (hsec2.trans n3), i3.trans (hrel2.trans n4), i4, ?_, ?_⟩
          · intro hforce hnil
            apply i5 hforce
            rw [alloc_account_pool, hnil, hforce2 hforce]
            rfl
          · intro sel idx
            have h6 := i6 sel idx
            have hw2 : World.count { w2 with
                NR_UNRECLAIMABLE_PAGES := w2.NR_UNRECLAIMABLE_PAGES + 2 ^ info.order } sel idx
                = w2.count sel idx := count_congr w2 _ rfl rfl rfl sel idx
            rw [alloc_account_pool, pool_share_append, hw2] at h6
            have h7 := hcnt2 sel idx
            rw [count_congr w _ n1 n2 n3] at h7
            omega

/-- C3 (as amended): a run of `ion_system_heap_allocate` for a buffer that is not
secure and not marked shrinker-free, on a heap as `ion_system_heap_create` builds
it, whose first loop is left through `goto err` (no block for the next round, or
no tracking node), returns the `ret` of that loop and leaves the buffer as it
was.  Without the force-fresh flag every block obtained goes through
`ion_page_pool_free`: the blocks withdrawn from a pool are back in that pool, and
the fresh blocks are deposited too, so the free count of each pool is its count
before the call plus the number of fresh blocks of its order obtained in the
call, and nothing is released to the system allocator.  With the force-fresh
flag no pool changes and the blocks obtained, all fresh, are released to the
system allocator. -/
theorem allocate_rollback_pool_counts (env : Env) (fuel : Nat) (w : World)
    (buffer : ion_buffer) (size : Nat) (w1 : World) (s1 : alloc_locals)
    (hvalid : env.is_secure_vmid_valid buffer.vmid = false) (hv : buffer.vmid ≤ 0)
    (hs : buffer.shrinker_free = false) (hc : heap_created env w)
    (hsize : size / PAGE_SIZE env ≤ env.totalram_pages / 2)
    (hloop : alloc_loop env buffer fuel w (alloc_locals_init env size)
      = .ok (.goto_err, w1, s1)) :
    ∃ w2, ion_system_heap_allocate env fuel w buffer size = .ok (s1.ret, buffer, w2) ∧
      (buffer.force_alloc = false →
        (∀ sel idx, w2.count sel idx
          = w.count sel idx + pool_share env buffer s1.pages sel idx) ∧
        w2.sys_released = w.sys_released) ∧
      (buffer.force_alloc = true →
        (∀ sel idx, w2.count sel idx = w.count sel idx) ∧
        w2.sys_released = w.sys_released ++ s1.pages.map (fun b => (b.page, b.order))) := by
  obtain ⟨hc1, hsec1, hrel1, ho1, hforce1, hcnt1⟩ := alloc_loop_pools env buffer fuel w
    (alloc_locals_init env size) .goto_err w1 s1 hvalid hv hc
    (by simp [alloc_locals_init]) hloop
  have hguard : ¬ (size / PAGE_SIZE env > env.totalram_pages / 2) := by omega
  have hrun : ion_system_heap_allocate env fuel w buffer size
      = allocate_fail env w1 buffer s1 s1.ret := by
    simp [ion_system_heap_allocate, hguard, hvalid, hloop]
  rw [hrun]
  unfold allocate_fail allocate_err
  cases hforce : buffer.force_alloc
  · obtain ⟨w2, h2, hc2, _, hrel2, _, hcnt2⟩ := free_info_list_deposit env buffer s1.pages w1
      hv hforce hs hc1 (fun b hb => ho1 b (List.mem_append_left _ hb))
    obtain ⟨w3, h3, _, _, hrel3, _, hcnt3⟩ := free_info_list_deposit env buffer
      s1.pages_from_pool w2 hv hforce hs hc2 (fun b hb => ho1 b (List.mem_append_right _ hb))
    refine ⟨w3, by simp [h2, h3], ?_, by simp⟩
    intro _
    refine ⟨?_, hrel3.trans (hrel2.trans hrel1)⟩
    intro sel idx
    have := hcnt1 sel idx
    simp only [alloc_locals_init, pool_share_nil, add_zero] at this
    rw [hcnt3 sel idx, hcnt2 sel idx, this]
    omega
  · obtain ⟨w2, h2, u2, c2, e2, r2⟩ := free_info_list_force env buffer s1.pages w1 hforce
    obtain ⟨w3, h3, u3, c3, e3, r3⟩ := free_info_list_force env buffer s1.pages_from_pool w2
      hforce
    have hnil : s1.pages_from_pool = [] := hforce1 hforce (by simp [alloc_locals_init])
    refine ⟨w3, by simp [h2, h3], by simp, ?_⟩
    intro _
    constructor
    · intro sel idx
      have := hcnt1 sel idx
      simp only [alloc_locals_init, hnil, pool_share_nil, add_zero] at this
      rw [count_congr w1 w3 (u3.trans u2) (c3.trans c2) (e3.trans e2), this]
    · rw [r3, r2, hrel1, hnil]
      simp

/-- Witness of C3 (as amended): Order Table `{8, 4, 0}`, empty pools, a request
of 272 pages, the buddy allocator serving the first call only.  The order-8 block
obtained fresh is in the cached pool of order 8 after the failed call. -/
theorem allocate_rollback_pool_counts_witness :
    ∃ w2, ion_system_heap_allocate
        (mk_env [8, 4, 0] 128 (fun t _ => if t = 0 then some 1000 else none) (fun _ => true)) 3
        (empty_world [8, 4, 0]) plain_buffer (272 * 4096) = .ok (-ENOMEM, plain_buffer, w2) ∧
      w2.count .cached 0 = (empty_world [8, 4, 0]).count .cached 0 + 1 ∧
      w2.sys_released = [] := by
  obtain ⟨w2, h1, h2, _⟩ := allocate_rollback_pool_counts
    (mk_env [8, 4, 0] 128 (fun t _ => if t = 0 then some 1000 else none) (fun _ => true)) 3
    (empty_world [8, 4, 0]) plain_buffer (272 * 4096)
    { empty_world [8, 4, 0] with
      tick := 3, NR_UNRECLAIMABLE_PAGES := 256, sys_allocated := [(1000, 8)],
      synced := [(1000, 1048576)] }
    { pages := [⟨1000, false, 8⟩], pages_from_pool := [], i := 1, nents_sync := 1,
      size_remaining := 65536, max_order := 8, data_size := 1048576, ret := -12 }
    rfl (by decide) rfl (by unfold heap_created pools_created; decide) (by decide)
    (by decide!)
  obtain ⟨h3, h4⟩ := h2 rfl
  refine ⟨w2, h1, ?_, h4⟩
  rw [h3 .cached 0]
  decide!

/-- Counterexample to C3 as stated: Order Table `{8, 4, 0}`, empty pools, a
request of 272 pages, the buddy allocator serving the first call only.  The call
fails with `-ENOMEM` after one fresh order-8 block; that block is then in the
cached pool of order 8, whose free count was `0` before the call and is `1` after
it, and nothing was released to the system allocator. -/
theorem allocate_rollback_deposits_fresh_block :
    (empty_world [8, 4, 0]).count .cached 0 = 0 ∧
    (ion_system_heap_allocate
      (mk_env [8, 4, 0] 128 (fun t _ => if t = 0 then some 1000 else none) (fun _ => true)) 3
      (empty_world [8, 4, 0]) plain_buffer (272 * 4096)).toOption.map
        (fun r => (r.1, r.2.2.count .cached 0, r.2.2.sys_allocated, r.2.2.sys_released))
      = some (-ENOMEM, 1, [(1000, 8)], []) := by
  decide!

/-! ## Allocate followed by free -/

theorem PAGE_ALIGN_order (env : Env) (o : Nat) (h : env.PAGE_SHIFT + o < 32) :
    PAGE_ALIGN env (PAGE_SIZE env * 2 ^ o) = PAGE_SIZE env * 2 ^ o := by
  have hpos : 0 < PAGE_SIZE env := by unfold PAGE_SIZE; positivity
  have hlt : PAGE_SIZE env * 2 ^ o < 2 ^ 32 := by
    unfold PAGE_SIZE
    rw [← pow_add]
    exact Nat.pow_lt_pow_right (by norm_num) h
  have hP : PAGE_SIZE env < 2 ^ 32 := by
    unfold PAGE_SIZE
    exact Nat.pow_lt_pow_right (by norm_num) (by omega)
  unfold PAGE_ALIGN U64
  rw [Nat.mod_eq_of_lt (by omega)]
  have h1 : PAGE_SIZE env * 2 ^ o + PAGE_SIZE env - 1
      = (PAGE_SIZE env - 1) + PAGE_SIZE env * 2 ^ o := by omega
  rw [h1, Nat.add_mul_div_left _ _ hpos, Nat.div_eq_of_lt (by omega), Nat.zero_add, Nat.mul_comm]

theorem order_to_size_lt (env : Env) (a o : Nat) (ha : env.PAGE_SHIFT + a < 32) (h : o < a) :
    PAGE_SIZE env * 2 ^ o < order_to_size env a := by
  rw [order_to_size_fit env a ha]
  have hpos : 0 < PAGE_SIZE env := by unfold PAGE_SIZE; positivity
  exact Nat.mul_lt_mul_of_pos_left (Nat.pow_lt_pow_right (by norm_num) h) hpos

/-- With a request of exactly the byte size of the order `o` and a non-empty pool
of that order, the loop of `alloc_largest_available` skips the larger orders and
takes a block out of that pool. -/
theorem alloc_largest_available_from_hit (env : Env) (buffer : ion_buffer) (o max_order : Nat)
    (rest : List Nat) (w : World)
    (hdesc : rest.Pairwise (fun a b => a > b))
    (hfit : ∀ o1 ∈ rest, env.PAGE_SHIFT + o1 < 32)
    (hsub : ∀ o1 ∈ rest, o1 ∈ env.orders)
    (ho : o ∈ rest) (hmax : o ≤ max_order)
    (hv : buffer.vmid ≤ 0) (hforce : buffer.force_alloc = false) (hc : heap_created env w)
    (hpool : ∀ idx, order_to_index env o = .ok idx → 0 < w.count (buffer_sel buffer) idx) :
    ∃ page w1, alloc_largest_available_from env buffer (PAGE_SIZE env * 2 ^ o) max_order rest w
      = .ok (some { page := page, from_pool := true, order := o }, w1) := by
  induction rest with
  | nil => simp at ho
  | cons a rest ih =>
    unfold alloc_largest_available_from
    rw [List.pairwise_cons] at hdesc
    by_cases hao : a = o
    · subst hao
      have hsz : ¬ (PAGE_SIZE env * 2 ^ a < order_to_size env a) := by
        rw [order_to_size_fit env a (hfit a (List.mem_cons_self _ _))]
        omega
      have hmx : ¬ (max_order < a) := by omega
      simp only [hsz, hmx, if_false]
      obtain ⟨idx, pool, res, fp, w1, hidx, hbind, halloc, _, _, _, _, hhit, _, hiff⟩ :=
        alloc_buffer_page_effect env w buffer a (!buffer.force_alloc) hv hc
          (hsub a (List.mem_cons_self _ _))
      have hcnt := hpool idx hidx
      rw [count_eq_of_get w buffer idx pool hbind] at hcnt
      have hfp : fp = true := hiff.mpr ⟨by simp [hforce], by
        intro hnil
        simp [hnil] at hcnt⟩
      subst hfp
      rw [halloc]
      cases res with
      | none => exact absurd rfl (hhit rfl).1
      | some page => exact ⟨page, w1, rfl⟩
    · have ho1 : o ∈ rest := by
        rcases List.mem_cons.mp ho with h1 | h1
        · exact absurd h1.symm hao
        · exact h1
      have hlt : PAGE_SIZE env * 2 ^ o < order_to_size env a :=
        order_to_size_lt env a o (hfit a (List.mem_cons_self _ _)) (hdesc.1 o ho1)
      simp only [hlt, if_true]
      exact ih hdesc.2 (fun o1 h => hfit o1 (List.mem_cons_of_mem _ h))
        (fun o1 h => hsub o1 (List.mem_cons_of_mem _ h)) ho1

theorem head_is_largest (l : List Nat) (hdesc : l.Pairwise (fun a b => a > b)) (o : Nat)
    (ho : o ∈ l) : o ≤ l.headD 0 := by
  cases l with
  | nil => simp at ho
  | cons a l =>
    rw [List.pairwise_cons] at hdesc
    rcases List.mem_cons.mp ho with h1 | h1
    · subst h1; simp
    · have := hdesc.1 o h1
      simp only [List.headD_cons]
      omega

/-- The first loop on a request of exactly the byte size of the order `o`, with
a non-empty pool of that order: it is left through `goto err` with `ret` still
`-ENOMEM` (no tracking node), or it is left by the loop condition after one
round, with no fresh block and one pooled block of order `o`. -/
theorem alloc_loop_single_hit (env : Env) (buffer : ion_buffer) (fuel : Nat) (w : World)
    (o : Nat) (exit : loop_exit) (w1 : World) (s1 : alloc_locals)
    (hdesc : env.orders.Pairwise (fun a b => a > b))
    (hfit : ∀ o1 ∈ env.orders, env.PAGE_SHIFT + o1 < 32) (ho : o ∈ env.orders)
    (hvalid : env.is_secure_vmid_valid buffer.vmid = false) (hv : buffer.vmid ≤ 0)
    (hforce : buffer.force_alloc = false) (hc : heap_created env w)
    (hpool : ∀ idx, order_to_index env o = .ok idx → 0 < w.count (buffer_sel buffer) idx)
    (h : alloc_loop env buffer fuel w (alloc_locals_init env (PAGE_SIZE env * 2 ^ o))
      = .ok (exit, w1, s1)) :
    (exit = .goto_err ∧ s1.ret = -ENOMEM) ∨
    (exit = .done ∧ s1.pages = [] ∧ ∃ page, s1.pages_from_pool = [⟨page, true, o⟩]) := by
  have hfo := hfit o ho
  have hpos : 0 < PAGE_SIZE env * 2 ^ o := by unfold PAGE_SIZE; positivity
  have hlt : PAGE_SIZE env * 2 ^ o < 2 ^ 32 := by
    unfold PAGE_SIZE
    rw [← pow_add]
    exact Nat.pow_lt_pow_right (by norm_num) hfo
  have hrem : (alloc_locals_init env (PAGE_SIZE env * 2 ^ o)).size_remaining
      = PAGE_SIZE env * 2 ^ o := by
    simp [alloc_locals_init, PAGE_ALIGN_order env o hfo]
  cases fuel with
  | zero =>
    unfold alloc_loop at h
    rw [hrem] at h
    simp [Nat.ne_of_gt hpos] at h
  | succ fuel =>
    unfold alloc_loop at h
    rw [hrem] at h
    simp only [Nat.ne_of_gt hpos, if_false] at h
    obtain ⟨n1, n2, n3, _, _⟩ := alloc_node_effect env w
      (alloc_locals_init env (PAGE_SIZE env * 2 ^ o))
    split at h
    · simp only [Except.ok.injEq, Prod.mk.injEq] at h
      obtain ⟨h1, _, h3⟩ := h
      subst h1 h3
      exact Or.inl ⟨rfl, rfl⟩
    · have hcn := heap_created_congr env w _ n1 n2 hc
      obtain ⟨page, w2, hhit⟩ := alloc_largest_available_from_hit env buffer o
        (env.orders.headD 0) env.orders
        (alloc_node env w (alloc_locals_init env (PAGE_SIZE env * 2 ^ o))).2
        hdesc hfit (fun _ hh => hh) ho (head_is_largest _ hdesc o ho) hv hforce hcn
        (fun idx hidx => by rw [count_congr w _ n1 n2 n3]; exact hpool idx hidx)
      have hblock : alloc_block env
          (alloc_node env w (alloc_locals_init env (PAGE_SIZE env * 2 ^ o))).2 buffer
          (alloc_locals_init env (PAGE_SIZE env * 2 ^ o))
          = .ok (some { page := page, from_pool := true, order := o }, w2) := by
        simp only [alloc_block, hvalid, Bool.false_eq_true, if_false, alloc_largest_available,
          hrem]
        exact hhit
      rw [hblock] at h
      simp only at h
      have hzero : (alloc_account env (alloc_locals_init env (PAGE_SIZE env * 2 ^ o))
          { page := page, from_pool := true, order := o }).size_remaining = 0 := by
        simp only [alloc_account, if_true, hrem]
        have hsz : 2 ^ o * PAGE_SIZE env % U32 = PAGE_SIZE env * 2 ^ o := by
          unfold U32
          rw [Nat.mul_comm, Nat.mod_eq_of_lt hlt]
        rw [hsz]
        unfold U64
        have : PAGE_SIZE env * 2 ^ o + 2 ^ 64 - PAGE_SIZE env * 2 ^ o = 2 ^ 64 := by omega
        rw [this]
        norm_num
      cases fuel with
      | zero =>
        unfold alloc_loop at h
        simp only [hzero, if_true, Except.ok.injEq, Prod.mk.injEq] at h
        obtain ⟨h1, _, h3⟩ := h
        subst h1 h3
        exact Or.inr ⟨rfl, by simp [alloc_account, alloc_locals_init],
          page, by simp [alloc_account, alloc_locals_init]⟩
      | succ fuel =>
        unfold alloc_loop at h
        simp only [hzero, if_true, Except.ok.injEq, Prod.mk.injEq] at h
        obtain ⟨h1, _, h3⟩ := h
        subst h1 h3
        exact Or.inr ⟨rfl, by simp [alloc_account, alloc_locals_init],
          page, by simp [alloc_account, alloc_locals_init]⟩

theorem allocate_tables_world (env : Env) (w : World) (s : alloc_locals) :
    (allocate_tables env w s).2.uncached_pools = w.uncached_pools ∧
    (allocate_tables env w s).2.cached_pools = w.cached_pools ∧
    (allocate_tables env w s).2.secure_pools = w.secure_pools ∧
    (allocate_tables env w s).2.sys_released = w.sys_released ∧
    (allocate_tables env w s).2.sys_allocated = w.sys_allocated := by
  unfold allocate_tables ion_heap_alloc_pages_mem
  simp only
  split_ifs <;> simp

theorem allocate_assign_world (env : Env) (w : World) (buffer : ion_buffer) (s : alloc_locals)
    (m : merge_state) :
    (allocate_assign env w buffer s m).2.uncached_pools = w.uncached_pools ∧
    (allocate_assign env w buffer s m).2.cached_pools = w.cached_pools ∧
    (allocate_assign env w buffer s m).2.secure_pools = w.secure_pools ∧
    (allocate_assign env w buffer s m).2.sys_released = w.sys_released ∧
    (allocate_assign env w buffer s m).2.sys_allocated = w.sys_allocated := by
  unfold allocate_assign
  split_ifs <;> simp

/-- A return of `0` from `allocate_finish`: the merged table is stored, and
neither a pool nor the record of the system allocator has changed. -/
theorem allocate_finish_ok (env : Env) (w : World) (buffer : ion_buffer) (s : alloc_locals)
    (b1 : ion_buffer) (w1 : World)
    (h : allocate_finish env w buffer s = .ok (0, b1, w1)) :
    ∃ m, merge_lists env s.i s.nents_sync s.pages s.pages_from_pool = .ok m ∧
      b1 = { buffer with sg_table := some m.table } ∧
      w1.uncached_pools = w.uncached_pools ∧ w1.cached_pools = w.cached_pools ∧
      w1.secure_pools = w.secure_pools ∧ w1.sys_released = w.sys_released ∧
      w1.sys_allocated = w.sys_allocated := by
  unfold allocate_finish at h
  simp only at h
  split at h
  · rename_i hne
    obtain ⟨h1, _⟩ := allocate_fail_buffer _ _ _ _ _ _ _ _ h
    exact absurd h1.symm hne
  · split at h
    · simp at h
    · rename_i m hm
      split at h
      · rename_i hne
        obtain ⟨h1, _⟩ := allocate_err_free_sg2_buffer _ _ _ _ _ _ _ _ _ _ h
        exact absurd h1.symm hne
      · simp only [Except.ok.injEq, Prod.mk.injEq, true_and] at h
        obtain ⟨h2, h3⟩ := h
        obtain ⟨t1, t2, t3, t4, t5⟩ := allocate_tables_world env w s
        obtain ⟨a1, a2, a3, a4, a5⟩ := allocate_assign_world env (allocate_tables env w s).2
          buffer s m
        subst h3
        exact ⟨m, hm, h2.symm, a1.trans t1, a2.trans t2, a3.trans t3, a4.trans t4,
          a5.trans t5⟩

/-- On the scatter entries of blocks whose byte size fits the 32-bit length, the
`for_each_sg` loop of the free path frees the blocks with their own orders. -/
theorem free_table_pages_eq (env : Env) (buffer : ion_buffer) (blocks : List page_info)
    (w : World) (hfit : ∀ b ∈ blocks, env.PAGE_SHIFT + b.order < 32) :
    free_table_pages env buffer (blocks.map (sg_of env)) w
      = free_info_list env buffer blocks w := by
  induction blocks generalizing w with
  | nil => rfl
  | cons b blocks ih =>
    simp only [List.map_cons, free_table_pages, free_info_list,
      get_order_sg_of env b (hfit b (List.mem_cons_self _ _))]
    have hpage : (sg_of env b).page = b.page := rfl
    rw [hpage]
    cases free_buffer_page env w buffer b.page b.order with
    | error e => rfl
    | ok w1 => exact ih w1 (fun b1 h => hfit b1 (List.mem_cons_of_mem _ h))

/-- C6 (as amended): for a buffer that is not secure, not force-fresh and not
marked shrinker-free, on a heap as `ion_system_heap_create` builds it with a
strictly descending Order Table whose block sizes fit the 32-bit length, and for
a size equal to the byte size of an order `o` of the table whose pool (in the
array of the buffer's cacheability) holds at least one free block:
when `ion_system_heap_allocate` returns `0`, `ion_system_heap_free` of the same
buffer returns and leaves the free count of every pool equal to its value before
the allocate. -/
theorem allocate_free_restores_counts (env : Env) (fuel : Nat) (w : World)
    (buffer : ion_buffer) (o : Nat) (b1 : ion_buffer) (w1 : World)
    (hdesc : env.orders.Pairwise (fun a b => a > b))
    (hfit : ∀ o1 ∈ env.orders, env.PAGE_SHIFT + o1 < 32) (ho : o ∈ env.orders)
    (hvalid : env.is_secure_vmid_valid buffer.vmid = false) (hv : buffer.vmid ≤ 0)
    (hforce : buffer.force_alloc = false) (hs : buffer.shrinker_free = false)
    (hc : heap_created env w)
    (hpool : ∀ idx, order_to_index env o = .ok idx → 0 < w.count (buffer_sel buffer) idx)
    (h : ion_system_heap_allocate env fuel w buffer (PAGE_SIZE env * 2 ^ o) = .ok (0, b1, w1)) :
    ∃ w2, ion_system_heap_free env w1 b1 = .ok w2 ∧
      ∀ sel idx, w2.count sel idx = w.count sel idx := by
  unfold ion_system_heap_allocate at h
  simp only [hvalid, Bool.and_false, Bool.false_eq_true, if_false] at h
  split at h
  · simp [ENOMEM] at h
  · split at h
    · simp at h
    · rename_i w3 s hloop
      rcases alloc_loop_single_hit env buffer fuel w o _ _ _ hdesc hfit ho hvalid hv hforce hc
        hpool hloop with ⟨_, hret⟩ | ⟨hd, _⟩
      · obtain ⟨h1, _⟩ := allocate_fail_buffer _ _ _ _ _ _ _ _ h
        rw [hret] at h1
        simp [ENOMEM] at h1
      · simp at hd
    · rename_i w3 s hloop
      rcases alloc_loop_single_hit env buffer fuel w o _ _ _ hdesc hfit ho hvalid hv hforce hc
        hpool hloop with ⟨hd, _⟩ | ⟨_, hpages, page, hpooled⟩
      · simp at hd
      · obtain ⟨hc3, _, _, ho3, _, hcnt3⟩ := alloc_loop_pools env buffer fuel w _ _ _ _ hvalid hv
          hc (by simp [alloc_locals_init]) hloop
        have hok := alloc_loop_lists_ok env buffer fuel w _ _ _ _
          (lists_ok_init env (PAGE_SIZE env * 2 ^ o)) hloop
        obtain ⟨m, hm, hb1, u1, c1, e1, _, _⟩ := allocate_finish_ok env w3 buffer s b1 w1 h
        have htable := (merge_lists_table env s hok m hm).1
        rw [hpages, spec_stable_merge_nil_left] at htable
        have hc1 : heap_created env w1 := heap_created_congr env w3 w1 u1 c1 hc3
        have hfitb : ∀ b ∈ s.pages_from_pool, env.PAGE_SHIFT + b.order < 32 :=
          fun b hb => hfit b.order (ho3 b (List.mem_append_right _ hb))
        obtain ⟨w2, hfree, _, _, _, _, hcnt2⟩ := free_info_list_deposit env b1
          s.pages_from_pool w1 (by rw [hb1]; exact hv) (by rw [hb1]; exact hforce)
          (by rw [hb1]; exact hs) hc1 (fun b hb => ho3 b (List.mem_append_right _ hb))
        refine ⟨w2, ?_, ?_⟩
        · unfold ion_system_heap_free
          have hsg : b1.sg_table = some m.table := by rw [hb1]
          have hsf : b1.shrinker_free = false := by rw [hb1]; exact hs
          have hfa : b1.force_alloc = false := by rw [hb1]; exact hforce
          simp only [hsg, hsf, hfa, Bool.not_false, Bool.and_self, if_true,
            Bool.false_eq_true, if_false]
          rw [htable, free_table_pages_eq env b1 s.pages_from_pool w1 hfitb]
          exact hfree
        · intro sel idx
          have h3 := hcnt3 sel idx
          simp only [alloc_locals_init, pool_share_nil, add_zero] at h3
          have hsel : pool_share env b1 s.pages_from_pool sel idx
              = pool_share env buffer s.pages_from_pool sel idx := by
            rw [hb1]
            rfl
          rw [hcnt2 sel idx, hsel, count_congr w3 w1 u1 c1 e1, h3]

/-- Witness of C6 (as amended): Order Table `{8, 4, 0}`, one block in the cached
pool of order 4, a request of 16 pages: allocate takes the block out of the pool
and free puts it back. -/
theorem allocate_free_restores_counts_witness :
    ∃ w2, ion_system_heap_free
        (mk_env [8, 4, 0] 128 (fun t _ => some (1000 + t)) (fun _ => true))
        { empty_world [8, 4, 0] with tick := 3, NR_UNRECLAIMABLE_PAGES := 16 }
        { plain_buffer with sg_table := some [⟨77, 65536⟩] } = .ok w2 ∧
      ∀ sel idx, w2.count sel idx = one_block_world.count sel idx :=
  allocate_free_restores_counts
    (mk_env [8, 4, 0] 128 (fun t _ => some (1000 + t)) (fun _ => true)) 3 one_block_world
    plain_buffer 4 { plain_buffer with sg_table := some [⟨77, 65536⟩] }
    { empty_world [8, 4, 0] with tick := 3, NR_UNRECLAIMABLE_PAGES := 16 }
    (by decide) (by decide) (by decide) rfl (by decide) rfl rfl
    (by unfold heap_created pools_created; decide)
    (by
      intro idx hidx
      have h1 : order_to_index
          (mk_env [8, 4, 0] 128 (fun t _ => some (1000 + t)) (fun _ => true)) 4 = .ok 1 := by
        decide
      rw [h1] at hidx
      cases hidx
      decide)
    (by decide!)

/-- Counterexample to C6 as stated: Order Table `{8, 4, 0}`, empty pools, a
request of 16 pages (the byte size of order 4).  Allocate returns `0` with a
fresh block and free deposits it: the cached pool of order 4 had `0` free blocks
before the allocate and has `1` after the free. -/
theorem allocate_free_grows_empty_pool :
    (empty_world [8, 4, 0]).count .cached 1 = 0 ∧
    (match ion_system_heap_allocate
        (mk_env [8, 4, 0] 128 (fun t _ => some (1000 + t)) (fun _ => true)) 3
        (empty_world [8, 4, 0]) plain_buffer (4096 * 2 ^ 4) with
      | .ok (ret, b, w) =>
        (ion_system_heap_free
          (mk_env [8, 4, 0] 128 (fun t _ => some (1000 + t)) (fun _ => true)) w b).toOption.map
            (fun w2 => (ret, w2.count .cached 1))
      | .error _ => none) = some (0, 1) := by
  decide!

/-! ## The greedy decomposition -/

theorem foldl_max_of_le (a : Nat) (xs : List Nat) (h : ∀ x ∈ xs, x ≤ a) :
    xs.foldl max a = a := by
  induction xs with
  | nil => rfl
  | cons x xs ih =>
    have hx : max a x = a := Nat.max_eq_left (h x (List.mem_cons_self _ _))
    simp only [List.foldl_cons, hx]
    exact ih (fun y hy => h y (List.mem_cons_of_mem _ hy))

/-- In a strictly descending list the largest element with a property is the
first one with it. -/
theorem filter_max_eq_find (l : List Nat) (hdesc : l.Pairwise (fun a b => a > b))
    (p : Nat → Bool) : (l.filter p).max? = l.find? p := by
  induction l with
  | nil => rfl
  | cons a l ih =>
    rw [List.pairwise_cons] at hdesc
    by_cases hp : p a = true
    · simp only [List.filter_cons, hp, if_true, List.find?_cons]
      simp only [List.max?]
      congr 1
      apply foldl_max_of_le
      intro x hx
      exact Nat.le_of_lt (hdesc.1 x (List.mem_filter.mp hx).1)
    · simp only [List.filter_cons, hp, List.find?_cons, Bool.false_eq_true, if_false]
      exact ih hdesc.2

theorem find_is_largest (l : List Nat) (hdesc : l.Pairwise (fun a b => a > b))
    (p : Nat → Bool) (o : Nat) (h : l.find? p = some o) (x : Nat) (hx : x ∈ l)
    (hpx : p x = true) : x ≤ o := by
  induction l with
  | nil => simp at hx
  | cons a l ih =>
    rw [List.pairwise_cons] at hdesc
    rw [List.find?_cons] at h
    by_cases hp : p a = true
    · simp only [hp, Option.some.injEq] at h
      subst h
      rcases List.mem_cons.mp hx with h1 | h1
      · omega
      · exact Nat.le_of_lt (hdesc.1 x h1)
    · have hp1 : p a = false := by simpa using hp
      simp only [hp1] at h
      rcases List.mem_cons.mp hx with h1 | h1
      · subst h1
        rw [hpx] at hp1
        simp at hp1
      · exact ih hdesc.2 h h1

theorem find_exists (l : List Nat) (p : Nat → Bool) (x : Nat) (hx : x ∈ l) (hpx : p x = true) :
    ∃ o, l.find? p = some o := by
  cases h : l.find? p with
  | none =>
    rw [List.find?_eq_none] at h
    exact absurd hpx (h x hx)
  | some o => exact ⟨o, rfl⟩

theorem get_pool_order (env : Env) (w : World) (buffer : ion_buffer) (hc : heap_created env w)
    (idx : Nat) (pool : ion_page_pool)
    (h : (w.pools (buffer_sel buffer)).bind (fun ps => ps[idx]?) = some pool) :
    env.orders[idx]? = some pool.order := by
  unfold buffer_sel at h
  cases hcached : buffer.cached
  · simp only [hcached, Bool.false_eq_true, if_false, World.pools, Option.some_bind] at h
    exact pools_created_order env _ hc.1 idx pool h
  · simp only [hcached, if_true, World.pools, Option.some_bind] at h
    exact pools_created_order env _ hc.2 idx pool h

/-- With empty pools and a buddy allocator that always succeeds, the loop of
`alloc_largest_available` returns a fresh block of the first order of the rest
of the table whose byte size does not exceed `size`; no pool changes. -/
theorem alloc_largest_available_from_fresh (env : Env) (buffer : ion_buffer)
    (size max_order : Nat) (rest : List Nat) (w : World) (o : Nat)
    (hv : buffer.vmid ≤ 0) (hc : heap_created env w)
    (hempty : ∀ idx, w.count (buffer_sel buffer) idx = 0)
    (hbuddy : ∀ t o1, (env.alloc_pages t o1).isSome = true)
    (hsub : ∀ o1 ∈ rest, o1 ∈ env.orders)
    (hfit : ∀ o1 ∈ rest, env.PAGE_SHIFT + o1 < 32)
    (hceil : ∀ o1 ∈ rest, PAGE_SIZE env * 2 ^ o1 ≤ size → o1 ≤ max_order)
    (hfind : rest.find? (fun o1 => decide (PAGE_SIZE env * 2 ^ o1 ≤ size)) = some o) :
    ∃ page w1, alloc_largest_available_from env buffer size max_order rest w
        = .ok (some { page := page, from_pool := false, order := o }, w1) ∧
      w1.uncached_pools = w.uncached_pools ∧ w1.cached_pools = w.cached_pools ∧
      w1.secure_pools = w.secure_pools ∧ w1.sys_released = w.sys_released ∧
      w1.sys_allocated = w.sys_allocated ++ [(page, o)] := by
  induction rest with
  | nil => simp at hfind
  | cons a rest ih =>
    unfold alloc_largest_available_from
    rw [List.find?_cons] at hfind
    have hfa := hfit a (List.mem_cons_self _ _)
    by_cases hp : PAGE_SIZE env * 2 ^ a ≤ size
    · simp only [hp, decide_True, Option.some.injEq] at hfind
      subst hfind
      have hsz : ¬ (size < order_to_size env a) := by
        rw [order_to_size_fit env a hfa]
        omega
      have hmx : ¬ (max_order < a) := by
        have := hceil a (List.mem_cons_self _ _) hp
        omega
      simp only [hsz, hmx, if_false]
      obtain ⟨idx, pool, res, fp, w1, hidx, hbind, halloc, _, hsec, hrel, _, _, hmiss, hiff⟩ :=
        alloc_buffer_page_effect env w buffer a (!buffer.force_alloc) hv hc
          (hsub a (List.mem_cons_self _ _))
      have hcnt := hempty idx
      rw [count_eq_of_get w buffer idx pool hbind] at hcnt
      have hfp : fp = false := by
        cases fp
        · rfl
        · have := (hiff.mp rfl).2
          exact absurd (List.length_eq_zero.mp hcnt) this
      subst hfp
      obtain ⟨hres, hu, hcc, hall⟩ := hmiss rfl
      have hord : pool.order = a := by
        have h1 := get_pool_order env w buffer hc idx pool hbind
        have h2 := order_to_index_get env a idx hidx
        rw [h1] at h2
        exact Option.some.inj h2
      rw [halloc]
      obtain ⟨page, hpage⟩ := Option.isSome_iff_exists.mp (hbuddy w.tick pool.order)
      rw [hpage] at hres
      subst hres
      refine ⟨page, w1, rfl, hu, hcc, hsec, hrel, ?_⟩
      rw [hall, hord]
      rfl
    · have hp1 : decide (PAGE_SIZE env * 2 ^ a ≤ size) = false := by simpa using hp
      simp only [hp1] at hfind
      have hsz : size < order_to_size env a := by
        rw [order_to_size_fit env a hfa]
        omega
      simp only [hsz, if_true]
      exact ih (fun o1 h => hsub o1 (List.mem_cons_of_mem _ h))
        (fun o1 h => hfit o1 (List.mem_cons_of_mem _ h))
        (fun o1 h => hceil o1 (List.mem_cons_of_mem _ h)) hfind

theorem spec_largest_fit_eq_find (env : Env) (hdesc : env.orders.Pairwise (fun a b => a > b))
    (remaining : Nat) :
    spec_largest_fit env remaining
      = env.orders.find? (fun o => decide (PAGE_SIZE env * 2 ^ o ≤ remaining)) :=
  filter_max_eq_find env.orders hdesc _

theorem alloc_account_fresh (env : Env) (s : alloc_locals) (page o : Nat)
    (hfit : env.PAGE_SHIFT + o < 32) (hle : PAGE_SIZE env * 2 ^ o ≤ s.size_remaining)
    (hlt : s.size_remaining < U64) :
    (alloc_account env s ⟨page, false, o⟩).pages = s.pages ++ [⟨page, false, o⟩] ∧
    (alloc_account env s ⟨page, false, o⟩).pages_from_pool = s.pages_from_pool ∧
    (alloc_account env s ⟨page, false, o⟩).size_remaining
      = s.size_remaining - PAGE_SIZE env * 2 ^ o ∧
    (alloc_account env s ⟨page, false, o⟩).max_order = o := by
  have hsz : 2 ^ o * PAGE_SIZE env % U32 = PAGE_SIZE env * 2 ^ o := by
    have := order_to_size_fit env o hfit
    unfold order_to_size at this
    rw [Nat.mul_comm]
    exact this
  refine ⟨by simp [alloc_account], by simp [alloc_account], ?_, by simp [alloc_account]⟩
  simp only [alloc_account, Bool.false_eq_true, if_false, hsz]
  have h1 : s.size_remaining + U64 - PAGE_SIZE env * 2 ^ o
      = (s.size_remaining - PAGE_SIZE env * 2 ^ o) + U64 := by omega
  rw [h1, Nat.add_mod_right]
  exact Nat.mod_eq_of_lt (by omega)

/-- The first loop for a buffer that is not secure, on empty pools, with a buddy
allocator and a `kmem_cache_alloc` that always succeed, on a strictly descending
Order Table that contains order 0: given enough rounds it is left by the loop
condition, and the blocks it appends, all fresh, have the orders of the greedy
decomposition of `size_remaining`. -/
theorem alloc_loop_greedy (env : Env) (buffer : ion_buffer)
    (hdesc : env.orders.Pairwise (fun a b => a > b)) (h0 : 0 ∈ env.orders)
    (hfit : ∀ o ∈ env.orders, env.PAGE_SHIFT + o < 32)
    (hvalid : env.is_secure_vmid_valid buffer.vmid = false) (hv : buffer.vmid ≤ 0)
    (hbuddy : ∀ t o, (env.alloc_pages t o).isSome = true)
    (hkmem : ∀ t, env.kmem_cache_alloc t = true)
    (fuel : Nat) (w : World) (s : alloc_locals)
    (hc : heap_created env w) (hempty : ∀ idx, w.count (buffer_sel buffer) idx = 0)
    (hdvd : PAGE_SIZE env ∣ s.size_remaining) (hlt : s.size_remaining < U64)
    (hceil : ∀ o ∈ env.orders, PAGE_SIZE env * 2 ^ o ≤ s.size_remaining → o ≤ s.max_order)
    (hfuel : s.size_remaining / PAGE_SIZE env ≤ fuel) :
    ∃ w1 s1 blocks, alloc_loop env buffer fuel w s = .ok (.done, w1, s1) ∧
      s1.pages = s.pages ++ blocks ∧ s1.pages_from_pool = s.pages_from_pool ∧
      blocks.map (fun b => b.order) = spec_greedy env fuel s.size_remaining ∧
      (∀ b ∈ blocks, b.from_pool = false) ∧
      (s.size_remaining ≠ 0 → blocks ≠ []) ∧
      w1.sys_allocated = w.sys_allocated ++ blocks.map (fun b => (b.page, b.order)) ∧
      w1.uncached_pools = w.uncached_pools ∧ w1.cached_pools = w.cached_pools ∧
      w1.secure_pools = w.secure_pools ∧ w1.sys_released = w.sys_released := by
  have hpos : 0 < PAGE_SIZE env := by unfold PAGE_SIZE; positivity
  induction fuel generalizing w s with
  | zero =>
    have hrem : s.size_remaining = 0 := by
      obtain ⟨k, hk⟩ := hdvd
      have hk0 : k = 0 := by
        have : s.size_remaining / PAGE_SIZE env = k := by
          rw [hk]; exact Nat.mul_div_cancel_left k hpos
        omega
      rw [hk, hk0]; rfl
    refine ⟨w, s, [], ?_, by simp, rfl, by simp [spec_greedy], by simp, fun h => absurd hrem h,
      by simp, rfl, rfl, rfl, rfl⟩
    unfold alloc_loop
    simp [hrem]
  | succ fuel ih =>
    by_cases hrem : s.size_remaining = 0
    · refine ⟨w, s, [], ?_, by simp, rfl, by simp [spec_greedy, hrem], by simp,
        fun h => absurd hrem h, by simp, rfl, rfl, rfl, rfl⟩
      unfold alloc_loop
      simp [hrem]
    · have hP : PAGE_SIZE env ≤ s.size_remaining :=
        Nat.le_of_dvd (Nat.pos_of_ne_zero hrem) hdvd
      obtain ⟨o, hfind⟩ := find_exists env.orders
        (fun o1 => decide (PAGE_SIZE env * 2 ^ o1 ≤ s.size_remaining)) 0 h0 (by simpa using hP)
      have hpo : PAGE_SIZE env * 2 ^ o ≤ s.size_remaining := by
        have := List.find?_some hfind
        simpa using this
      have hom : o ∈ env.orders := List.mem_of_find?_eq_some hfind
      have hfo := hfit o hom
      have hnode : (alloc_node env w s).1 = true := by
        unfold alloc_node
        split <;> simp [hkmem]
      obtain ⟨n1, n2, n3, n4, n5⟩ := alloc_node_effect env w s
      have hcn := heap_created_congr env w _ n1 n2 hc
      obtain ⟨page, w2, halloc, u2, c2, e2, r2, a2⟩ := alloc_largest_available_from_fresh env
        buffer s.size_remaining s.max_order env.orders (alloc_node env w s).2 o hv hcn
        (fun idx => by rw [count_congr w _ n1 n2 n3]; exact hempty idx) hbuddy
        (fun _ hh => hh) hfit hceil hfind
      have hblock : alloc_block env (alloc_node env w s).2 buffer s
          = .ok (some { page := page, from_pool := false, order := o }, w2) := by
        simp only [alloc_block, hvalid, Bool.false_eq_true, if_false, alloc_largest_available]
        exact halloc
      obtain ⟨f1, f2, f3, f4⟩ := alloc_account_fresh env s page o hfo hpo hlt
      have hw3u : World.uncached_pools { w2 with
          NR_UNRECLAIMABLE_PAGES := w2.NR_UNRECLAIMABLE_PAGES + 2 ^ o } = w.uncached_pools :=
        u2.trans n1
      have hw3c : World.cached_pools { w2 with
          NR_UNRECLAIMABLE_PAGES := w2.NR_UNRECLAIMABLE_PAGES + 2 ^ o } = w.cached_pools :=
        c2.trans n2
      have hw3e : World.secure_pools { w2 with
          NR_UNRECLAIMABLE_PAGES := w2.NR_UNRECLAIMABLE_PAGES + 2 ^ o } = w.secure_pools :=
        e2.trans n3
      obtain ⟨w1, s1, blocks, hloop, g1, g2, g3, g4, _, g6, g7, g8, g9, g10⟩ := ih
        { w2 with NR_UNRECLAIMABLE_PAGES := w2.NR_UNRECLAIMABLE_PAGES + 2 ^ o }
        (alloc_account env s ⟨page, false, o⟩)
        (heap_created_congr env w _ hw3u hw3c hc)
        (fun idx => by rw [count_congr w _ hw3u hw3c hw3e]; exact hempty idx)
        (by rw [f3]; exact (Nat.dvd_sub' hdvd (Dvd.intro _ rfl)))
        (by rw [f3]; omega)
        (by
          rw [f3, f4]
          intro o1 ho1 hle
          apply find_is_largest env.orders hdesc _ o hfind o1 ho1
          simp only [decide_eq_true_eq]
          omega)
        (by
          rw [f3]
          have h2 : PAGE_SIZE env ≤ PAGE_SIZE env * 2 ^ o :=
            Nat.le_mul_of_pos_right _ (by positivity)
          have h3 : (s.size_remaining - PAGE_SIZE env * 2 ^ o) / PAGE_SIZE env
              ≤ (s.size_remaining - PAGE_SIZE env) / PAGE_SIZE env :=
            Nat.div_le_div_right (by omega)
          have h4 : (s.size_remaining - PAGE_SIZE env) / PAGE_SIZE env
              = s.size_remaining / PAGE_SIZE env - 1 := by
            have := Nat.sub_mul_div s.size_remaining (PAGE_SIZE env) 1 (by simpa using hP)
            simpa using this
          omega)
      refine ⟨w1, s1, ⟨page, false, o⟩ :: blocks, ?_, ?_, ?_, ?_, ?_, by simp, ?_, ?_, ?_, ?_, ?_⟩
      · unfold alloc_loop
        simp only [hrem, if_false, hnode, Bool.not_true, Bool.false_eq_true, hblock]
        exact hloop
      · rw [g1, f1]; simp
      · rw [g2, f2]
      · rw [List.map_cons, g3, f3]
        simp [spec_greedy, hrem, spec_largest_fit_eq_find env hdesc, hfind]
      · intro b hb
        rcases List.mem_cons.mp hb with h1 | h1
        · subst h1; rfl
        · exact g4 b h1
      · rw [g6]
        simp only
        rw [a2, n5]
        simp
      · rw [g7]; exact u2.trans n1
      · rw [g8]; exact c2.trans n2
      · rw [g9]; exact e2.trans n3
      · rw [g10]; exact r2.trans n4

theorem PAGE_ALIGN_facts (env : Env) (size : Nat) :
    PAGE_SIZE env ∣ PAGE_ALIGN env size ∧ PAGE_ALIGN env size < U64 := by
  have hpos : 0 < PAGE_SIZE env := by unfold PAGE_SIZE; positivity
  unfold PAGE_ALIGN
  refine ⟨Dvd.intro_left _ rfl, ?_⟩
  have h1 : (size + PAGE_SIZE env - 1) % U64 / PAGE_SIZE env * PAGE_SIZE env
      ≤ (size + PAGE_SIZE env - 1) % U64 := Nat.div_mul_le_self _ _
  have h2 : (size + PAGE_SIZE env - 1) % U64 < U64 := Nat.mod_lt _ (by unfold U64; positivity)
  omega

theorem PAGE_ALIGN_pos (env : Env) (size : Nat) (hsize : 0 < size)
    (hwrap : size + PAGE_SIZE env ≤ U64) : PAGE_ALIGN env size ≠ 0 := by
  have hpos : 0 < PAGE_SIZE env := by unfold PAGE_SIZE; positivity
  unfold PAGE_ALIGN
  rw [Nat.mod_eq_of_lt (by omega)]
  have h1 : 1 ≤ (size + PAGE_SIZE env - 1) / PAGE_SIZE env :=
    (Nat.one_le_div_iff hpos).mpr (by omega)
  have h2 : PAGE_SIZE env ≤ (size + PAGE_SIZE env - 1) / PAGE_SIZE env * PAGE_SIZE env :=
    Nat.le_mul_of_pos_left _ h1
  omega

theorem allocate_tables_ok (env : Env) (w : World) (s : alloc_locals)
    (hkmalloc : ∀ t n, env.kmalloc t n = true) (hsg : ∀ t n, env.sg_alloc_table t n = 0) :
    (allocate_tables env w s).1 = 0 := by
  unfold allocate_tables ion_heap_alloc_pages_mem
  simp only
  split_ifs <;> simp_all

/-- The general part of C7 (as amended). -/
theorem allocate_greedy_general (env : Env) (fuel : Nat) (w : World) (buffer : ion_buffer)
    (size : Nat)
    (hdesc : env.orders.Pairwise (fun a b => a > b)) (h0 : 0 ∈ env.orders)
    (hfit : ∀ o ∈ env.orders, env.PAGE_SHIFT + o < 32)
    (hvalid : env.is_secure_vmid_valid buffer.vmid = false) (hv : buffer.vmid ≤ 0)
    (hc : heap_created env w) (hempty : ∀ sel idx, w.count sel idx = 0)
    (hbuddy : ∀ t o, (env.alloc_pages t o).isSome = true)
    (hkmem : ∀ t, env.kmem_cache_alloc t = true)
    (hkmalloc : ∀ t n, env.kmalloc t n = true)
    (hsg : ∀ t n, env.sg_alloc_table t n = 0)
    (hsize : 0 < size) (hram : size / PAGE_SIZE env ≤ env.totalram_pages / 2)
    (hwrap : size + PAGE_SIZE env ≤ U64)
    (hfuel : PAGE_ALIGN env size / PAGE_SIZE env ≤ fuel) :
    ∃ (blocks : List page_info) (w1 : World), ion_system_heap_allocate env fuel w buffer size
        = .ok (0, { buffer with sg_table := some (blocks.map (sg_of env)) }, w1) ∧
      blocks.map (fun b => b.order) = spec_greedy env fuel (PAGE_ALIGN env size) ∧
      (∀ b ∈ blocks, b.from_pool = false) ∧
      w1.sys_allocated = w.sys_allocated ++ blocks.map (fun b => (b.page, b.order)) ∧
      w1.uncached_pools = w.uncached_pools ∧ w1.cached_pools = w.cached_pools ∧
      w1.secure_pools = w.secure_pools ∧ w1.sys_released = w.sys_released := by
  obtain ⟨hdvd, hlt⟩ := PAGE_ALIGN_facts env size
  have hne := PAGE_ALIGN_pos env size hsize hwrap
  obtain ⟨w1, s1, blocks, hloop, g1, g2, g3, g4, g5, g6, g7, g8, g9, g10⟩ :=
    alloc_loop_greedy env buffer hdesc h0 hfit hvalid hv hbuddy hkmem fuel w
      (alloc_locals_init env size) hc (fun idx => hempty _ idx) hdvd hlt
      (fun o ho _ => head_is_largest _ hdesc o ho) hfuel
  simp only [alloc_locals_init, List.nil_append] at g1 g2 g3 g5
  have hok := alloc_loop_lists_ok env buffer fuel w _ _ _ _ (lists_ok_init env size) hloop
  have hblocks : blocks ≠ [] := g5 hne
  obtain ⟨m, hm, hm2, _⟩ := merge_lists_run env s1.pages s1.pages_from_pool
    (by rw [g1, g2]; simpa using hblocks)
  rw [← hok.count, ← hok.sync] at hm
  rw [g1, g2, spec_stable_merge_nil_right] at hm2
  obtain ⟨t1, t2, t3, t4, t5⟩ := allocate_tables_world env w1 s1
  have hguard : ¬ (size / PAGE_SIZE env > env.totalram_pages / 2) := by omega
  have hnv : ¬ (buffer.vmid > 0) := by omega
  refine ⟨blocks, (allocate_tables env w1 s1).2, ?_, g3, g4, ?_, ?_, ?_, ?_, ?_⟩
  · simp only [ion_system_heap_allocate, hguard, hvalid, Bool.and_false, Bool.false_eq_true,
      if_false, hloop, allocate_finish, allocate_tables_ok env w1 s1 hkmalloc hsg, ne_eq,
      not_true_eq_false, hm, allocate_assign, hnv, and_false, hm2]
  · rw [t5, g6]
  · rw [t1, g7]
  · rw [t2, g8]
  · rw [t3, g9]
  · rw [t4, g10]

/-- C7 (as amended): on a strictly descending Order Table that contains order 0
(block sizes fitting the 32-bit length), for a request of `size > 0` bytes that
passes the size guard (`size / PAGE_SIZE` not above half of `totalram_pages`, and
`PAGE_ALIGN(size)` not wrapping) of a buffer that is not secure, on a heap whose
pools are all empty, when every allocation of the kernel succeeds,
`ion_system_heap_allocate` returns `0` with a table of fresh blocks whose orders
are the greedy decomposition of `PAGE_ALIGN(size)`: each is the largest order of
the table whose byte size does not exceed the bytes that remain.  Each block is
recorded as handed out by the system allocator and no pool changes.  With the
table `{8, 4, 0}` and 272 pages the sequence is an order-8 block followed by an
order-4 block. -/
theorem allocate_greedy_on_empty_pools :
    (∀ (env : Env) (fuel : Nat) (w : World) (buffer : ion_buffer) (size : Nat),
      env.orders.Pairwise (fun a b => a > b) → 0 ∈ env.orders →
      (∀ o ∈ env.orders, env.PAGE_SHIFT + o < 32) →
      env.is_secure_vmid_valid buffer.vmid = false → buffer.vmid ≤ 0 →
      heap_created env w → (∀ sel idx, w.count sel idx = 0) →
      (∀ t o, (env.alloc_pages t o).isSome = true) →
      (∀ t, env.kmem_cache_alloc t = true) →
      (∀ t n, env.kmalloc t n = true) →
      (∀ t n, env.sg_alloc_table t n = 0) →
      0 < size → size / PAGE_SIZE env ≤ env.totalram_pages / 2 →
      size + PAGE_SIZE env ≤ U64 →
      PAGE_ALIGN env size / PAGE_SIZE env ≤ fuel →
      ∃ (blocks : List page_info) (w1 : World), ion_system_heap_allocate env fuel w buffer size
          = .ok (0, { buffer with sg_table := some (blocks.map (sg_of env)) }, w1) ∧
        blocks.map (fun b => b.order) = spec_greedy env fuel (PAGE_ALIGN env size) ∧
        (∀ b ∈ blocks, b.from_pool = false) ∧
        w1.sys_allocated = w.sys_allocated ++ blocks.map (fun b => (b.page, b.order)) ∧
        w1.uncached_pools = w.uncached_pools ∧ w1.cached_pools = w.cached_pools ∧
        w1.secure_pools = w.secure_pools ∧ w1.sys_released = w.sys_released) ∧
    (spec_greedy (mk_env [8, 4, 0] 128 (fun t _ => some (1000 + t)) (fun _ => true)) 272
        (272 * 4096) = [8, 4] ∧
      ion_system_heap_allocate (mk_env [8, 4, 0] 128 (fun t _ => some (1000 + t)) (fun _ => true))
        272 (empty_world [8, 4, 0]) plain_buffer (272 * 4096)
        = .ok (0, { plain_buffer with sg_table := some [⟨1000, 256 * 4096⟩, ⟨1001, 16 * 4096⟩] },
            { empty_world [8, 4, 0] with
              tick := 6, NR_UNRECLAIMABLE_PAGES := 272,
              sys_allocated := [(1000, 8), (1001, 4)],
              synced := [(1000, 1048576), (1001, 65536)] })) := by
  refine ⟨?_, by decide!, by decide!⟩
  intro env fuel w buffer size hdesc h0 hfit hvalid hv hc hempty hbuddy hkmem hkmalloc hsg hsize
    hram hwrap hfuel
  exact allocate_greedy_general env fuel w buffer size hdesc h0 hfit hvalid hv hc hempty hbuddy
    hkmem hkmalloc hsg hsize hram hwrap hfuel

/-- Witness of C7 (as amended): the general statement at the Order Table `{8, 4, 0}`, empty
pools and a request of 272 pages. -/
theorem allocate_greedy_on_empty_pools_witness :
    ∃ (blocks : List page_info) (w1 : World), ion_system_heap_allocate
        (mk_env [8, 4, 0] 128 (fun t _ => some (1000 + t)) (fun _ => true)) 272
        (empty_world [8, 4, 0]) plain_buffer (272 * 4096)
        = .ok (0, { plain_buffer with sg_table := some (blocks.map
            (sg_of (mk_env [8, 4, 0] 128 (fun t _ => some (1000 + t)) (fun _ => true)))) }, w1) ∧
      blocks.map (fun b => b.order) = [8, 4] ∧ (∀ b ∈ blocks, b.from_pool = false) := by
  obtain ⟨blocks, w1, h1, h2, h3, _⟩ := allocate_greedy_on_empty_pools.1
    (mk_env [8, 4, 0] 128 (fun t _ => some (1000 + t)) (fun _ => true)) 272
    (empty_world [8, 4, 0]) plain_buffer (272 * 4096)
    (by decide) (by decide) (by decide) rfl (by decide)
    (by unfold heap_created pools_created; decide)
    (by
      intro sel idx
      cases sel with
      | secure v => simp [World.count, World.pools, empty_world]
      | uncached =>
        simp only [World.count, World.pools, empty_world, List.map_cons, List.map_nil]
        rcases idx with _ | _ | _ | idx <;> simp
      | cached =>
        simp only [World.count, World.pools, empty_world, List.map_cons, List.map_nil]
        rcases idx with _ | _ | _ | idx <;> simp)
    (fun _ _ => rfl) (fun _ => rfl) (fun _ _ => rfl) (fun _ _ => rfl)
    (by decide) (by decide!) (by decide!) (by decide!)
  refine ⟨blocks, w1, h1, ?_, h3⟩
  rw [h2, allocate_greedy_on_empty_pools.2.1.symm]
  decide!

/-- Counterexample to C7 as stated: Order Table `{8, 4, 0}`, empty pools, every
allocation of the kernel succeeding, 8 GiB of RAM, and a request of 5 GiB for a
buffer that is not secure.  The size guard at the entry rejects the request:
the call returns `-ENOMEM`, stores no table and obtains no block, although the
greedy decomposition of the request is not empty. -/
theorem allocate_greedy_rejected_by_size_guard :
    (ion_system_heap_allocate (mk_env [8, 4, 0] 128 (fun t _ => some (1000 + t)) (fun _ => true))
        1310720 (empty_world [8, 4, 0]) plain_buffer (5 * 2 ^ 30)).toOption.map
      (fun r => (r.1, r.2.1.sg_table, r.2.2.sys_allocated)) = some (-ENOMEM, none, []) ∧
    (spec_greedy (mk_env [8, 4, 0] 128 (fun t _ => some (1000 + t)) (fun _ => true)) 3
      (5 * 2 ^ 30)).take 3 = [8, 8, 8] := by
  decide!

/-! ## Failure of the ownership assignment -/

/-- Every block of the two lists of the first loop has an order of the Order
Table or order 0, whatever the secure helpers do. -/
theorem alloc_loop_orders (env : Env) (buffer : ion_buffer) (fuel : Nat) (w : World)
    (s : alloc_locals) (exit : loop_exit) (w1 : World) (s1 : alloc_locals)
    (ho : ∀ b ∈ s.pages ++ s.pages_from_pool, b.order ∈ env.orders ∨ b.order = 0)
    (h : alloc_loop env buffer fuel w s = .ok (exit, w1, s1)) :
    ∀ b ∈ s1.pages ++ s1.pages_from_pool, b.order ∈ env.orders ∨ b.order = 0 := by
  induction fuel generalizing w s with
  | zero =>
    unfold alloc_loop at h
    split at h
    · simp only [Except.ok.injEq, Prod.mk.injEq] at h
      obtain ⟨_, _, h3⟩ := h
      subst h3
      exact ho
    · simp at h
  | succ fuel ih =>
    unfold alloc_loop at h
    split at h
    · simp only [Except.ok.injEq, Prod.mk.injEq] at h
      obtain ⟨_, _, h3⟩ := h
      subst h3
      exact ho
    · simp only at h
      split at h
      · simp only [Except.ok.injEq, Prod.mk.injEq] at h
        obtain ⟨_, _, h3⟩ := h
        subst h3
        exact ho
      · split at h
        · simp at h
        · simp only [Except.ok.injEq, Prod.mk.injEq] at h
          obtain ⟨_, _, h3⟩ := h
          subst h3
          exact ho
        · rename_i info w2 heq
          refine ih _ _ ?_ h
          intro b hb
          rcases alloc_account_mem env s info b hb with hb1 | hb1
          · exact ho b hb1
          · subst hb1
            exact (alloc_block_order _ _ _ _ _ _ heq).2

/-- The effect of `free_buffer_page` for a secure buffer marked shrinker-free
whose secure pools exist: the block is released to the system allocator and no
pool changes. -/
theorem free_buffer_page_release (env : Env) (w : World) (buffer : ion_buffer)
    (page order : Nat) (hv : buffer.vmid > 0) (hs : buffer.shrinker_free = true)
    (ps : List ion_page_pool) (hps : w.secure_pools[buffer.vmid.toNat]? = some ps)
    (hcr : pools_created env ps) (ho : order ∈ env.orders) :
    ∃ w1, free_buffer_page env w buffer page order = .ok w1 ∧
      w1.uncached_pools = w.uncached_pools ∧ w1.cached_pools = w.cached_pools ∧
      w1.secure_pools = w.secure_pools ∧ w1.sys_allocated = w.sys_allocated ∧
      w1.sys_released = w.sys_released ++ [(page, order)] := by
  unfold free_buffer_page
  cases hforce : buffer.force_alloc
  · obtain ⟨idx, hidx⟩ := order_to_index_mem env order ho
    have hlt := order_to_index_lt env order idx hidx
    obtain ⟨pool, hp⟩ := pools_created_get env ps hcr idx hlt
    have hord : pool.order = order := by
      have h1 := pools_created_order env ps hcr idx pool hp
      have h2 := order_to_index_get env order idx hidx
      rw [h1] at h2
      exact Option.some.inj h2
    have hget : w.get_pool (.secure buffer.vmid.toNat) idx = .ok pool := by
      simp [World.get_pool, World.pools, hps, hp]
    simp only [Bool.not_false, if_true, hidx, hv, hget, hs, ion_page_pool_free_immediate,
      __free_pages, hord]
    exact ⟨_, rfl, rfl, rfl, rfl, rfl, rfl⟩
  · simp only [Bool.not_true, Bool.false_eq_true, if_false, __free_pages]
    exact ⟨_, rfl, rfl, rfl, rfl, rfl, rfl⟩

theorem free_info_list_release (env : Env) (buffer : ion_buffer) (blocks : List page_info)
    (w : World) (hv : buffer.vmid > 0) (hs : buffer.shrinker_free = true)
    (ps : List ion_page_pool) (hps : w.secure_pools[buffer.vmid.toNat]? = some ps)
    (hcr : pools_created env ps) (ho : ∀ b ∈ blocks, b.order ∈ env.orders) :
    ∃ w1, free_info_list env buffer blocks w = .ok w1 ∧
      w1.uncached_pools = w.uncached_pools ∧ w1.cached_pools = w.cached_pools ∧
      w1.secure_pools = w.secure_pools ∧ w1.sys_allocated = w.sys_allocated ∧
      w1.sys_released = w.sys_released ++ blocks.map (fun b => (b.page, b.order)) := by
  induction blocks generalizing w with
  | nil => exact ⟨w, rfl, rfl, rfl, rfl, rfl, by simp⟩
  | cons b blocks ih =>
    obtain ⟨w1, h1, u1, c1, e1, a1, r1⟩ := free_buffer_page_release env w buffer b.page b.order
      hv hs ps hps hcr (ho b (List.mem_cons_self _ _))
    obtain ⟨w2, h2, u2, c2, e2, a2, r2⟩ := ih w1 (by rw [e1]; exact hps)
      (fun b1 h => ho b1 (List.mem_cons_of_mem _ h))
    refine ⟨w2, ?_, u2.trans u1, c2.trans c1, e2.trans e1, a2.trans a1, ?_⟩
    · simp only [free_info_list, h1]
      exact h2
    · rw [r2, r1]
      simp

/-- C9 (as amended): take a call of `ion_system_heap_allocate` for a buffer with
secure vmid (`vmid > 0`) on an Order Table that contains order 0 (block sizes
fitting the 32-bit length), which passes the two entry guards, leaves its first
loop by the loop condition with at least one fresh block, gets its tables, and
whose ownership assignment `ion_hyp_assign_sg` of the fresh blocks fails; let the
secure pools of the vmid exist.  The call returns the error of the assignment,
the buffer is marked shrinker-free, and no pool changes after the first loop, so
no block is deposited.  When the un-assignment `ion_hyp_unassign_sg` of the
table succeeds, every block obtained in the call is released to the system
allocator, in table order; when it fails too, no block is released (the blocks
are kept out of the allocator and out of the pools). -/
theorem allocate_assign_failure (env : Env) (fuel : Nat) (w : World) (buffer : ion_buffer)
    (size : Nat) (w1 : World) (s : alloc_locals) (ps : List ion_page_pool)
    (h0 : 0 ∈ env.orders) (hfit : ∀ o ∈ env.orders, env.PAGE_SHIFT + o < 32)
    (hv : buffer.vmid > 0)
    (hram : size / PAGE_SIZE env ≤ env.totalram_pages / 2)
    (htype : (ion_heap_is_system_heap_type env buffer.heap_type
      && env.is_secure_vmid_valid buffer.vmid) = false)
    (hloop : alloc_loop env buffer fuel w (alloc_locals_init env size) = .ok (.done, w1, s))
    (htables : (allocate_tables env w1 s).1 = 0)
    (hfresh : s.pages ≠ [])
    (hassign : env.ion_hyp_assign_sg (allocate_tables env w1 s).2.tick
      (s.pages.map (sg_of env)) buffer.vmid ≠ 0)
    (hps : w1.secure_pools[buffer.vmid.toNat]? = some ps) (hcr : pools_created env ps) :
    ∃ w2, ion_system_heap_allocate env fuel w buffer size
        = .ok (env.ion_hyp_assign_sg (allocate_tables env w1 s).2.tick
            (s.pages.map (sg_of env)) buffer.vmid,
          { buffer with shrinker_free := true }, w2) ∧
      w2.uncached_pools = w1.uncached_pools ∧ w2.cached_pools = w1.cached_pools ∧
      w2.secure_pools = w1.secure_pools ∧
      (env.ion_hyp_unassign_sg ((allocate_tables env w1 s).2.tick + 1)
          ((spec_stable_merge s.pages s.pages_from_pool).map (sg_of env)) buffer.vmid = 0 →
        w2.sys_released = w1.sys_released
          ++ (spec_stable_merge s.pages s.pages_from_pool).map (fun b => (b.page, b.order))) ∧
      (env.ion_hyp_unassign_sg ((allocate_tables env w1 s).2.tick + 1)
          ((spec_stable_merge s.pages s.pages_from_pool).map (sg_of env)) buffer.vmid ≠ 0 →
        w2.sys_released = w1.sys_released) := by
  have hok := alloc_loop_lists_ok env buffer fuel w _ _ _ _ (lists_ok_init env size) hloop
  have hord := alloc_loop_orders env buffer fuel w _ _ _ _ (by simp [alloc_locals_init]) hloop
  have hmem : ∀ b ∈ spec_stable_merge s.pages s.pages_from_pool, b.order ∈ env.orders := by
    intro b hb
    have hb1 := (spec_stable_merge_perm s.pages s.pages_from_pool).mem_iff.mp hb
    rcases hord b hb1 with h1 | h1
    · exact h1
    · rw [h1]; exact h0
  obtain ⟨m, hm, _⟩ := merge_lists_run env s.pages s.pages_from_pool
    (by simp [hfresh])
  rw [← hok.count, ← hok.sync] at hm
  obtain ⟨mt, ms, mp, mq⟩ := merge_lists_table env s hok m hm
  obtain ⟨t1, t2, t3, t4, _⟩ := allocate_tables_world env w1 s
  have hguard : ¬ (size / PAGE_SIZE env > env.totalram_pages / 2) := by omega
  have hsync : s.nents_sync ≠ 0 := by
    rw [hok.sync]
    intro hz
    exact hfresh (List.length_eq_zero.mp hz)
  have hrun : ion_system_heap_allocate env fuel w buffer size
      = allocate_err_free_sg2 env
          { (allocate_tables env w1 s).2 with tick := (allocate_tables env w1 s).2.tick + 1 }
          buffer (env.ion_hyp_assign_sg (allocate_tables env w1 s).2.tick
            (s.pages.map (sg_of env)) buffer.vmid)
          ((spec_stable_merge s.pages s.pages_from_pool).map (sg_of env)) [] [] := by
    have hasg : allocate_assign env (allocate_tables env w1 s).2 buffer s m
        = (env.ion_hyp_assign_sg (allocate_tables env w1 s).2.tick
            (s.pages.map (sg_of env)) buffer.vmid,
          { (allocate_tables env w1 s).2 with
            tick := (allocate_tables env w1 s).2.tick + 1 }) := by
      unfold allocate_assign
      rw [if_pos ⟨hsync, hv⟩, ms]
    have hfin : allocate_finish env w1 buffer s
        = allocate_err_free_sg2 env
          { (allocate_tables env w1 s).2 with tick := (allocate_tables env w1 s).2.tick + 1 }
          buffer (env.ion_hyp_assign_sg (allocate_tables env w1 s).2.tick
            (s.pages.map (sg_of env)) buffer.vmid)
          ((spec_stable_merge s.pages s.pages_from_pool).map (sg_of env)) [] [] := by
      unfold allocate_finish
      simp only [htables, ne_eq, not_true_eq_false, if_false, hm, hasg, hassign,
        not_false_eq_true, if_true, mt, mp, mq]
    simp only [ion_system_heap_allocate, hguard, htype, Bool.false_eq_true, if_false, hloop,
      hfin]
  rw [hrun]
  unfold allocate_err_free_sg2
  simp only [hv, if_true, allocate_err, free_info_list]
  by_cases hun : env.ion_hyp_unassign_sg ((allocate_tables env w1 s).2.tick + 1)
      ((spec_stable_merge s.pages s.pages_from_pool).map (sg_of env)) buffer.vmid = 0
  · simp only [hun, ne_eq, not_true_eq_false, decide_False, Bool.false_eq_true, if_false]
    rw [free_table_pages_eq env _ _ _ (fun b hb => hfit b.order (hmem b hb))]
    obtain ⟨w2, h2, u2, c2, e2, _, r2⟩ := free_info_list_release env
      { buffer with shrinker_free := true }
      (spec_stable_merge s.pages s.pages_from_pool)
      { (allocate_tables env w1 s).2 with tick := (allocate_tables env w1 s).2.tick + 1 + 1 }
      hv rfl ps (by simp only; rw [t3]; exact hps) hcr hmem
    rw [h2]
    refine ⟨w2, rfl, u2.trans t1, c2.trans t2, e2.trans t3, ?_, fun hh => hh.elim⟩
    intro _
    rw [r2]
    simp only
    rw [t4]
  · simp only [hun, ne_eq, not_false_eq_true, decide_True, if_true]
    exact ⟨_, rfl, t1, t2, t3, fun hh => hh.elim, fun _ => t4⟩

/-- Witness of C9 (as amended): a secure request of two pages (vmid 10, Order
Table `{9, 4, 0}`, empty pools) whose assignment fails with `-1` and whose
un-assignment succeeds: the call returns `-1` and both blocks are released. -/
theorem allocate_assign_failure_witness :
    ∃ w2, ion_system_heap_allocate (mk_secure_env [9, 4, 0] (fun t _ => some (100 + t)) (-1) 0) 3
        (empty_secure_world [9, 4, 0]) (secure_buffer 1) 8192
        = .ok (-1, { secure_buffer 1 with shrinker_free := true }, w2) ∧
      w2.secure_pools = (empty_secure_world [9, 4, 0]).secure_pools ∧
      w2.sys_released = [(100, 0), (101, 0)] := by
  obtain ⟨w2, h1, _, _, h4, h5, _⟩ := allocate_assign_failure
    (mk_secure_env [9, 4, 0] (fun t _ => some (100 + t)) (-1) 0) 3
    (empty_secure_world [9, 4, 0]) (secure_buffer 1) 8192
    { empty_secure_world [9, 4, 0] with
      tick := 2, NR_UNRECLAIMABLE_PAGES := 2, sys_allocated := [(100, 0), (101, 0)],
      synced := [(100, 4096), (101, 4096)] }
    { pages := [⟨100, false, 0⟩, ⟨101, false, 0⟩], pages_from_pool := [], i := 2,
      nents_sync := 2, size_remaining := 0, max_order := 0, data_size := 8192, ret := 0 }
    [⟨9, []⟩, ⟨4, []⟩, ⟨0, []⟩]
    (by decide) (by decide) (by decide) (by decide!) (by decide) (by decide!) (by decide!)
    (by decide) (by decide) (by decide) (by unfold pools_created; decide)
  refine ⟨w2, h1, h4, ?_⟩
  rw [h5 rfl]
  simp [spec_stable_merge_nil_right, empty_secure_world, empty_world]

/-- Counterexample to C9 as stated: the same secure request of two pages when the
assignment fails with `-1` and the un-assignment of the table fails too.  The
call returns `-1` with the buffer marked, two blocks were obtained from the
system allocator, and none of them is released (`sys_released` stays empty) or
deposited (the secure pools stay empty). -/
theorem allocate_assign_failure_keeps_blocks :
    (ion_system_heap_allocate (mk_secure_env [9, 4, 0] (fun t _ => some (100 + t)) (-1) (-1)) 3
        (empty_secure_world [9, 4, 0]) (secure_buffer 1) 8192).toOption.map
      (fun r => (r.1, r.2.1.shrinker_free, r.2.2.sys_allocated))
      = some (-1, true, [(100, 0), (101, 0)]) ∧
    (ion_system_heap_allocate (mk_secure_env [9, 4, 0] (fun t _ => some (100 + t)) (-1) (-1)) 3
        (empty_secure_world [9, 4, 0]) (secure_buffer 1) 8192).toOption.map
      (fun r => (r.2.2.sys_released, r.2.2.count (.secure 10) 2))
      = some ([], 0) := by
  decide!

/-! ## The two guards at the entry of `ion_system_heap_allocate` -/

/-- C5 (as amended): on a heap of the system heap type, for a buffer whose flags
select a valid secure vmid, `ion_system_heap_allocate` returns `-EINVAL` for
every size whose page count does not exceed half of `totalram_pages`, and
`-ENOMEM` for every larger size (the size guard comes first); in both cases the
buffer and the whole heap state are returned unchanged, so no block is taken
from a pool or from the system allocator. -/
theorem allocate_secure_on_system_heap (env : Env) (fuel : Nat) (w : World)
    (buffer : ion_buffer) (size : Nat)
    (htype : ion_heap_is_system_heap_type env buffer.heap_type = true)
    (hvalid : env.is_secure_vmid_valid buffer.vmid = true) :
    (size / PAGE_SIZE env ≤ env.totalram_pages / 2 →
      ion_system_heap_allocate env fuel w buffer size = .ok (-EINVAL, buffer, w)) ∧
    (env.totalram_pages / 2 < size / PAGE_SIZE env →
      ion_system_heap_allocate env fuel w buffer size = .ok (-ENOMEM, buffer, w)) := by
  constructor
  · intro h
    have h1 : ¬ (size / PAGE_SIZE env > env.totalram_pages / 2) := by omega
    simp [ion_system_heap_allocate, h1, htype, hvalid]
  · intro h
    simp [ion_system_heap_allocate, h]

/-- Witness of C5 (as amended): a two-page secure request on the system heap. -/
theorem allocate_secure_on_system_heap_witness :
    ion_system_heap_allocate (mk_secure_env [9, 4, 0] (fun t _ => some t) 0 0) 8
      (empty_secure_world [9, 4, 0]) (secure_buffer 0) 8192
      = .ok (-EINVAL, secure_buffer 0, empty_secure_world [9, 4, 0]) :=
  (allocate_secure_on_system_heap (mk_secure_env [9, 4, 0] (fun t _ => some t) 0 0) 8
    (empty_secure_world [9, 4, 0]) (secure_buffer 0) 8192 (by decide) (by decide)).1 (by decide)

/-- Counterexample to C5 as stated: a secure request of `2 ^ 44` bytes (more
pages than half of the 8 GiB of RAM) on the system heap is answered with
`-ENOMEM`, not `-EINVAL`. -/
theorem allocate_secure_on_system_heap_huge :
    ion_heap_is_system_heap_type (mk_secure_env [9, 4, 0] (fun t _ => some t) 0 0)
        (secure_buffer 0).heap_type = true ∧
    (mk_secure_env [9, 4, 0] (fun t _ => some t) 0 0).is_secure_vmid_valid
        (secure_buffer 0).vmid = true ∧
    (ion_system_heap_allocate (mk_secure_env [9, 4, 0] (fun t _ => some t) 0 0) 8
      (empty_secure_world [9, 4, 0]) (secure_buffer 0) (2 ^ 44)).toOption.map (fun r => r.1)
      = some (-ENOMEM) ∧
    (ion_system_heap_allocate (mk_secure_env [9, 4, 0] (fun t _ => some t) 0 0) 8
      (empty_secure_world [9, 4, 0]) (secure_buffer 0) (2 ^ 44)).toOption.map (fun r => r.1)
      ≠ some (-EINVAL) := by
  decide!

/-! ## Evaluations at failing inputs -/

/-- C1, the code at the failing input: Order Table `{8, 4, 0}`, 128 on-stack
tracking nodes, empty pools, a request of 129 pages, the buddy allocator
serving only order 0, and `kmem_cache_alloc` failing.  After 128 blocks the
129th tracking node cannot be allocated, the function leaves through `goto err`
with `ret` still `0` from the last successful round: it returns `0` and stores
no scatter table. -/
theorem allocate_returns_zero_without_table :
    (ion_system_heap_allocate
      (mk_env [8, 4, 0] 128 (fun t o => if o = 0 then some t else none) (fun _ => false)) 129
      (empty_world [8, 4, 0]) plain_buffer (129 * 4096)).toOption.map
        (fun r => (r.1, r.2.1.sg_table)) = some (0, none) := by
  decide!

/-- C4, the code at the failing input: 100 blocks of order 9 and one page of
order 0 in the cached pools (`NR_IONCACHE_PAGES = 51201`, not below
`MIN_ION_POOL_PAGES`) and `nr_to_scan = 1`.  The gate is passed, the cached pool
of order 9 releases one block of 512 pages, and the counter ends at `50689`,
below `MIN_ION_POOL_PAGES`. -/
theorem shrink_drops_below_minimum :
    ¬ ((pooled_world 100 [5000]).NR_IONCACHE_PAGES < MIN_ION_POOL_PAGES) ∧
    (ion_system_heap_shrink (mk_env [9, 4, 0] 128 (fun _ _ => none) (fun _ => true))
      (pooled_world 100 [5000]) 1).toOption.map
        (fun r => (r.2.NR_IONCACHE_PAGES, r.2.sys_released,
          decide (r.2.NR_IONCACHE_PAGES < MIN_ION_POOL_PAGES)))
      = some (50689, [(0, 9)], true) := by
  decide!

/-- C10, the code at the failing input: 100 blocks of order 9 in the cached pool
(`NR_IONCACHE_PAGES = 51200`, exactly `MIN_ION_POOL_PAGES`) and
`nr_to_scan = 1`.  The gate `NR_IONCACHE_PAGES < MIN_ION_POOL_PAGES` is not
taken: the cached pool of order 9 is asked and releases one block, and shrink
returns a count that is not `0`. -/
theorem shrink_at_minimum_releases :
    (pooled_world 100 []).NR_IONCACHE_PAGES = MIN_ION_POOL_PAGES ∧
    (ion_system_heap_shrink (mk_env [9, 4, 0] 128 (fun _ _ => none) (fun _ => true))
      (pooled_world 100 []) 1).toOption.map
        (fun r => (decide (r.1 ≠ 0), r.2.NR_IONCACHE_PAGES, r.2.sys_released))
      = some (true, 50688, [(0, 9)]) := by
  decide!

/-! ## The contract of `order_to_index` -/

/-- In a table without repetition the scan finds an entry at its own position. -/
theorem order_to_index_from_at (l : List Nat) (hnd : l.Nodup) (k i : Nat) (h : i < l.length) :
    order_to_index_from (l.get ⟨i, h⟩) l k = .ok (k + i) := by
  induction l generalizing k i with
  | nil => simp at h
  | cons a l ih =>
    cases i with
    | zero => simp [order_to_index_from]
    | succ i =>
      have hl : i < l.length := by simpa using h
      have hne : l.get ⟨i, hl⟩ ≠ a := by
        intro heq
        have hmem : a ∈ l := heq ▸ List.get_mem l i hl
        exact (List.nodup_cons.mp hnd).1 hmem
      have hrec := ih (List.nodup_cons.mp hnd).2 (k + 1) i hl
      simp only [List.get_cons_succ, order_to_index_from, hne, if_false]
      rw [hrec]
      congr 1
      omega

/-- The scan for an order that no entry holds ends in `BUG()`. -/
theorem order_to_index_from_absent (o : Nat) (l : List Nat) (k : Nat) (h : o ∉ l) :
    order_to_index_from o l k = .error .bug := by
  induction l generalizing k with
  | nil => rfl
  | cons a l ih =>
    have h1 : o ≠ a := fun heq => h (by simp [heq])
    have h2 : o ∉ l := fun hm => h (by simp [hm])
    simp only [order_to_index_from, h1, if_false]
    exact ih (k + 1) h2

/-- C11: in a strictly descending Order Table `order_to_index(orders[i])`
returns `i` for every position `i`, and for an order that is not in the table
`order_to_index` ends in `BUG()`: it returns neither `-1` nor an index. -/
theorem order_to_index_contract (env : Env)
    (hdesc : env.orders.Pairwise (fun a b => a > b)) :
    (∀ (i : Nat) (h : i < env.orders.length),
      order_to_index env (env.orders.get ⟨i, h⟩) = .ok i) ∧
    (∀ order : Nat, order ∉ env.orders →
      order_to_index env order = .error .bug ∧ ∀ r : Nat, order_to_index env order ≠ .ok r) := by
  have hnd : env.orders.Nodup := hdesc.imp (fun h => Nat.ne_of_gt h)
  refine ⟨fun i h => ?_, fun order ho => ?_⟩
  · have := order_to_index_from_at env.orders hnd 0 i h
    simpa [order_to_index] using this
  · have hb : order_to_index env order = .error .bug :=
      order_to_index_from_absent order env.orders 0 ho
    exact ⟨hb, fun r hr => by rw [hb] at hr; cases hr⟩

/-- Witness of C11: in the table 9, 4, 0 the order 4 has index 1 and the order 5
ends in `BUG()`. -/
theorem order_to_index_contract_witness :
    order_to_index (mk_env [9, 4, 0] 128 (fun _ _ => none) (fun _ => true)) 4 = .ok 1 ∧
    order_to_index (mk_env [9, 4, 0] 128 (fun _ _ => none) (fun _ => true)) 5 = .error .bug :=
  ⟨(order_to_index_contract (mk_env [9, 4, 0] 128 (fun _ _ => none) (fun _ => true))
      (by simp [mk_env])).1 1 (by simp [mk_env]),
   ((order_to_index_contract (mk_env [9, 4, 0] 128 (fun _ _ => none) (fun _ => true))
      (by simp [mk_env])).2 5 (by simp [mk_env])).1⟩

/-! ## The contiguous heap: trim and free -/

/-- A loop of `__free_page` records its pages, in order, as released. -/
theorem free_page_range_eq (w : World) (page first last : Nat) :
    free_page_range w page first last =
      { w with sys_released := w.sys_released ++ page_run page first last } := by
  unfold free_page_range page_run
  generalize List.range' first (last - first) = l
  induction l generalizing w with
  | nil => simp
  | cons a l ih =>
    simp only [List.foldl_cons, List.map_cons]
    rw [ih]
    simp [__free_pages]

/-- For an order below 31 the `int` shift `1 << order` is `2 ^ order`. -/
theorem int_shl_one_small (order : Nat) (h : order < 31) : int_shl_one order = 2 ^ order := by
  have h1 : 2 ^ order < 2 ^ 31 := Nat.pow_lt_pow_right (by norm_num) h
  have h2 : 2 ^ order % U32 = 2 ^ order := Nat.mod_eq_of_lt (by unfold U32; omega)
  unfold int_shl_one
  rw [h2, if_pos h1]

/-- The search of `get_order` stops at the first order, from `k` on, whose span
covers `pages`. -/
theorem get_order_from_least (pages fuel k : Nat) :
    (∀ j, k ≤ j → j < get_order_from pages fuel k → ¬ pages ≤ 2 ^ j) ∧
    (get_order_from pages fuel k < k + fuel → pages ≤ 2 ^ get_order_from pages fuel k) ∧
    k ≤ get_order_from pages fuel k := by
  induction fuel generalizing k with
  | zero =>
    simp only [get_order_from]
    exact ⟨fun j h1 h2 => by omega, fun h => by omega, le_refl _⟩
  | succ fuel ih =>
    unfold get_order_from
    by_cases h : pages ≤ 2 ^ k
    · rw [if_pos h]
      exact ⟨fun j h1 h2 => by omega, fun _ => h, le_refl _⟩
    · rw [if_neg h]
      obtain ⟨h1, h2, h3⟩ := ih (k + 1)
      refine ⟨fun j hj1 hj2 => ?_, fun hlt => h2 (by omega), by omega⟩
      by_cases hjk : j = k
      · subst hjk; exact h
      · exact h1 j (by omega) hj2

/-- The order `get_order(len)`, when it is below 64, is the smallest order whose
span of `PAGE_SIZE << order` bytes covers `len`. -/
theorem get_order_least (env : Env) (len : Nat) (h : get_order env len < 64) :
    len ≤ PAGE_SIZE env * 2 ^ get_order env len ∧
    (len + PAGE_SIZE env - 1) / PAGE_SIZE env ≤ 2 ^ get_order env len ∧
    ∀ o : Nat, len ≤ PAGE_SIZE env * 2 ^ o → get_order env len ≤ o := by
  have hpos : 0 < PAGE_SIZE env := by unfold PAGE_SIZE; positivity
  obtain ⟨h1, h2, _⟩ := get_order_from_least ((len + PAGE_SIZE env - 1) / PAGE_SIZE env) 64 0
  have hcov := h2 (by unfold get_order at h; omega)
  have hiff : ∀ n : Nat, (len + PAGE_SIZE env - 1) / PAGE_SIZE env ≤ n ↔ len ≤ PAGE_SIZE env * n := by
    intro n
    rw [Nat.div_le_iff_le_mul_add_pred hpos]
    omega
  refine ⟨(hiff _).mp hcov, hcov, fun o ho => ?_⟩
  by_contra hlt
  exact h1 o (Nat.zero_le _) (by unfold get_order at hlt; omega) ((hiff _).mpr ho)

/-- The page count `PAGE_ALIGN(len) >> PAGE_SHIFT` of a request whose span fits an
`unsigned long`. -/
theorem PAGE_ALIGN_pages (env : Env) (len : Nat) (hlen : 0 < len)
    (hlong : env.PAGE_SHIFT + get_order env len < 64) :
    PAGE_ALIGN env len / PAGE_SIZE env = (len + PAGE_SIZE env - 1) / PAGE_SIZE env ∧
    0 < PAGE_ALIGN env len / PAGE_SIZE env ∧
    PAGE_ALIGN env len / PAGE_SIZE env ≤ 2 ^ get_order env len := by
  have hpos : 0 < PAGE_SIZE env := by unfold PAGE_SIZE; positivity
  obtain ⟨h1, h2, _⟩ := get_order_least env len (by omega)
  have hspan : PAGE_SIZE env * 2 ^ get_order env len ≤ 2 ^ 63 := by
    unfold PAGE_SIZE
    rw [← pow_add]
    exact Nat.pow_le_pow_right (by norm_num) (by omega)
  have hP : PAGE_SIZE env ≤ 2 ^ 63 := by
    unfold PAGE_SIZE
    exact Nat.pow_le_pow_right (by norm_num) (by omega)
  have heq : PAGE_ALIGN env len / PAGE_SIZE env = (len + PAGE_SIZE env - 1) / PAGE_SIZE env := by
    unfold PAGE_ALIGN U64
    rw [Nat.mod_eq_of_lt (by omega), Nat.mul_div_cancel _ hpos]
  refine ⟨heq, ?_, by rw [heq]; exact h2⟩
  rw [heq]
  exact (Nat.one_le_div_iff hpos).mpr (by omega)

/-- The tail of a span followed by its first pages is the span, rearranged. -/
theorem page_run_split (page kept total : Nat) (h : kept ≤ total) :
    (page_run page kept total ++ page_run page 0 kept).Perm (page_run page 0 total) := by
  have h1 : page_run page 0 total = page_run page 0 kept ++ page_run page kept total := by
    unfold page_run
    rw [← List.map_append]
    congr 1
    have : total - 0 = (total - kept) + (kept - 0) := by omega
    rw [this, ← List.range'_append_1]
    simp
  rw [h1]
  exact List.perm_append_comm


/-- A run of pages holds every page once. -/
theorem page_run_nodup (page first last : Nat) : (page_run page first last).Nodup := by
  unfold page_run
  refine List.Nodup.map ?_ (List.nodup_range' first (last - first))
  intro a b hab
  simp only [Prod.mk.injEq, and_true] at hab
  omega

/-- The run of `ion_system_contig_heap_allocate` when the span is handed out:
the tail is released, then the table is allocated. -/
theorem contig_allocate_run (env : Env) (w : World) (buffer : ion_buffer) (len page : Nat)
    (hint : get_order env len < 31)
    (hpage : env.alloc_pages w.tick (get_order env len) = some page) :
    ion_system_contig_heap_allocate env w buffer len =
      if env.kmalloc (w.tick + 1) 16 = true ∧ env.sg_alloc_table (w.tick + 2) 1 = 0 then
        (0, { buffer with sg_table := some [⟨page, PAGE_ALIGN env len % U32⟩] },
          { w with
            tick := w.tick + 3
            sys_allocated := w.sys_allocated ++ [(page, get_order env len)]
            sys_released := w.sys_released ++
              page_run page (PAGE_ALIGN env len / PAGE_SIZE env) (2 ^ get_order env len)
            synced := w.synced ++ [(page, PAGE_ALIGN env len)] })
      else
        (if env.kmalloc (w.tick + 1) 16 = true then env.sg_alloc_table (w.tick + 2) 1 else -ENOMEM,
          buffer,
          { w with
            tick := if env.kmalloc (w.tick + 1) 16 = true then w.tick + 3 else w.tick + 2
            sys_allocated := w.sys_allocated ++ [(page, get_order env len)]
            sys_released := w.sys_released ++
              page_run page (PAGE_ALIGN env len / PAGE_SIZE env) (2 ^ get_order env len) ++
              page_run page 0 (PAGE_ALIGN env len / PAGE_SIZE env) }) := by
  unfold ion_system_contig_heap_allocate
  simp only [alloc_pages, hpage, int_shl_one_small _ hint, free_page_range_eq,
    ion_pages_sync_for_device]
  cases hk : env.kmalloc (w.tick + 1) 16
  · simp
  · by_cases hs : env.sg_alloc_table (w.tick + 2) 1 = 0
    · simp [hs]
    · simp [hs]

/-- The run of `ion_system_contig_heap_free` on a table of one entry. -/
theorem contig_free_run (env : Env) (w : World) (buffer : ion_buffer) (page length : Nat)
    (h : buffer.sg_table = some [⟨page, length⟩]) :
    ion_system_contig_heap_free env w buffer = .ok
      { w with sys_released := w.sys_released ++
          page_run page 0 (PAGE_ALIGN env buffer.size / PAGE_SIZE env) } := by
  simp only [ion_system_contig_heap_free, h, free_page_range_eq]

/-- C12: for `len > 0` whose span the buddy allocator hands out (an order below
31, for which `1 << order` is an `int`, and a span whose byte size fits an
`unsigned long`), `ion_system_contig_heap_allocate` requests the order
`get_order(len)`, the smallest order with `len ≤ PAGE_SIZE << order`, releases
exactly the tail pages `PAGE_ALIGN(len) / PAGE_SIZE .. 2 ^ order - 1` and keeps
the first `PAGE_ALIGN(len) / PAGE_SIZE` pages in a table of one entry;
`ion_system_contig_heap_free` of that buffer with `size = len` releases exactly
the kept pages, so trim and free together release every page of the span
exactly once. -/
theorem contig_allocate_trim_and_free (env : Env) (w : World) (buffer : ion_buffer)
    (len page : Nat) (hlen : 0 < len)
    (hint : get_order env len < 31)
    (hlong : env.PAGE_SHIFT + get_order env len < 64)
    (hpage : env.alloc_pages w.tick (get_order env len) = some page)
    (hkm : env.kmalloc (w.tick + 1) 16 = true)
    (hsg : env.sg_alloc_table (w.tick + 2) 1 = 0) :
    (len ≤ PAGE_SIZE env * 2 ^ get_order env len ∧
      ∀ o : Nat, len ≤ PAGE_SIZE env * 2 ^ o → get_order env len ≤ o) ∧
    PAGE_ALIGN env len / PAGE_SIZE env ≤ 2 ^ get_order env len ∧
    ∃ (buffer1 : ion_buffer) (w1 : World),
      ion_system_contig_heap_allocate env w buffer len = (0, buffer1, w1) ∧
      buffer1.sg_table = some [⟨page, PAGE_ALIGN env len % U32⟩] ∧
      w1.sys_allocated = w.sys_allocated ++ [(page, get_order env len)] ∧
      w1.sys_released = w.sys_released ++
        page_run page (PAGE_ALIGN env len / PAGE_SIZE env) (2 ^ get_order env len) ∧
      ∃ w2 : World,
        ion_system_contig_heap_free env w1 { buffer1 with size := len } = .ok w2 ∧
        w2.sys_allocated = w1.sys_allocated ∧
        w2.sys_released = w1.sys_released ++
          page_run page 0 (PAGE_ALIGN env len / PAGE_SIZE env) ∧
        (w2.sys_released.drop w.sys_released.length).Perm
          (page_run page 0 (2 ^ get_order env len)) ∧
        (page_run page 0 (2 ^ get_order env len)).Nodup := by
  obtain ⟨h1, _, h3⟩ := get_order_least env len (by omega)
  obtain ⟨_, _, hk⟩ := PAGE_ALIGN_pages env len hlen hlong
  have hrun := contig_allocate_run env w buffer len page hint hpage
  rw [if_pos ⟨hkm, hsg⟩] at hrun
  refine ⟨⟨h1, h3⟩, hk, _, _, hrun, rfl, rfl, rfl, _,
    contig_free_run env _ _ page _ rfl, rfl, rfl, ?_, page_run_nodup _ _ _⟩
  simp only [List.append_assoc, List.drop_left]
  exact page_run_split page _ _ hk

/-- Witness of C12: a request of five pages gets a span of order 3, the pages
`1005 .. 1007` are trimmed, and free releases the pages `1000 .. 1004`. -/
theorem contig_allocate_trim_and_free_witness :
    ∃ (buffer1 : ion_buffer) (w1 w2 : World),
      ion_system_contig_heap_allocate (mk_env [9, 4, 0] 128 (fun _ _ => some 1000) (fun _ => true))
        (empty_world [9, 4, 0]) plain_buffer 20480 = (0, buffer1, w1) ∧
      w1.sys_allocated = [(1000, 3)] ∧
      w1.sys_released = [(1005, 0), (1006, 0), (1007, 0)] ∧
      ion_system_contig_heap_free (mk_env [9, 4, 0] 128 (fun _ _ => some 1000) (fun _ => true))
        w1 { buffer1 with size := 20480 } = .ok w2 ∧
      w2.sys_released = [(1005, 0), (1006, 0), (1007, 0),
        (1000, 0), (1001, 0), (1002, 0), (1003, 0), (1004, 0)] := by
  obtain ⟨_, _, buffer1, w1, h1, _, h3, h4, w2, h5, _, h7, _⟩ :=
    contig_allocate_trim_and_free (mk_env [9, 4, 0] 128 (fun _ _ => some 1000) (fun _ => true))
      (empty_world [9, 4, 0]) plain_buffer 20480 1000 (by decide) (by decide!) (by decide!)
      (by decide!) rfl rfl
  refine ⟨buffer1, w1, w2, h1, ?_, ?_, h5, ?_⟩
  · rw [h3]; decide!
  · rw [h4]; decide!
  · rw [h7, h4]; decide!

/-! ## The page table of the merge -/

/-- The bytes of a list of blocks are its pages times `PAGE_SIZE`. -/
theorem fresh_bytes_eq (env : Env) (blocks : List page_info) :
    fresh_bytes env blocks = fresh_pages blocks * PAGE_SIZE env := by
  unfold fresh_bytes fresh_pages
  induction blocks with
  | nil => simp
  | cons b l ih => simp only [List.map_cons, List.sum_cons, ih]; ring

theorem fresh_pages_append (a b : List page_info) :
    fresh_pages (a ++ b) = fresh_pages a + fresh_pages b := by
  simp [fresh_pages]

theorem fresh_bytes_append (env : Env) (a b : List page_info) :
    fresh_bytes env (a ++ b) = fresh_bytes env a + fresh_bytes env b := by
  simp [fresh_bytes]

theorem page_stores_length (i : Nat) (blocks : List page_info) :
    (page_stores i blocks).length = fresh_pages blocks := by
  induction blocks generalizing i with
  | nil => rfl
  | cons b l ih =>
    simp only [page_stores, List.length_append, List.length_map, List.length_range, ih]
    simp [fresh_pages]

/-- While the index does not leave the range of `unsigned int`, the stores for a
list of blocks go to the consecutive indices from `i` on. -/
theorem page_stores_index (i : Nat) (blocks : List page_info)
    (h : i + fresh_pages blocks < U32) :
    (page_stores i blocks).map Prod.fst = List.range' i (fresh_pages blocks) := by
  induction blocks generalizing i with
  | nil => simp [page_stores, fresh_pages]
  | cons b l ih =>
    have hsum : fresh_pages (b :: l) = 2 ^ b.order + fresh_pages l := by simp [fresh_pages]
    rw [hsum] at h
    rw [hsum]
    have hrec := ih ((i + 2 ^ b.order) % U32)
    simp only [page_stores, List.map_append, List.map_map]
    generalize 2 ^ b.order = p at h hrec ⊢
    have hnext : (i + p) % U32 = i + p := Nat.mod_eq_of_lt (by omega)
    rw [hnext] at hrec ⊢
    rw [hrec (by omega), Nat.add_comm p (fresh_pages l), ← List.range'_append_1]
    congr 1
    apply List.ext_getElem
    · simp
    · intro n h1 h2
      simp only [List.length_map, List.length_range] at h1
      simp only [List.getElem_map, List.getElem_range, Function.comp_apply, List.getElem_range']
      rw [Nat.mod_eq_of_lt (by omega)]
      omega

/-- The merge loop, run as in `merge_loop_spec`, makes the stores of
`page_stores` for the fresh list and leaves the index after the last of them. -/
theorem merge_loop_stores (env : Env) (n : Nat) (m : merge_state)
    (hn : n = m.pages.length + m.pages_from_pool.length)
    (hs : m.sync_left = m.pages.length) (hi : m.i < U32) :
    ∃ m1, merge_loop env n m = .ok m1 ∧
      m1.data_pages = m.data_pages ++ page_stores m.i m.pages ∧
      m1.i = (m.i + fresh_pages m.pages) % U32 := by
  have hU : 0 < U32 := by unfold U32; positivity
  induction n generalizing m with
  | zero =>
    have h1 : m.pages = [] := List.length_eq_zero.mp (by omega)
    refine ⟨m, rfl, ?_, ?_⟩
    · simp [h1, page_stores]
    · simp [h1, fresh_pages, Nat.mod_eq_of_lt hi]
  | succ n ih =>
    obtain ⟨pages, pool, table, table_sync, sync_left, data_pages, i⟩ := m
    simp only at hn hs hi
    cases pages with
    | nil =>
      cases pool with
      | nil => simp at hn
      | cons p pool =>
        simp only [List.length_nil, List.length_cons, zero_add, add_left_inj] at hn
        have hstep : merge_step env ⟨[], p :: pool, table, table_sync, sync_left, data_pages, i⟩
            = .ok ⟨[], pool, table ++ [sg_of env p], table_sync, sync_left, data_pages, i⟩ := by
          simp [merge_step, process_info, sg_of]
        obtain ⟨m1, h1, h2, h3⟩ := ih
          ⟨[], pool, table ++ [sg_of env p], table_sync, sync_left, data_pages, i⟩
          (by simpa using hn) (by simpa using hs) hi
        refine ⟨m1, ?_, h2, h3⟩
        simp only [merge_loop, hstep]; exact h1
    | cons f pages =>
      simp only [List.length_cons] at hs
      have hsum : fresh_pages (f :: pages) = 2 ^ f.order + fresh_pages pages := by
        simp [fresh_pages]
      have hfresh : ∀ (pool1 pool2 : List page_info),
          n = pages.length + pool2.length →
          merge_step env ⟨f :: pages, pool1, table, table_sync, sync_left, data_pages, i⟩
            = .ok ⟨pages, pool2, table ++ [sg_of env f], table_sync ++ [sg_of env f],
                sync_left - 1, data_pages ++ (List.range (2 ^ f.order)).map
                  (fun j => ((i + j) % U32, f.page + j)), (i + 2 ^ f.order) % U32⟩ →
          ∃ m1, merge_loop env (n + 1)
              ⟨f :: pages, pool1, table, table_sync, sync_left, data_pages, i⟩ = .ok m1 ∧
            m1.data_pages = data_pages ++ page_stores i (f :: pages) ∧
            m1.i = (i + fresh_pages (f :: pages)) % U32 := by
        intro pool1 pool2 hlen hstep
        obtain ⟨m1, h1, h2, h3⟩ := ih
          ⟨pages, pool2, table ++ [sg_of env f], table_sync ++ [sg_of env f],
                sync_left - 1, data_pages ++ (List.range (2 ^ f.order)).map
                  (fun j => ((i + j) % U32, f.page + j)), (i + 2 ^ f.order) % U32⟩
          hlen (by simp; omega) (Nat.mod_lt _ hU)
        refine ⟨m1, ?_, ?_, ?_⟩
        · simp only [merge_loop, hstep]; exact h1
        · rw [h2]; simp [page_stores]
        · rw [h3, hsum]; simp only [Nat.mod_add_mod, Nat.add_assoc]
      cases pool with
      | nil =>
        exact hfresh [] [] (by simp at hn ⊢; omega)
          (by simp [merge_step, process_info, sg_of, sg_sync_next, hs])
      | cons p pool =>
        by_cases h : f.order ≥ p.order
        · exact hfresh (p :: pool) (p :: pool) (by simp at hn ⊢; omega)
            (by simp [merge_step, process_info, sg_of, sg_sync_next, hs, h])
        · have hstep : merge_step env
              ⟨f :: pages, p :: pool, table, table_sync, sync_left, data_pages, i⟩
              = .ok ⟨f :: pages, pool, table ++ [sg_of env p], table_sync,
                  sync_left, data_pages, i⟩ := by
            simp [merge_step, process_info, sg_of, h]
          obtain ⟨m1, h1, h2, h3⟩ := ih
            ⟨f :: pages, pool, table ++ [sg_of env p], table_sync,
                  sync_left, data_pages, i⟩
            (by simp at hn ⊢; omega) (by simpa using hs) hi
          refine ⟨m1, ?_, h2, h3⟩
          simp only [merge_loop, hstep]; exact h1

/-- An invariant of the local variables that the bookkeeping of a round keeps,
whatever `ret` is, holds however the first loop is left. -/
theorem alloc_loop_invariant (env : Env) (buffer : ion_buffer) (I : alloc_locals → Prop)
    (hacc : ∀ s info, I s → I (alloc_account env s info))
    (hret : ∀ s r, I s → I { s with ret := r })
    (fuel : Nat) (w : World) (s : alloc_locals) (exit : loop_exit) (w1 : World)
    (s1 : alloc_locals) (hs : I s)
    (h : alloc_loop env buffer fuel w s = .ok (exit, w1, s1)) : I s1 := by
  induction fuel generalizing w s with
  | zero =>
    unfold alloc_loop at h
    split at h
    · simp only [Except.ok.injEq, Prod.mk.injEq] at h
      obtain ⟨_, _, h3⟩ := h
      subst h3
      exact hs
    · simp at h
  | succ fuel ih =>
    unfold alloc_loop at h
    split at h
    · simp only [Except.ok.injEq, Prod.mk.injEq] at h
      obtain ⟨_, _, h3⟩ := h
      subst h3
      exact hs
    · simp only at h
      split at h
      · simp only [Except.ok.injEq, Prod.mk.injEq] at h
        obtain ⟨_, _, h3⟩ := h
        subst h3
        exact hs
      · split at h
        · simp at h
        · simp only [Except.ok.injEq, Prod.mk.injEq] at h
          obtain ⟨_, _, h3⟩ := h
          subst h3
          exact hret s _ hs
        · exact ih _ _ (hacc s _ hs) h

/-- The first loop is left by its condition only with `size_remaining = 0`. -/
theorem alloc_loop_done (env : Env) (buffer : ion_buffer) (fuel : Nat) (w : World)
    (s : alloc_locals) (w1 : World) (s1 : alloc_locals)
    (h : alloc_loop env buffer fuel w s = .ok (.done, w1, s1)) : s1.size_remaining = 0 := by
  induction fuel generalizing w s with
  | zero =>
    unfold alloc_loop at h
    split at h
    · rename_i h0
      simp only [Except.ok.injEq, Prod.mk.injEq] at h
      obtain ⟨_, _, h3⟩ := h
      subst h3
      exact h0
    · simp at h
  | succ fuel ih =>
    unfold alloc_loop at h
    split at h
    · rename_i h0
      simp only [Except.ok.injEq, Prod.mk.injEq] at h
      obtain ⟨_, _, h3⟩ := h
      subst h3
      exact h0
    · simp only at h
      split at h
      · simp at h
      · split at h
        · simp at h
        · simp at h
        · exact ih _ _ h

/-- The value of `data.size` after the first loop: the bytes of the fresh
blocks, reduced to the 32 bits of the field. -/
theorem alloc_loop_data_size (env : Env) (buffer : ion_buffer) (fuel : Nat) (w : World)
    (size : Nat) (exit : loop_exit) (w1 : World) (s : alloc_locals)
    (h : alloc_loop env buffer fuel w (alloc_locals_init env size) = .ok (exit, w1, s)) :
    s.data_size = fresh_bytes env s.pages % U32 := by
  refine alloc_loop_invariant env buffer (fun s => s.data_size = fresh_bytes env s.pages % U32)
    ?_ ?_ fuel w _ exit w1 s ?_ h
  · intro s info hs
    cases hfp : info.from_pool
    · simp only [alloc_account, hfp, Bool.false_eq_true, if_false, fresh_bytes_append, hs]
      simp [fresh_bytes]
    · simpa [alloc_account, hfp] using hs
  · intro s r hs
    exact hs
  · simp [alloc_locals_init, fresh_bytes]

/-- A first loop entered with bytes to cover and left by its condition obtained
at least one block. -/
theorem alloc_loop_blocks (env : Env) (buffer : ion_buffer) (fuel : Nat) (w : World)
    (size : Nat) (w1 : World) (s : alloc_locals) (hsize : PAGE_ALIGN env size ≠ 0)
    (h : alloc_loop env buffer fuel w (alloc_locals_init env size) = .ok (.done, w1, s)) :
    s.i ≠ 0 := by
  have hinv : s.i ≠ 0 ∨ s.size_remaining ≠ 0 :=
    alloc_loop_invariant env buffer (fun s => s.i ≠ 0 ∨ s.size_remaining ≠ 0)
      (fun s info _ => Or.inl (by
        cases hfp : info.from_pool <;> simp [alloc_account, hfp]))
      (fun s r hs => hs) fuel w _ .done w1 s (Or.inr (by simpa [alloc_locals_init] using hsize)) h
  rcases hinv with h1 | h1
  · exact h1
  · exact absurd (alloc_loop_done env buffer fuel w _ w1 s h) h1


/-- The merge of the lists of a first loop that obtained at least one block:
the loop returns, with both lists empty, one table entry per block, one sync
entry per fresh block, the stores of `page_stores` and the index after them. -/
theorem merge_lists_stores (env : Env) (s : alloc_locals) (hok : lists_ok s) (hi : s.i ≠ 0) :
    ∃ m, merge_lists env s.i s.nents_sync s.pages s.pages_from_pool = .ok m ∧
      m.pages = [] ∧ m.pages_from_pool = [] ∧ m.table.length = s.i ∧
      m.table_sync.length = s.nents_sync ∧ m.sync_left = 0 ∧
      m.data_pages = page_stores 0 s.pages ∧ m.i = fresh_pages s.pages % U32 := by
  obtain ⟨m1, hm1, hm2, hm3, hm4, hm5, hm6⟩ := merge_loop_spec env s.i
    { pages := s.pages, pages_from_pool := s.pages_from_pool, table := [],
      table_sync := [], sync_left := s.nents_sync, data_pages := [], i := 0 }
    hok.count hok.sync
  obtain ⟨m2, hn1, hn2, hn3⟩ := merge_loop_stores env s.i
    { pages := s.pages, pages_from_pool := s.pages_from_pool, table := [],
      table_sync := [], sync_left := s.nents_sync, data_pages := [], i := 0 }
    hok.count hok.sync (by unfold U32; simp)
  rw [hm1] at hn1
  simp only [Except.ok.injEq] at hn1
  subst hn1
  refine ⟨m1, ?_, hm4, hm5, ?_, ?_, hm6, by simpa using hn2, by simpa using hn3⟩
  · simp only [merge_lists, hi, if_false]; exact hm1
  · rw [hm2]
    simp only [List.nil_append, List.length_map]
    rw [(spec_stable_merge_perm s.pages s.pages_from_pool).length_eq, List.length_append]
    exact hok.count.symm
  · rw [hm3]
    simp only [List.nil_append, List.length_map]
    exact hok.sync.symm

/-- The general part of C13: a decomposition whose fresh blocks total less than
`2 ^ 32` bytes. -/
theorem allocate_merge_in_bounds (env : Env) (buffer : ion_buffer) (fuel : Nat)
    (w w1 : World) (size : Nat) (s : alloc_locals)
    (hloop : alloc_loop env buffer fuel w (alloc_locals_init env size) = .ok (.done, w1, s))
    (hsize : PAGE_ALIGN env size ≠ 0)
    (hfit : fresh_bytes env s.pages < U32) :
    ∃ m, merge_lists env s.i s.nents_sync s.pages s.pages_from_pool = .ok m ∧
      s.i = s.pages.length + s.pages_from_pool.length ∧ m.table.length = s.i ∧
      m.pages = [] ∧ m.pages_from_pool = [] ∧
      s.data_size / PAGE_SIZE env = fresh_pages s.pages ∧
      m.data_pages.map Prod.fst = List.range (s.data_size / PAGE_SIZE env) ∧
      m.i = s.data_size / PAGE_SIZE env ∧
      s.nents_sync = s.pages.length ∧ m.table_sync.length = s.nents_sync ∧
      m.sync_left = 0 := by
  have hpos : 0 < PAGE_SIZE env := by unfold PAGE_SIZE; positivity
  have hok := alloc_loop_lists_ok env buffer fuel w _ _ _ _ (lists_ok_init env size) hloop
  have hi := alloc_loop_blocks env buffer fuel w size w1 s hsize hloop
  have hds := alloc_loop_data_size env buffer fuel w size _ w1 s hloop
  rw [Nat.mod_eq_of_lt hfit, fresh_bytes_eq] at hds
  have hcap : s.data_size / PAGE_SIZE env = fresh_pages s.pages := by
    rw [hds]; exact Nat.mul_div_cancel _ hpos
  have hle : fresh_pages s.pages < U32 := by
    have h1 : fresh_pages s.pages ≤ fresh_pages s.pages * PAGE_SIZE env :=
      Nat.le_mul_of_pos_right _ hpos
    rw [fresh_bytes_eq] at hfit
    omega
  obtain ⟨m, h1, h2, h3, h4, h5, h6, h7, h8⟩ := merge_lists_stores env s hok hi
  refine ⟨m, h1, hok.count, h4, h2, h3, hcap, ?_, ?_, hok.sync, h5, h6⟩
  · rw [h7, hcap, page_stores_index 0 _ (by omega), List.range_eq_range']
  · rw [h8, hcap]; exact Nat.mod_eq_of_lt hle

/-- The greedy decomposition of a multiple of 2 MiB on the Order Table
`{9, 4, 0}` with 4 KiB pages takes blocks of order 9 only. -/
theorem spec_greedy_order9 (a : Nat → Nat → Option Nat) (c : Nat → Bool) (fuel k : Nat)
    (h : k ≤ fuel) :
    spec_greedy (mk_env [9, 4, 0] 128 a c) fuel (k * 2097152) = List.replicate k 9 := by
  induction fuel generalizing k with
  | zero =>
    have : k = 0 := by omega
    subst this
    rfl
  | succ fuel ih =>
    cases k with
    | zero => simp [spec_greedy]
    | succ k =>
      have hne : (k + 1) * 2097152 ≠ 0 := by omega
      have hfitting : spec_largest_fit (mk_env [9, 4, 0] 128 a c) ((k + 1) * 2097152) = some 9 := by
        have h9 : 2 ^ 12 * 2 ^ 9 ≤ (k + 1) * 2097152 := by norm_num
        have h4 : 2 ^ 12 * 2 ^ 4 ≤ (k + 1) * 2097152 := by norm_num; omega
        have h0 : 2 ^ 12 * 2 ^ 0 ≤ (k + 1) * 2097152 := by norm_num; omega
        simp only [spec_largest_fit, mk_env, PAGE_SIZE, List.filter, h9, h4, h0, decide_True]
        rfl
      have hrem : (k + 1) * 2097152 - PAGE_SIZE (mk_env [9, 4, 0] 128 a c) * 2 ^ 9
          = k * 2097152 := by
        simp only [PAGE_SIZE, mk_env]
        norm_num
        omega
      simp only [spec_greedy, hne, if_false, hfitting, hrem, List.replicate_succ]
      rw [ih k (by omega)]


/-- The pages of a list of blocks, from the orders of the blocks. -/
theorem fresh_pages_orders (blocks : List page_info) :
    fresh_pages blocks = ((blocks.map (fun b => b.order)).map (fun o => 2 ^ o)).sum := by
  simp [fresh_pages, List.map_map, Function.comp_def]

/-- Every pool of `empty_world [9, 4, 0]` is empty. -/
theorem empty_world_count (sel : pool_sel) (idx : Nat) :
    (empty_world [9, 4, 0]).count sel idx = 0 := by
  cases sel with
  | secure v => simp [World.count, World.pools, empty_world]
  | uncached =>
    simp only [World.count, World.pools, empty_world, List.map_cons, List.map_nil]
    rcases idx with _ | _ | _ | idx <;> simp
  | cached =>
    simp only [World.count, World.pools, empty_world, List.map_cons, List.map_nil]
    rcases idx with _ | _ | _ | idx <;> simp

/-- The request of 4 GiB on the Order Table `{9, 4, 0}` with empty pools, 8 GiB of
RAM and a kernel whose allocations all succeed: the first loop obtains 2048
fresh blocks of order 9, `data.size` wraps to `0`, and the merge makes
`1048576` stores into the page table. -/
theorem allocate_four_gib :
    ∃ (b1 : ion_buffer) (w1 w2 : World) (s : alloc_locals) (m : merge_state),
      ion_system_heap_allocate (mk_env [9, 4, 0] 128 (fun t _ => some (1000 + t)) (fun _ => true))
        1048576 (empty_world [9, 4, 0]) plain_buffer 4294967296 = .ok (0, b1, w2) ∧
      alloc_loop (mk_env [9, 4, 0] 128 (fun t _ => some (1000 + t)) (fun _ => true))
        plain_buffer 1048576 (empty_world [9, 4, 0])
        (alloc_locals_init (mk_env [9, 4, 0] 128 (fun t _ => some (1000 + t)) (fun _ => true))
          4294967296) = .ok (.done, w1, s) ∧
      merge_lists (mk_env [9, 4, 0] 128 (fun t _ => some (1000 + t)) (fun _ => true))
        s.i s.nents_sync s.pages s.pages_from_pool = .ok m ∧
      s.pages.map (fun b => b.order) = List.replicate 2048 9 ∧ s.pages_from_pool = [] ∧
      s.data_size / PAGE_SIZE (mk_env [9, 4, 0] 128 (fun t _ => some (1000 + t)) (fun _ => true))
        = 0 ∧
      m.data_pages.length = 1048576 ∧ m.i = 1048576 := by
  have hdesc : (mk_env [9, 4, 0] 128 (fun t _ => some (1000 + t)) (fun _ => true)).orders.Pairwise
      (fun a b => a > b) := by decide
  have hfit : ∀ o ∈ (mk_env [9, 4, 0] 128 (fun t _ => some (1000 + t)) (fun _ => true)).orders,
      (mk_env [9, 4, 0] 128 (fun t _ => some (1000 + t)) (fun _ => true)).PAGE_SHIFT + o < 32 := by
    decide
  have hc : heap_created (mk_env [9, 4, 0] 128 (fun t _ => some (1000 + t)) (fun _ => true))
      (empty_world [9, 4, 0]) := by
    unfold heap_created pools_created; decide
  have halign : PAGE_ALIGN (mk_env [9, 4, 0] 128 (fun t _ => some (1000 + t)) (fun _ => true))
      4294967296 = 2048 * 2097152 := by decide!
  obtain ⟨b, w2, hall, _⟩ := allocate_greedy_general
    (mk_env [9, 4, 0] 128 (fun t _ => some (1000 + t)) (fun _ => true)) 1048576
    (empty_world [9, 4, 0]) plain_buffer 4294967296 hdesc (by decide) hfit rfl (by decide) hc
    empty_world_count (fun _ _ => rfl) (fun _ => rfl) (fun _ _ => rfl) (fun _ _ => rfl)
    (by decide) (by decide!) (by decide!) (by decide!)
  obtain ⟨hdvd, hlt⟩ := PAGE_ALIGN_facts
    (mk_env [9, 4, 0] 128 (fun t _ => some (1000 + t)) (fun _ => true)) 4294967296
  obtain ⟨w1, s, blocks, hloop, g1, g2, g3, _⟩ := alloc_loop_greedy
    (mk_env [9, 4, 0] 128 (fun t _ => some (1000 + t)) (fun _ => true)) plain_buffer
    hdesc (by decide) hfit rfl (by decide) (fun _ _ => rfl) (fun _ => rfl) 1048576
    (empty_world [9, 4, 0])
    (alloc_locals_init (mk_env [9, 4, 0] 128 (fun t _ => some (1000 + t)) (fun _ => true))
      4294967296) hc (fun idx => empty_world_count _ idx) hdvd hlt
    (fun o ho _ => head_is_largest _ hdesc o ho) (by decide!)
  simp only [alloc_locals_init, List.nil_append] at g1 g2 g3
  rw [halign, spec_greedy_order9 _ _ 1048576 2048 (by decide), ← g1] at g3
  have hok := alloc_loop_lists_ok _ plain_buffer 1048576 (empty_world [9, 4, 0]) _ _ _ _
    (lists_ok_init _ 4294967296) hloop
  have hi := alloc_loop_blocks _ plain_buffer 1048576 (empty_world [9, 4, 0]) 4294967296 w1 s
    (by rw [halign]; decide) hloop
  have hpages : fresh_pages s.pages = 1048576 := by
    rw [fresh_pages_orders, g3, List.map_replicate, List.sum_replicate]
    norm_num
  have hds := alloc_loop_data_size _ plain_buffer 1048576 (empty_world [9, 4, 0]) 4294967296 _
    w1 s hloop
  rw [fresh_bytes_eq, hpages] at hds
  have hds0 : s.data_size = 0 := by rw [hds]; decide
  obtain ⟨m, h1, _, _, _, _, _, h7, h8⟩ := merge_lists_stores
    (mk_env [9, 4, 0] 128 (fun t _ => some (1000 + t)) (fun _ => true)) s hok hi
  refine ⟨_, w1, w2, s, m, hall, hloop, h1, g3, g2, by rw [hds0]; simp, ?_, ?_⟩
  · rw [h7, page_stores_length, hpages]
  · rw [h8, hpages]; decide


/-- C13: the merge loop of `ion_system_heap_allocate` after a first loop that was
left by its condition with at least one block runs once per block (the table has
`i` entries, the number of blocks), empties both lists and advances the sync
cursor once per fresh block, `nents_sync` times in all.  When the fresh blocks
total less than `2 ^ 32` bytes, the capacity `data.size / PAGE_SIZE` of the page
table is the sum of `2 ^ order` over the fresh blocks, the stores
`data->pages[i]` go to the indices `0, 1, ...` below the capacity, each once, and
the final index is the capacity.  The field `data.size` is a `u32`: for the
request of 4 GiB on the Order Table `{9, 4, 0}` with empty pools and 8 GiB of RAM
the request passes the size guard, the first loop obtains 2048 fresh blocks of
order 9, `data.size` wraps to `0`, the call returns `0`, and the merge makes
`1048576` stores into a page table of capacity `0`. -/
theorem merge_page_table_capacity :
    (∀ (env : Env) (buffer : ion_buffer) (fuel : Nat) (w w1 : World) (size : Nat)
      (s : alloc_locals),
      alloc_loop env buffer fuel w (alloc_locals_init env size) = .ok (.done, w1, s) →
      PAGE_ALIGN env size ≠ 0 →
      fresh_bytes env s.pages < U32 →
      ∃ m, merge_lists env s.i s.nents_sync s.pages s.pages_from_pool = .ok m ∧
        s.i = s.pages.length + s.pages_from_pool.length ∧ m.table.length = s.i ∧
        m.pages = [] ∧ m.pages_from_pool = [] ∧
        s.data_size / PAGE_SIZE env = fresh_pages s.pages ∧
        m.data_pages.map Prod.fst = List.range (s.data_size / PAGE_SIZE env) ∧
        m.i = s.data_size / PAGE_SIZE env ∧
        s.nents_sync = s.pages.length ∧ m.table_sync.length = s.nents_sync ∧
        m.sync_left = 0) ∧
    (∃ (b1 : ion_buffer) (w1 w2 : World) (s : alloc_locals) (m : merge_state),
      ion_system_heap_allocate (mk_env [9, 4, 0] 128 (fun t _ => some (1000 + t)) (fun _ => true))
        1048576 (empty_world [9, 4, 0]) plain_buffer 4294967296 = .ok (0, b1, w2) ∧
      alloc_loop (mk_env [9, 4, 0] 128 (fun t _ => some (1000 + t)) (fun _ => true))
        plain_buffer 1048576 (empty_world [9, 4, 0])
        (alloc_locals_init (mk_env [9, 4, 0] 128 (fun t _ => some (1000 + t)) (fun _ => true))
          4294967296) = .ok (.done, w1, s) ∧
      merge_lists (mk_env [9, 4, 0] 128 (fun t _ => some (1000 + t)) (fun _ => true))
        s.i s.nents_sync s.pages s.pages_from_pool = .ok m ∧
      s.pages.map (fun b => b.order) = List.replicate 2048 9 ∧ s.pages_from_pool = [] ∧
      s.data_size / PAGE_SIZE (mk_env [9, 4, 0] 128 (fun t _ => some (1000 + t)) (fun _ => true))
        = 0 ∧
      m.data_pages.length = 1048576 ∧ m.i = 1048576) :=
  ⟨fun env buffer fuel w w1 size s hloop hsize hfit =>
      allocate_merge_in_bounds env buffer fuel w w1 size s hloop hsize hfit,
    allocate_four_gib⟩

/-- Witness of C13: the request of 272 pages on the Order Table `{8, 4, 0}` with
empty pools: two fresh blocks, a page table of capacity 272, and the stores of
the merge at the indices `0 .. 271`. -/
theorem merge_page_table_capacity_witness :
    ∃ m, merge_lists (mk_env [8, 4, 0] 128 (fun t _ => some (1000 + t)) (fun _ => true)) 2 2
        [⟨1000, false, 8⟩, ⟨1001, false, 4⟩] [] = .ok m ∧
      m.table.length = 2 ∧ m.pages = [] ∧ m.pages_from_pool = [] ∧
      m.data_pages.map Prod.fst = List.range 272 ∧ m.i = 272 ∧
      m.table_sync.length = 2 ∧ m.sync_left = 0 := by
  obtain ⟨m, h1, _, h3, h4, h5, _, h7, h8, _, h10, h11⟩ := merge_page_table_capacity.1
    (mk_env [8, 4, 0] 128 (fun t _ => some (1000 + t)) (fun _ => true)) plain_buffer 3
    (empty_world [8, 4, 0])
    { empty_world [8, 4, 0] with
      tick := 2, NR_UNRECLAIMABLE_PAGES := 272, sys_allocated := [(1000, 8), (1001, 4)],
      synced := [(1000, 1048576), (1001, 65536)] }
    (272 * 4096)
    { pages := [⟨1000, false, 8⟩, ⟨1001, false, 4⟩], pages_from_pool := [], i := 2,
      nents_sync := 2, size_remaining := 0, max_order := 4, data_size := 1114112, ret := 0 }
    (by decide!) (by decide!) (by decide!)
  exact ⟨m, h1, h3, h4, h5, h7, h8, h10, h11⟩

end IonSystemHeap
